import Mathlib

/-!
# Zap-to-zerolog call rewriting: a shallow embedding of `go/pkg/ast` and `go/pkg/ast2`

The two Go packages rewrite calls `utils.Logger.<Level>(msg, zap.K(..), ...)` into zerolog
call chains by mutating a `go/ast` syntax tree in place.  The embedding is functional:

* the tree model (`GoAst`) follows the node types of the Go standard library package
  `go/ast`; source positions and comments are dropped;
* a pointer field that `go/ast` documents as "or nil" is an `Option`; a nil `*ast.FieldList`
  is the empty list; the other fields are mandatory, as they are in every tree the parser
  builds;
* in-place mutation becomes returning the rebuilt node;
* a Go run-time panic (explicit `panic`, failed type assertion, index out of range) is the
  result `none`.

Two small utilities of the repository follow the rewriters: the struct validator of
`go/pkg/custom_validator` and `parseTimeToSeconds` of `go/pkg/split_audio.go`.
-/

namespace GoAst

/-- Lexical tokens of `go/token`, written by their Go spelling. -/
abbrev Token := String

/-- The token `token.IMPORT`. -/
def Token.IMPORT : Token := "import"

/-- The token `token.STRING`. -/
def Token.STRING : Token := "STRING"

/-- The token `token.VAR`. -/
def Token.VAR : Token := "var"

/-- An `*ast.ImportSpec`: optional local name and the path literal (quotes included). -/
structure ImportSpec where
  name : Option String
  path : String

mutual
/-- The expression nodes of `go/ast` (`ast.Expr`). -/
inductive Expr where
  | badExpr
  | ident (name : String)
  | ellipsis (elt : Option Expr)
  | basicLit (kind : Token) (value : String)
  | funcLit (typeParams params results : List Field) (body : List Stmt)
  | compositeLit (type : Option Expr) (elts : List Expr)
  | parenExpr (x : Expr)
  | selectorExpr (x : Expr) (sel : String)
  | indexExpr (x index : Expr)
  | indexListExpr (x : Expr) (indices : List Expr)
  | sliceExpr (x : Expr) (low high max : Option Expr) (slice3 : Bool)
  | typeAssertExpr (x : Expr) (type : Option Expr)
  | callExpr (call : CallExpr)
  | starExpr (x : Expr)
  | unaryExpr (op : Token) (x : Expr)
  | binaryExpr (x : Expr) (op : Token) (y : Expr)
  | keyValueExpr (key value : Expr)
  | arrayType (len : Option Expr) (elt : Expr)
  | structType (fields : List Field)
  | funcType (typeParams params results : List Field)
  | interfaceType (methods : List Field)
  | mapType (key value : Expr)
  | chanType (dir : Nat) (value : Expr)
/-- The node `*ast.CallExpr`: callee `Fun` and arguments `Args`. -/
inductive CallExpr where
  | mk (fn : Expr) (args : List Expr)
/-- The statement nodes of `go/ast` (`ast.Stmt`); a `*ast.BlockStmt` is its statement list. -/
inductive Stmt where
  | badStmt
  | declStmt (tok : Token) (specs : List Spec)
  | emptyStmt
  | labeledStmt (label : String) (stmt : Stmt)
  | exprStmt (x : Expr)
  | sendStmt (chan value : Expr)
  | incDecStmt (x : Expr) (tok : Token)
  | assignStmt (lhs : List Expr) (tok : Token) (rhs : List Expr)
  | goStmt (call : CallExpr)
  | deferStmt (call : CallExpr)
  | returnStmt (results : List Expr)
  | branchStmt (tok : Token) (label : Option String)
  | blockStmt (list : List Stmt)
  | ifStmt (init : Option Stmt) (cond : Expr) (body : List Stmt) (els : Option Stmt)
  | caseClause (list : List Expr) (body : List Stmt)
  | switchStmt (init : Option Stmt) (tag : Option Expr) (body : List Stmt)
  | typeSwitchStmt (init : Option Stmt) (assign : Stmt) (body : List Stmt)
  | commClause (comm : Option Stmt) (body : List Stmt)
  | selectStmt (body : List Stmt)
  | forStmt (init : Option Stmt) (cond : Option Expr) (post : Option Stmt) (body : List Stmt)
  | rangeStmt (key value : Option Expr) (tok : Token) (x : Expr) (body : List Stmt)
/-- The node `*ast.Field` of a field list: names, type and tag. -/
inductive Field where
  | mk (names : List String) (type : Option Expr) (tag : Option String)
/-- The specification nodes of a general declaration (`ast.Spec`). -/
inductive Spec where
  | importSpec (spec : ImportSpec)
  | valueSpec (names : List String) (type : Option Expr) (values : List Expr)
  | typeSpec (name : String) (typeParams : List Field) (type : Expr)
end

/-- Callee of a call expression (`call.Fun`). -/
def CallExpr.fn : CallExpr → Expr
  | .mk f _ => f

/-- Arguments of a call expression (`call.Args`). -/
def CallExpr.args : CallExpr → List Expr
  | .mk _ a => a

/-- The node `*ast.FuncDecl`; `recv` is the receiver field list (nil is the empty list) and
`body` is nil for a declaration without body. -/
structure FuncDecl where
  recv : List Field
  name : String
  typeParams : List Field
  params : List Field
  results : List Field
  body : Option (List Stmt)

/-- The top-level declarations (`ast.Decl`).  A `*ast.DeclStmt` holds a general declaration
only, so function declarations occur at top level only. -/
inductive Decl where
  | badDecl
  | genDecl (tok : Token) (specs : List Spec)
  | funcDecl (fd : FuncDecl)

/-- The node `*ast.File`: package name, declarations, and the separate list `Imports` of
the import specs the parser found. -/
structure File where
  name : String
  decls : List Decl
  imports : List ImportSpec

/-! ### `ast.Inspect`

Both packages call `ast.Inspect` with a closure that sets a flag at the first node satisfying a
test on expression nodes and then stops.  `inspectExpr p e` is the final value of that flag:
whether some node that `ast.Walk` visits below `e` (in its depth-first order, `e` included)
satisfies `p`.  Identifier and literal children (`Sel`, labels, names, tags, import paths) are
visited as the `Ident` and `BasicLit` nodes they are. -/

/-- Visit a list of identifier nodes. -/
def inspectIdents (p : Expr → Bool) (names : List String) : Bool :=
  names.any (fun n => p (.ident n))

/-- Visit an optional identifier node. -/
def inspectIdentOpt (p : Expr → Bool) : Option String → Bool
  | none => false
  | some n => p (.ident n)

/-- Visit an optional string literal node. -/
def inspectLitOpt (p : Expr → Bool) : Option String → Bool
  | none => false
  | some v => p (.basicLit Token.STRING v)

mutual
/-- Walk an expression (`ast.Walk`, expression cases): the node itself, then its children. -/
def inspectExpr (p : Expr → Bool) : Expr → Bool
  | .badExpr => p .badExpr
  | .ident n => p (.ident n)
  | .ellipsis elt => p (.ellipsis elt) || inspectExprOpt p elt
  | .basicLit k v => p (.basicLit k v)
  | .funcLit tps ps rs body =>
      p (.funcLit tps ps rs body)
        || (p (.funcType tps ps rs) || inspectFields p tps || inspectFields p ps
            || inspectFields p rs)
        || inspectStmts p body
  | .compositeLit t elts =>
      p (.compositeLit t elts) || inspectExprOpt p t || inspectExprs p elts
  | .parenExpr x => p (.parenExpr x) || inspectExpr p x
  | .selectorExpr x sel => p (.selectorExpr x sel) || inspectExpr p x || p (.ident sel)
  | .indexExpr x i => p (.indexExpr x i) || inspectExpr p x || inspectExpr p i
  | .indexListExpr x is => p (.indexListExpr x is) || inspectExpr p x || inspectExprs p is
  | .sliceExpr x lo hi mx s3 =>
      p (.sliceExpr x lo hi mx s3) || inspectExpr p x || inspectExprOpt p lo
        || inspectExprOpt p hi || inspectExprOpt p mx
  | .typeAssertExpr x t => p (.typeAssertExpr x t) || inspectExpr p x || inspectExprOpt p t
  | .callExpr c => p (.callExpr c) || inspectCall p c
  | .starExpr x => p (.starExpr x) || inspectExpr p x
  | .unaryExpr op x => p (.unaryExpr op x) || inspectExpr p x
  | .binaryExpr x op y => p (.binaryExpr x op y) || inspectExpr p x || inspectExpr p y
  | .keyValueExpr k v => p (.keyValueExpr k v) || inspectExpr p k || inspectExpr p v
  | .arrayType len elt => p (.arrayType len elt) || inspectExprOpt p len || inspectExpr p elt
  | .structType fs => p (.structType fs) || inspectFields p fs
  | .funcType tps ps rs =>
      p (.funcType tps ps rs) || inspectFields p tps || inspectFields p ps
        || inspectFields p rs
  | .interfaceType ms => p (.interfaceType ms) || inspectFields p ms
  | .mapType k v => p (.mapType k v) || inspectExpr p k || inspectExpr p v
  | .chanType dir v => p (.chanType dir v) || inspectExpr p v
/-- Walk the children of a call expression: `Fun`, then `Args`. -/
def inspectCall (p : Expr → Bool) : CallExpr → Bool
  | .mk fn args => inspectExpr p fn || inspectExprs p args
/-- Walk a list of expressions. -/
def inspectExprs (p : Expr → Bool) : List Expr → Bool
  | [] => false
  | e :: es => inspectExpr p e || inspectExprs p es
/-- Walk an optional expression (the `if n.X != nil` guards of `ast.Walk`). -/
def inspectExprOpt (p : Expr → Bool) : Option Expr → Bool
  | none => false
  | some e => inspectExpr p e
/-- Walk a statement (`ast.Walk`, statement cases). -/
def inspectStmt (p : Expr → Bool) : Stmt → Bool
  | .badStmt => false
  | .declStmt _ specs => inspectSpecs p specs
  | .emptyStmt => false
  | .labeledStmt label s => p (.ident label) || inspectStmt p s
  | .exprStmt x => inspectExpr p x
  | .sendStmt c v => inspectExpr p c || inspectExpr p v
  | .incDecStmt x _ => inspectExpr p x
  | .assignStmt lhs _ rhs => inspectExprs p lhs || inspectExprs p rhs
  | .goStmt c => p (.callExpr c) || inspectCall p c
  | .deferStmt c => p (.callExpr c) || inspectCall p c
  | .returnStmt rs => inspectExprs p rs
  | .branchStmt _ label => inspectIdentOpt p label
  | .blockStmt l => inspectStmts p l
  | .ifStmt init cond body els =>
      inspectStmtOpt p init || inspectExpr p cond || inspectStmts p body || inspectStmtOpt p els
  | .caseClause l body => inspectExprs p l || inspectStmts p body
  | .switchStmt init tag body =>
      inspectStmtOpt p init || inspectExprOpt p tag || inspectStmts p body
  | .typeSwitchStmt init assign body =>
      inspectStmtOpt p init || inspectStmt p assign || inspectStmts p body
  | .commClause comm body => inspectStmtOpt p comm || inspectStmts p body
  | .selectStmt body => inspectStmts p body
  | .forStmt init cond post body =>
      inspectStmtOpt p init || inspectExprOpt p cond || inspectStmtOpt p post
        || inspectStmts p body
  | .rangeStmt k v _ x body =>
      inspectExprOpt p k || inspectExprOpt p v || inspectExpr p x || inspectStmts p body
/-- Walk a statement list (a block). -/
def inspectStmts (p : Expr → Bool) : List Stmt → Bool
  | [] => false
  | s :: ss => inspectStmt p s || inspectStmts p ss
/-- Walk an optional statement. -/
def inspectStmtOpt (p : Expr → Bool) : Option Stmt → Bool
  | none => false
  | some s => inspectStmt p s
/-- Walk a field: names, type, tag. -/
def inspectField (p : Expr → Bool) : Field → Bool
  | .mk names t tag => inspectIdents p names || inspectExprOpt p t || inspectLitOpt p tag
/-- Walk a field list. -/
def inspectFields (p : Expr → Bool) : List Field → Bool
  | [] => false
  | f :: fs => inspectField p f || inspectFields p fs
/-- Walk a declaration spec. -/
def inspectSpec (p : Expr → Bool) : Spec → Bool
  | .importSpec s => inspectIdentOpt p s.name || p (.basicLit Token.STRING s.path)
  | .valueSpec names t values =>
      inspectIdents p names || inspectExprOpt p t || inspectExprs p values
  | .typeSpec name tps t => p (.ident name) || inspectFields p tps || inspectExpr p t
/-- Walk the specs of a general declaration. -/
def inspectSpecs (p : Expr → Bool) : List Spec → Bool
  | [] => false
  | s :: ss => inspectSpec p s || inspectSpecs p ss
end

/-- Walk a function declaration: receiver, name, type, body. -/
def inspectFuncDecl (p : Expr → Bool) (fd : FuncDecl) : Bool :=
  inspectFields p fd.recv || p (.ident fd.name)
    || (p (.funcType fd.typeParams fd.params fd.results) || inspectFields p fd.typeParams
        || inspectFields p fd.params || inspectFields p fd.results)
    || (match fd.body with
        | none => false
        | some b => inspectStmts p b)

/-- Walk a top-level declaration. -/
def inspectDecl (p : Expr → Bool) : Decl → Bool
  | .badDecl => false
  | .genDecl _ specs => inspectSpecs p specs
  | .funcDecl fd => inspectFuncDecl p fd

/-- Walk a file: package name, then the declarations (`Imports` is not walked). -/
def inspectFile (p : Expr → Bool) (f : File) : Bool :=
  p (.ident f.name) || f.decls.any (inspectDecl p)

end GoAst

/-! ## Package `ast` (`go/pkg/ast/ast.go`): the strict variant -/

namespace Ast
open GoAst

/-- The map `logLevels`: the method names that are log levels. -/
def logLevels : String → Bool
  | "Debug" => true
  | "Info" => true
  | "Warn" => true
  | "Error" => true
  | "Panic" => true
  | "Fatal" => true
  | _ => false

/-- The map `zapToZero` of package `ast`; `none` is a missing key. -/
def zapToZero : String → Option String
  | "String" => some "Str"
  | "Int" => some "Int"
  | "Any" => some "Any"
  | "Error" => some "Err"
  | "Bool" => some "Bool"
  | _ => none

/-- `isUtilsLogger`: the expression is the selector `utils.Logger`. -/
def isUtilsLogger (e : Expr) : Bool :=
  match e with
  | .selectorExpr x sel =>
      match x with
      | .ident name => if name != "utils" then false else sel == "Logger"
      | _ => false
  | _ => false

/-- The test of the closure in `hasZapLoggerCalls` (and of `rewriteExpr`): the node is a call
whose callee is a selector on `utils.Logger` with a log level as method name. -/
def isLoggerCall (n : Expr) : Bool :=
  match n with
  | .callExpr call =>
      match call.fn with
      | .selectorExpr x sel => isUtilsLogger x && logLevels sel
      | _ => false
  | _ => false

/-- `hasZapLoggerCalls`: `ast.Inspect` over the block with the closure above. -/
def hasZapLoggerCalls (b : List Stmt) : Bool :=
  inspectStmts isLoggerCall b

/-- The loop over `fields` in `createZerologCall`; `base` is the initial call and `curr` the
chain built so far.  Each of the three shape checks panics; an unknown kind returns `base`. -/
def createZerologCall.loop (base : CallExpr) (msg : Expr) :
    List Expr → CallExpr → Option Expr
  | [], curr => some (.callExpr (.mk (.selectorExpr (.callExpr curr) "Msg") [msg]))
  | field :: rest, curr =>
      match field with
      | .callExpr fcall =>
          match fcall.fn with
          | .selectorExpr fselX zapType =>
              match fselX with
              | .ident fxName =>
                  if fxName != "zap" then none
                  else
                    match zapToZero zapType with
                    | none => some (.callExpr base)
                    | some zeroType =>
                        createZerologCall.loop base msg rest
                          (.mk (.selectorExpr (.callExpr curr) zeroType) fcall.args)
              | _ => none
          | _ => none
      | _ => none

/-- `createZerologCall(level, args)`; panics on an empty argument list. -/
def createZerologCall (level : String) (args : List Expr) : Option Expr :=
  match args with
  | [] => none
  | msg :: fields =>
      let base : CallExpr := .mk (.selectorExpr (.ident "logger") level) []
      createZerologCall.loop base msg fields base

mutual
/-- `rewriteExpr`; the kinds `Ellipsis` and `IndexListExpr` take the default branch. -/
def rewriteExpr : Expr → Option Expr
  | .badExpr => some .badExpr
  | .ident n => some (.ident n)
  | .basicLit k v => some (.basicLit k v)
  | .funcLit tps ps rs body => do
      let body2 ← rewriteBlock body
      pure (.funcLit tps ps rs body2)
  | .compositeLit t elts => do
      let t2 ← rewriteExprOpt t
      let elts2 ← rewriteExprs elts
      pure (.compositeLit t2 elts2)
  | .parenExpr x => do
      let x2 ← rewriteExpr x
      pure (.parenExpr x2)
  | .selectorExpr x sel => do
      let x2 ← rewriteExpr x
      pure (.selectorExpr x2 sel)
  | .indexExpr x i => do
      let x2 ← rewriteExpr x
      let i2 ← rewriteExpr i
      pure (.indexExpr x2 i2)
  | .sliceExpr x lo hi mx s3 => do
      let x2 ← rewriteExpr x
      let lo2 ← rewriteExprOpt lo
      let hi2 ← rewriteExprOpt hi
      let mx2 ← rewriteExprOpt mx
      pure (.sliceExpr x2 lo2 hi2 mx2 s3)
  | .typeAssertExpr x t => do
      let x2 ← rewriteExpr x
      let t2 ← rewriteExprOpt t
      pure (.typeAssertExpr x2 t2)
  | .callExpr c => rewriteCall c
  | .starExpr x => do
      let x2 ← rewriteExpr x
      pure (.starExpr x2)
  | .unaryExpr op x => do
      let x2 ← rewriteExpr x
      pure (.unaryExpr op x2)
  | .binaryExpr x op y => do
      let x2 ← rewriteExpr x
      let y2 ← rewriteExpr y
      pure (.binaryExpr x2 op y2)
  | .keyValueExpr k v => do
      let k2 ← rewriteExpr k
      let v2 ← rewriteExpr v
      pure (.keyValueExpr k2 v2)
  | .arrayType len elt => do
      let len2 ← rewriteExprOpt len
      let elt2 ← rewriteExpr elt
      pure (.arrayType len2 elt2)
  | .structType fs => some (.structType fs)
  | .funcType tps ps rs => some (.funcType tps ps rs)
  | .interfaceType ms => some (.interfaceType ms)
  | .mapType k v => do
      let k2 ← rewriteExpr k
      let v2 ← rewriteExpr v
      pure (.mapType k2 v2)
  | .chanType dir v => do
      let v2 ← rewriteExpr v
      pure (.chanType dir v2)
  | .ellipsis elt => some (.ellipsis elt)
  | .indexListExpr x is => some (.indexListExpr x is)
/-- The `*ast.CallExpr` case of `rewriteExpr`: callee and arguments are rewritten first, then
the rewritten callee is matched. -/
def rewriteCall : CallExpr → Option Expr
  | .mk fn args => do
      let fn2 ← rewriteExpr fn
      let args2 ← rewriteExprs args
      match fn2 with
      | .selectorExpr x sel =>
          if isUtilsLogger x && logLevels sel then createZerologCall sel args2
          else pure (.callExpr (.mk fn2 args2))
      | _ => pure (.callExpr (.mk fn2 args2))
/-- The loops `for i := range xs { xs[i] = rewriteExpr(xs[i]) }`. -/
def rewriteExprs : List Expr → Option (List Expr)
  | [] => some []
  | e :: es => do
      let e2 ← rewriteExpr e
      let es2 ← rewriteExprs es
      pure (e2 :: es2)
/-- The call `rewriteExpr(x)` on a field that may be nil: `rewriteExpr(nil)` is nil. -/
def rewriteExprOpt : Option Expr → Option (Option Expr)
  | none => some none
  | some e => do
      let e2 ← rewriteExpr e
      pure (some e2)
/-- `rewriteStmt`; every statement kind of `go/ast` has a case. -/
def rewriteStmt : Stmt → Option Stmt
  | .badStmt => some .badStmt
  | .declStmt tok specs => some (.declStmt tok specs)
  | .emptyStmt => some .emptyStmt
  | .labeledStmt label s => do
      let s2 ← rewriteStmt s
      pure (.labeledStmt label s2)
  | .exprStmt x => do
      let x2 ← rewriteExpr x
      pure (.exprStmt x2)
  | .sendStmt c v => do
      let c2 ← rewriteExpr c
      let v2 ← rewriteExpr v
      pure (.sendStmt c2 v2)
  | .incDecStmt x tok => do
      let x2 ← rewriteExpr x
      pure (.incDecStmt x2 tok)
  | .assignStmt lhs tok rhs => do
      let lhs2 ← rewriteExprs lhs
      let rhs2 ← rewriteExprs rhs
      pure (.assignStmt lhs2 tok rhs2)
  | .goStmt c => do
      let r ← rewriteCall c
      match r with
      | .callExpr c2 => pure (.goStmt c2)
      | _ => none
  | .deferStmt c => do
      let r ← rewriteCall c
      match r with
      | .callExpr c2 => pure (.deferStmt c2)
      | _ => none
  | .returnStmt rs => do
      let rs2 ← rewriteExprs rs
      pure (.returnStmt rs2)
  | .branchStmt tok label => some (.branchStmt tok label)
  | .blockStmt l => do
      let l2 ← rewriteBlock l
      pure (.blockStmt l2)
  | .ifStmt init cond body els => do
      let init2 ← rewriteStmtOpt init
      let cond2 ← rewriteExpr cond
      let body2 ← rewriteBlock body
      let els2 ← rewriteStmtOpt els
      pure (.ifStmt init2 cond2 body2 els2)
  | .caseClause l body => do
      let l2 ← rewriteExprs l
      let body2 ← rewriteBlock body
      pure (.caseClause l2 body2)
  | .switchStmt init tag body => do
      let init2 ← rewriteStmtOpt init
      let tag2 ← rewriteExprOpt tag
      let body2 ← rewriteBlock body
      pure (.switchStmt init2 tag2 body2)
  | .typeSwitchStmt init assign body => do
      let init2 ← rewriteStmtOpt init
      let assign2 ← rewriteStmt assign
      let body2 ← rewriteBlock body
      pure (.typeSwitchStmt init2 assign2 body2)
  | .commClause comm body => do
      let comm2 ← rewriteStmtOpt comm
      let body2 ← rewriteBlock body
      pure (.commClause comm2 body2)
  | .selectStmt body => do
      let body2 ← rewriteBlock body
      pure (.selectStmt body2)
  | .forStmt init cond post body => do
      let init2 ← rewriteStmtOpt init
      let cond2 ← rewriteExprOpt cond
      let post2 ← rewriteStmtOpt post
      let body2 ← rewriteBlock body
      pure (.forStmt init2 cond2 post2 body2)
  | .rangeStmt k v tok x body => do
      let k2 ← rewriteExprOpt k
      let v2 ← rewriteExprOpt v
      let x2 ← rewriteExpr x
      let body2 ← rewriteBlock body
      pure (.rangeStmt k2 v2 tok x2 body2)
/-- `rewriteBlock`: the loop `for i := range b.List { b.List[i] = rewriteStmt(b.List[i]) }`,
also written out in the `CaseClause` and `CommClause` cases for their `Body`. -/
def rewriteBlock : List Stmt → Option (List Stmt)
  | [] => some []
  | s :: ss => do
      let s2 ← rewriteStmt s
      let ss2 ← rewriteBlock ss
      pure (s2 :: ss2)
/-- The guarded calls `if x.S != nil { x.S = rewriteStmt(x.S) }`. -/
def rewriteStmtOpt : Option Stmt → Option (Option Stmt)
  | none => some none
  | some s => do
      let s2 ← rewriteStmt s
      pure (some s2)
end

/-- `processFunc`: a declaration without body or without a matching call is left alone and
reports false; otherwise the body is rewritten.  The call `hasLoggerDecl(fd.Body)` of the
source guards an empty branch and has no effect. -/
def processFunc (fd : FuncDecl) : Option (FuncDecl × Bool) :=
  match fd.body with
  | none => some (fd, false)
  | some body =>
      if !hasZapLoggerCalls body then some (fd, false)
      else do
        let body2 ← rewriteBlock body
        pure (FuncDecl.mk fd.recv fd.name fd.typeParams fd.params fd.results (some body2), true)

/-- `isImportPresent`: looks the quoted path up in `f.Imports`. -/
def isImportPresent (f : File) (path : String) : Bool :=
  f.imports.any (fun imp => imp.path == "\"" ++ path ++ "\"")

/-- The search of `addImport` for the first import group, which receives the new spec;
`none` when the file has no import group. -/
def addImport.toFirstGroup (imp : ImportSpec) : List Decl → Option (List Decl)
  | [] => none
  | .genDecl tok specs :: rest =>
      if tok == Token.IMPORT then some (.genDecl tok (specs ++ [.importSpec imp]) :: rest)
      else (addImport.toFirstGroup imp rest).map (fun ds => .genDecl tok specs :: ds)
  | d :: rest => (addImport.toFirstGroup imp rest).map (fun ds => d :: ds)

/-- `addImport`: appends to the first import group, or creates one as first declaration.
`f.Imports` is not updated. -/
def addImport (f : File) (path name : String) : File :=
  let imp : ImportSpec := ImportSpec.mk (if name != "" then some name else none)
    ("\"" ++ path ++ "\"")
  match addImport.toFirstGroup imp f.decls with
  | some ds => File.mk f.name ds f.imports
  | none => File.mk f.name (.genDecl Token.IMPORT [.importSpec imp] :: f.decls) f.imports

/-- The inner loop of `removeImport`: keep the import specs with another path. -/
def removeImport.keep (path : String) (spec : Spec) : Bool :=
  match spec with
  | .importSpec imp => imp.path != "\"" ++ path ++ "\""
  | _ => false

/-- The outer loop of `removeImport` over the declarations. -/
def removeImport.decls (path : String) : List Decl → List Decl
  | [] => []
  | .genDecl tok specs :: rest =>
      if tok == Token.IMPORT then
        let newSpecs := specs.filter (removeImport.keep path)
        if newSpecs.length > 0 then .genDecl tok newSpecs :: removeImport.decls path rest
        else removeImport.decls path rest
      else .genDecl tok specs :: removeImport.decls path rest
  | d :: rest => d :: removeImport.decls path rest

/-- `removeImport`. -/
def removeImport (f : File) (path : String) : File :=
  File.mk f.name (removeImport.decls path f.decls) f.imports

/-- The test of the closure in `usesZap`: a selector whose base is the identifier `zap`. -/
def isZapSelector (n : Expr) : Bool :=
  match n with
  | .selectorExpr x _ =>
      match x with
      | .ident name => name == "zap"
      | _ => false
  | _ => false

/-- `usesZap`: `ast.Inspect` over the whole file. -/
def usesZap (f : File) : Bool :=
  inspectFile isZapSelector f

/-- The `ast.Inspect` of `modifyAST`: every function declaration is handed to `processFunc`
and not entered; `modified` is the disjunction of the results. -/
def modifyAST.visit : List Decl → Option (List Decl × Bool)
  | [] => some ([], false)
  | .funcDecl fd :: rest => do
      let r ← processFunc fd
      let rs ← modifyAST.visit rest
      pure (.funcDecl r.1 :: rs.1, r.2 || rs.2)
  | d :: rest => do
      let rs ← modifyAST.visit rest
      pure (d :: rs.1, rs.2)

/-- `modifyAST`: returns the mutated file and the flag `modified`. -/
def modifyAST (f : File) : Option (File × Bool) := do
  let r ← modifyAST.visit f.decls
  let f1 := File.mk f.name r.1 f.imports
  let f2 :=
    if r.2 then
      if !isImportPresent f1 "github.com/rs/zerolog" then
        addImport f1 "github.com/rs/zerolog" ""
      else f1
    else f1
  let f3 := if !usesZap f2 then removeImport f2 "go.uber.org/zap" else f2
  pure (f3, r.2)

end Ast

/-! ## Package `ast2` (`go/pkg/ast2/ast2.go`): the receiver-aware, best-effort variant -/

namespace Ast2
open GoAst

/-- The map `logLevels`. -/
def logLevels : String → Bool
  | "Debug" => true
  | "Info" => true
  | "Warn" => true
  | "Error" => true
  | "Panic" => true
  | "Fatal" => true
  | _ => false

/-- The map `zapToZero` of package `ast2`; `none` is a missing key. -/
def zapToZero : String → Option String
  | "String" => some "Str"
  | "Int" => some "Int"
  | "Int64" => some "Int64"
  | "Uint" => some "Uint"
  | "Uint64" => some "Uint64"
  | "Bool" => some "Bool"
  | "Float64" => some "Float64"
  | "Duration" => some "Dur"
  | "Time" => some "Time"
  | "Any" => some "Interface"
  | "Error" => some "Err"
  | _ => none

/-- `isUtilsLogger`: the expression is the selector `utils.Logger`. -/
def isUtilsLogger (e : Expr) : Bool :=
  match e with
  | .selectorExpr x sel =>
      match x with
      | .ident name => name == "utils" && sel == "Logger"
      | _ => false
  | _ => false

/-- The test of the closure in `hasZapLoggerCalls` (and of `rewriteExpr`). -/
def isLoggerCall (n : Expr) : Bool :=
  match n with
  | .callExpr call =>
      match call.fn with
      | .selectorExpr x sel => isUtilsLogger x && logLevels sel
      | _ => false
  | _ => false

/-- `hasZapLoggerCalls`: `ast.Inspect` over the block with the closure above. -/
def hasZapLoggerCalls (b : List Stmt) : Bool :=
  inspectStmts isLoggerCall b

/-- The call `errors.Wrap(e, "from error")` built in two places of `createZerologCall`. -/
def wrapFromError (e : Expr) : Expr :=
  .callExpr (.mk (.selectorExpr (.ident "errors") "Wrap")
    [e, .basicLit Token.STRING "\"from error\""])

/-- The test "msg is `X.Error()`" at the start of `createZerologCall`: the expression `X` when
the message is a call without arguments whose callee is a selector named `Error`. -/
def createZerologCall.errExpr (msg : Expr) : Option Expr :=
  match msg with
  | .callExpr mcall =>
      match mcall.fn with
      | .selectorExpr mselX mselSel =>
          if mselSel == "Error" && mcall.args.length == 0 then some mselX else none
      | _ => none
  | _ => none

/-- The loop over `fields` in `createZerologCall`: every `continue` goes on with the chain
unchanged; the result is the final `curr`. -/
def createZerologCall.loop : List Expr → CallExpr → CallExpr
  | [], curr => curr
  | field :: rest, curr =>
      match field with
      | .callExpr fcall =>
          match fcall.fn with
          | .selectorExpr fselX zapType =>
              match fselX with
              | .ident fxName =>
                  if fxName != "zap" then createZerologCall.loop rest curr
                  else
                    match zapToZero zapType with
                    | none => createZerologCall.loop rest curr
                    | some zeroType =>
                        if zapType == "Error" then
                          match fcall.args with
                          | [a] =>
                              createZerologCall.loop rest
                                (.mk (.selectorExpr (.callExpr curr) zeroType) [wrapFromError a])
                          | _ => createZerologCall.loop rest curr
                        else
                          createZerologCall.loop rest
                            (.mk (.selectorExpr (.callExpr curr) zeroType) fcall.args)
              | _ => createZerologCall.loop rest curr
          | _ => createZerologCall.loop rest curr
      | _ => createZerologCall.loop rest curr

/-- `createZerologCall(level, args, recv)`.  With an empty argument list the source evaluates
`args[0]`, an index out of range, which panics. -/
def createZerologCall (level : String) (args : List Expr) (recv : String) : Option Expr :=
  match args with
  | [] => none
  | msg :: fields =>
      let base : CallExpr :=
        .mk (.selectorExpr (.selectorExpr (.ident recv) "logger") level) []
      let curr := createZerologCall.loop fields base
      match createZerologCall.errExpr msg with
      | some errExpr =>
          some (.callExpr (.mk
            (.selectorExpr
              (.callExpr (.mk (.selectorExpr (.callExpr curr) "Err") [wrapFromError errExpr]))
              "Msg")
            [.basicLit Token.STRING "\"\""]))
      | none => some (.callExpr (.mk (.selectorExpr (.callExpr curr) "Msg") [msg]))

mutual
/-- `rewriteExpr(e, recv)`; kinds without a case are returned as they are. -/
def rewriteExpr (recv : String) : Expr → Option Expr
  | .callExpr c => rewriteCall recv c
  | .parenExpr x => do
      let x2 ← rewriteExpr recv x
      pure (.parenExpr x2)
  | .selectorExpr x sel => do
      let x2 ← rewriteExpr recv x
      pure (.selectorExpr x2 sel)
  | .indexExpr x i => do
      let x2 ← rewriteExpr recv x
      let i2 ← rewriteExpr recv i
      pure (.indexExpr x2 i2)
  | .sliceExpr x lo hi mx s3 => do
      let x2 ← rewriteExpr recv x
      let lo2 ← rewriteExprOpt recv lo
      let hi2 ← rewriteExprOpt recv hi
      let mx2 ← rewriteExprOpt recv mx
      pure (.sliceExpr x2 lo2 hi2 mx2 s3)
  | .typeAssertExpr x t => do
      let x2 ← rewriteExpr recv x
      let t2 ← rewriteExprOpt recv t
      pure (.typeAssertExpr x2 t2)
  | .funcLit tps ps rs body => do
      let body2 ← rewriteBlock recv body
      pure (.funcLit tps ps rs body2)
  | .compositeLit t elts => do
      let t2 ← rewriteExprOpt recv t
      let elts2 ← rewriteExprs recv elts
      pure (.compositeLit t2 elts2)
  | .starExpr x => do
      let x2 ← rewriteExpr recv x
      pure (.starExpr x2)
  | .unaryExpr op x => do
      let x2 ← rewriteExpr recv x
      pure (.unaryExpr op x2)
  | .binaryExpr x op y => do
      let x2 ← rewriteExpr recv x
      let y2 ← rewriteExpr recv y
      pure (.binaryExpr x2 op y2)
  | .keyValueExpr k v => do
      let k2 ← rewriteExpr recv k
      let v2 ← rewriteExpr recv v
      pure (.keyValueExpr k2 v2)
  | .arrayType len elt => do
      let len2 ← rewriteExprOpt recv len
      let elt2 ← rewriteExpr recv elt
      pure (.arrayType len2 elt2)
  | .mapType k v => do
      let k2 ← rewriteExpr recv k
      let v2 ← rewriteExpr recv v
      pure (.mapType k2 v2)
  | .chanType dir v => do
      let v2 ← rewriteExpr recv v
      pure (.chanType dir v2)
  | .badExpr => some .badExpr
  | .ident n => some (.ident n)
  | .ellipsis elt => some (.ellipsis elt)
  | .basicLit k v => some (.basicLit k v)
  | .indexListExpr x is => some (.indexListExpr x is)
  | .structType fs => some (.structType fs)
  | .funcType tps ps rs => some (.funcType tps ps rs)
  | .interfaceType ms => some (.interfaceType ms)
/-- The `*ast.CallExpr` case of `rewriteExpr`. -/
def rewriteCall (recv : String) : CallExpr → Option Expr
  | .mk fn args => do
      let fn2 ← rewriteExpr recv fn
      let args2 ← rewriteExprs recv args
      match fn2 with
      | .selectorExpr x sel =>
          if isUtilsLogger x && logLevels sel then createZerologCall sel args2 recv
          else pure (.callExpr (.mk fn2 args2))
      | _ => pure (.callExpr (.mk fn2 args2))
/-- The loops `for i := range xs { xs[i] = rewriteExpr(xs[i], recv) }`. -/
def rewriteExprs (recv : String) : List Expr → Option (List Expr)
  | [] => some []
  | e :: es => do
      let e2 ← rewriteExpr recv e
      let es2 ← rewriteExprs recv es
      pure (e2 :: es2)
/-- The call `rewriteExpr(x, recv)` on a field that may be nil. -/
def rewriteExprOpt (recv : String) : Option Expr → Option (Option Expr)
  | none => some none
  | some e => do
      let e2 ← rewriteExpr recv e
      pure (some e2)
/-- `rewriteStmt(s, recv)`; kinds without a case are returned as they are. -/
def rewriteStmt (recv : String) : Stmt → Option Stmt
  | .exprStmt x => do
      let x2 ← rewriteExpr recv x
      pure (.exprStmt x2)
  | .assignStmt lhs tok rhs => do
      let lhs2 ← rewriteExprs recv lhs
      let rhs2 ← rewriteExprs recv rhs
      pure (.assignStmt lhs2 tok rhs2)
  | .ifStmt init cond body els => do
      let init2 ← rewriteStmtOpt recv init
      let cond2 ← rewriteExpr recv cond
      let body2 ← rewriteBlock recv body
      let els2 ← rewriteStmtOpt recv els
      pure (.ifStmt init2 cond2 body2 els2)
  | .blockStmt l => do
      let l2 ← rewriteBlock recv l
      pure (.blockStmt l2)
  | .forStmt init cond post body => do
      let init2 ← rewriteStmtOpt recv init
      let cond2 ← rewriteExprOpt recv cond
      let post2 ← rewriteStmtOpt recv post
      let body2 ← rewriteBlock recv body
      pure (.forStmt init2 cond2 post2 body2)
  | .rangeStmt k v tok x body => do
      let k2 ← rewriteExprOpt recv k
      let v2 ← rewriteExprOpt recv v
      let x2 ← rewriteExpr recv x
      let body2 ← rewriteBlock recv body
      pure (.rangeStmt k2 v2 tok x2 body2)
  | .switchStmt init tag body => do
      let init2 ← rewriteStmtOpt recv init
      let tag2 ← rewriteExprOpt recv tag
      let body2 ← rewriteBlock recv body
      pure (.switchStmt init2 tag2 body2)
  | .typeSwitchStmt init assign body => do
      let init2 ← rewriteStmtOpt recv init
      let assign2 ← rewriteStmt recv assign
      let body2 ← rewriteBlock recv body
      pure (.typeSwitchStmt init2 assign2 body2)
  | .deferStmt c => do
      let r ← rewriteCall recv c
      match r with
      | .callExpr c2 => pure (.deferStmt c2)
      | _ => none
  | .goStmt c => do
      let r ← rewriteCall recv c
      match r with
      | .callExpr c2 => pure (.goStmt c2)
      | _ => none
  | .returnStmt rs => do
      let rs2 ← rewriteExprs recv rs
      pure (.returnStmt rs2)
  | .labeledStmt label s => do
      let s2 ← rewriteStmt recv s
      pure (.labeledStmt label s2)
  | .sendStmt c v => do
      let c2 ← rewriteExpr recv c
      let v2 ← rewriteExpr recv v
      pure (.sendStmt c2 v2)
  | .incDecStmt x tok => do
      let x2 ← rewriteExpr recv x
      pure (.incDecStmt x2 tok)
  | .commClause comm body => do
      let comm2 ← rewriteStmtOpt recv comm
      let body2 ← rewriteBlock recv body
      pure (.commClause comm2 body2)
  | .selectStmt body => do
      let body2 ← rewriteBlock recv body
      pure (.selectStmt body2)
  | .caseClause l body => do
      let l2 ← rewriteExprs recv l
      let body2 ← rewriteBlock recv body
      pure (.caseClause l2 body2)
  | .badStmt => some .badStmt
  | .declStmt tok specs => some (.declStmt tok specs)
  | .emptyStmt => some .emptyStmt
  | .branchStmt tok label => some (.branchStmt tok label)
/-- `rewriteBlock(b, recv)`: the loop over `b.List`, also written out for the `Body` of a
`CaseClause` and a `CommClause`. -/
def rewriteBlock (recv : String) : List Stmt → Option (List Stmt)
  | [] => some []
  | s :: ss => do
      let s2 ← rewriteStmt recv s
      let ss2 ← rewriteBlock recv ss
      pure (s2 :: ss2)
/-- The guarded calls `if x.S != nil { x.S = rewriteStmt(x.S, recv) }`. -/
def rewriteStmtOpt (recv : String) : Option Stmt → Option (Option Stmt)
  | none => some none
  | some s => do
      let s2 ← rewriteStmt recv s
      pure (some s2)
end

/-- The map `receivers` of type `map[*ast.BlockStmt]string`.  Its key is the identity of a
function body; a body is identified by the position of its function declaration in
`f.Decls`. -/
abbrev Receivers := Nat → Option String

/-- The receiver name that `processFile` records for a function declaration: the first name
of the first receiver field, when there is one. -/
def receiverName (fd : FuncDecl) : Option String :=
  match fd.recv with
  | [] => none
  | .mk names _ _ :: _ =>
      match names with
      | [] => none
      | n :: _ => some n

/-- The map that `processFile` builds with `ast.Inspect` before it calls `modifyAST`. -/
def processFile.receivers (f : File) : Receivers := fun key =>
  match f.decls.get? key with
  | some (.funcDecl fd) => receiverName fd
  | _ => none

/-- `processFunc(fd, receivers)`; `key` is the identity of `fd.Body`. -/
def processFunc (fd : FuncDecl) (key : Nat) (receivers : Receivers) :
    Option (FuncDecl × Bool) :=
  match fd.body with
  | none => some (fd, false)
  | some body =>
      if !hasZapLoggerCalls body then some (fd, false)
      else
        match receivers key with
        | none => some (fd, false)
        | some recv => do
            let body2 ← rewriteBlock recv body
            pure (FuncDecl.mk fd.recv fd.name fd.typeParams fd.params fd.results (some body2),
              true)

/-- `isImportPresent`: looks the quoted path up in `f.Imports`. -/
def isImportPresent (f : File) (path : String) : Bool :=
  f.imports.any (fun imp => imp.path == "\"" ++ path ++ "\"")

/-- The search of `addImport` for the first import group, which receives the new spec;
`none` when the file has no import group. -/
def addImport.toFirstGroup (imp : ImportSpec) : List Decl → Option (List Decl)
  | [] => none
  | .genDecl tok specs :: rest =>
      if tok == Token.IMPORT then some (.genDecl tok (specs ++ [.importSpec imp]) :: rest)
      else (addImport.toFirstGroup imp rest).map (fun ds => .genDecl tok specs :: ds)
  | d :: rest => (addImport.toFirstGroup imp rest).map (fun ds => d :: ds)

/-- `addImport`: appends to the first import group, or creates one as first declaration.
`f.Imports` is not updated. -/
def addImport (f : File) (path name : String) : File :=
  let imp : ImportSpec := ImportSpec.mk (if name != "" then some name else none)
    ("\"" ++ path ++ "\"")
  match addImport.toFirstGroup imp f.decls with
  | some ds => File.mk f.name ds f.imports
  | none => File.mk f.name (.genDecl Token.IMPORT [.importSpec imp] :: f.decls) f.imports

/-- The inner loop of `removeImport`: keep the import specs with another path. -/
def removeImport.keep (path : String) (spec : Spec) : Bool :=
  match spec with
  | .importSpec imp => imp.path != "\"" ++ path ++ "\""
  | _ => false

/-- The outer loop of `removeImport` over the declarations. -/
def removeImport.decls (path : String) : List Decl → List Decl
  | [] => []
  | .genDecl tok specs :: rest =>
      if tok == Token.IMPORT then
        let newSpecs := specs.filter (removeImport.keep path)
        if newSpecs.length > 0 then .genDecl tok newSpecs :: removeImport.decls path rest
        else removeImport.decls path rest
      else .genDecl tok specs :: removeImport.decls path rest
  | d :: rest => d :: removeImport.decls path rest

/-- `removeImport`. -/
def removeImport (f : File) (path : String) : File :=
  File.mk f.name (removeImport.decls path f.decls) f.imports

/-- The test of the closure in `usesZap`: a selector whose base is the identifier `zap`. -/
def isZapSelector (n : Expr) : Bool :=
  match n with
  | .selectorExpr x _ =>
      match x with
      | .ident name => name == "zap"
      | _ => false
  | _ => false

/-- `usesZap`: `ast.Inspect` over the whole file. -/
def usesZap (f : File) : Bool :=
  inspectFile isZapSelector f

/-- The `ast.Inspect` of `modifyAST`: every function declaration with a body is handed to
`processFunc` and not entered; `key` is the position of the first declaration of the list. -/
def modifyAST.visit (receivers : Receivers) : Nat → List Decl → Option (List Decl × Bool)
  | _, [] => some ([], false)
  | key, .funcDecl fd :: rest =>
      match fd.body with
      | none => do
          let rs ← modifyAST.visit receivers (key + 1) rest
          pure (.funcDecl fd :: rs.1, rs.2)
      | some _ => do
          let r ← processFunc fd key receivers
          let rs ← modifyAST.visit receivers (key + 1) rest
          pure (.funcDecl r.1 :: rs.1, r.2 || rs.2)
  | key, d :: rest => do
      let rs ← modifyAST.visit receivers (key + 1) rest
      pure (d :: rs.1, rs.2)

/-- `modifyAST(f, receivers)`: returns the mutated file and the flag `modified`. -/
def modifyAST (f : File) (receivers : Receivers) : Option (File × Bool) := do
  let r ← modifyAST.visit receivers 0 f.decls
  let f1 := File.mk f.name r.1 f.imports
  let f2 :=
    if r.2 then
      let g1 :=
        if !isImportPresent f1 "github.com/pkg/errors" then
          addImport f1 "github.com/pkg/errors" ""
        else f1
      let g2 :=
        if !isImportPresent g1 "github.com/rs/zerolog" then
          addImport g1 "github.com/rs/zerolog" ""
        else g1
      if !usesZap g2 then removeImport g2 "go.uber.org/zap" else g2
    else f1
  pure (f2, r.2)

end Ast2

/-! ## Package `custom_validator` (`go/pkg/custom_validator/custom_validators.go`)

The validator inspects a struct through the standard library package `reflect`.  A field
value is modelled by what the validator asks of its `reflect.Value`; a struct is the list of
its fields, each with its `reflect.StructField` and its value; an error is its message and
`none` is the nil error. -/

namespace CustomValidator

/-- The kinds of `reflect.Kind`. -/
inductive Kind where
  | Invalid | Bool | Int | Int8 | Int16 | Int32 | Int64
  | Uint | Uint8 | Uint16 | Uint32 | Uint64 | Uintptr
  | Float32 | Float64 | Complex64 | Complex128
  | Array | Chan | Func | Interface | Map | Ptr | Slice | String | Struct | UnsafePointer
  deriving DecidableEq

/-- The observations the validator makes of a `reflect.Value`: `Kind()`, `Len()` (asked of
strings, slices and maps), `IsNil()` (asked of pointers and interfaces), `String()` (asked of
strings) and whether the value is deeply equal to the zero value of its type (asked of the
other kinds, through `Interface()`, which succeeds on exported fields). -/
structure Value where
  kind : Kind
  len : Nat
  isNil : Bool
  str : String
  isZero : Bool

/-- The part of a `reflect.StructField` the validator reads: the field name and the value of
the key `validate` in its tag, `Tag.Get("validate")`. -/
structure StructField where
  name : String
  validateTag : String

/-- An argument of `validateStruct(s any)`: a struct with its fields in declaration order, or
a value whose type has another kind.  The nil interface value is no `Input`: for it
`reflect.TypeOf` returns nil and `t.Kind()` panics before any check. -/
inductive Input where
  | struct (fields : List (StructField × Value))
  | other (kind : Kind)

/-- `strings.Split` on the characters of a string, for a separator of one character. -/
def splitChars (sep : Char) : List Char → List (List Char)
  | [] => [[]]
  | c :: cs =>
      if c = sep then [] :: splitChars sep cs
      else
        match splitChars sep cs with
        | [] => [[c]]
        | w :: ws => (c :: w) :: ws

/-- `strings.Split(s, sep)` for a separator of one character. -/
def stringsSplit (s : String) (sep : Char) : List String :=
  (splitChars sep s.data).map String.mk

/-- `strings.HasPrefix(s, head)`. -/
def stringsHasPrefix (s head : String) : Bool :=
  head.data.isPrefixOf s.data

/-- `strings.TrimPrefix(s, head)`. -/
def stringsTrimPrefix (s head : String) : String :=
  if stringsHasPrefix s head then String.mk (s.data.drop head.data.length) else s

/-- The type `GameLibraryTagCategoryType`, a string type. -/
abbrev GameLibraryTagCategoryType := String

/-- The constant `PLATFORM`. -/
def PLATFORM : GameLibraryTagCategoryType := "PLATFORM"

/-- The constant `BRANDING_POSSIBILITIES`. -/
def BRANDING_POSSIBILITIES : GameLibraryTagCategoryType := "BRANDING_POSSIBILITIES"

/-- The constant `GAME_CATEGORIES`. -/
def GAME_CATEGORIES : GameLibraryTagCategoryType := "GAME_CATEGORIES"

/-- The constant `TAGS`. -/
def TAGS : GameLibraryTagCategoryType := "TAGS"

/-- The struct `GameLibraryTagDto`; `TagId` has type `*int` and `none` is the nil pointer. -/
structure GameLibraryTagDto where
  GameLibraryTagId : String
  TagName : String
  TagId : Option Int
  CategoryName : GameLibraryTagCategoryType

/-- The `reflect.Value` of a field of a string type. -/
def Value.ofString (s : String) : Value :=
  Value.mk Kind.String s.utf8ByteSize false s (s == "")

/-- The `reflect.Value` of a field of type `*int`. -/
def Value.ofIntPtr (p : Option Int) : Value :=
  Value.mk Kind.Ptr 0 p.isNone "<*int Value>" p.isNone

/-- A `GameLibraryTagDto` as `reflect` presents it: the four fields with their `validate`
tags. -/
def GameLibraryTagDto.toInput (d : GameLibraryTagDto) : Input :=
  .struct
    [(StructField.mk "GameLibraryTagId" "required,string", Value.ofString d.GameLibraryTagId),
      (StructField.mk "TagName" "required,string", Value.ofString d.TagName),
      (StructField.mk "TagId" "number,optional", Value.ofIntPtr d.TagId),
      (StructField.mk "CategoryName"
        "required,enum=PLATFORM|BRANDING_POSSIBILITIES|GAME_CATEGORIES|TAGS",
        Value.ofString d.CategoryName)]

/-- `isEmptyValue`. -/
def isEmptyValue (v : Value) : Bool :=
  match v.kind with
  | .String | .Slice | .Map => v.len == 0
  | .Ptr | .Interface => v.isNil
  | _ => v.isZero

/-- `contains`. -/
def contains (arr : List String) (s : String) : Bool :=
  match arr with
  | [] => false
  | v :: rest => if v == s then true else contains rest s

/-- `applyRule(rule, val, f)`; a rule without a case (such as `optional`) is accepted.  The
message of the enum error prints the slice `valids` with `%v`. -/
def applyRule (rule : String) (val : Value) (_f : StructField) : Option String :=
  if rule == "required" then
    if isEmptyValue val then some "is required" else none
  else if rule == "string" then
    if val.kind != Kind.String then some "must be a string" else none
  else if rule == "number" then
    if val.kind != Kind.Int && val.kind != Kind.Ptr then some "must be a number" else none
  else if stringsHasPrefix rule "enum=" then
    if val.kind != Kind.String then some "must be a string enum"
    else
      let valids := stringsSplit (stringsTrimPrefix rule "enum=") '|'
      if !contains valids val.str then
        some ("must be one of [" ++ " ".intercalate valids ++ "]")
      else none
  else none

/-- The inner loop of `validateStruct` over the rules of one field: the first error. -/
def validateStruct.rules (val : Value) (f : StructField) : List String → Option String
  | [] => none
  | rule :: rest =>
      match applyRule rule val f with
      | some err => some ("field " ++ f.name ++ ": " ++ err)
      | none => validateStruct.rules val f rest

/-- The outer loop of `validateStruct` over the fields: a field without `validate` tag is
passed over. -/
def validateStruct.fields : List (StructField × Value) → Option String
  | [] => none
  | (f, val) :: rest =>
      if f.validateTag == "" then validateStruct.fields rest
      else
        match validateStruct.rules val f (stringsSplit f.validateTag ',') with
        | some err => some err
        | none => validateStruct.fields rest

/-- `validateStruct(s)`: the error, or `none` for nil. -/
def validateStruct (s : Input) : Option String :=
  match s with
  | .other _ => some "ValidateStruct only accepts structs"
  | .struct fields => validateStruct.fields fields

/-- The numeric kinds: signed and unsigned integers of any width, and floats. -/
def isNumericKind (k : Kind) : Bool :=
  match k with
  | .Int | .Int8 | .Int16 | .Int32 | .Int64 => true
  | .Uint | .Uint8 | .Uint16 | .Uint32 | .Uint64 | .Uintptr => true
  | .Float32 | .Float64 => true
  | _ => false

end CustomValidator

/-! ## Package `split_audio` (`go/pkg/split_audio.go`): `parseTimeToSeconds`

`strconv.Atoi` is modelled on the characters of its argument, with the 64-bit range of `int`.
The type `float64`, the conversion `float64(n)`, the addition and `strconv.ParseFloat(s, 64)`
are parameters of the model. -/

namespace SplitAudio

/-- The two errors of package `strconv`: `ErrSyntax` and `ErrRange`. -/
inductive NumError where
  | ErrSyntax
  | ErrRange
  deriving DecidableEq

/-- The errors `parseTimeToSeconds` can return: its own format error, or the error of
`strconv.ParseFloat`. -/
inductive ParseError where
  | invalidFormat
  | num (e : NumError)
  deriving DecidableEq

/-- The operations on `float64` that the code uses. -/
structure Float64Ops (F : Type) where
  ofInt : Int → F
  add : F → F → F
  parseFloat : String → F × Option NumError

/-- The value of a Go `int` after an arithmetic operation: wrapped into 64 bits. -/
def wrapInt (x : Int) : Int :=
  (x + 2 ^ 63) % 2 ^ 64 - 2 ^ 63

/-- The digit loop of `strconv.ParseUint(s, 10, 64)` from the value `n` read so far, byte by
byte: a byte that is no decimal digit ends it with 0 and `ErrSyntax`; a value that no longer
fits 64 bits ends it at once with `2^64 - 1` and `ErrRange`, the rest of the string unread. -/
def parseUint.loop : List Char → Nat → Nat × Option NumError
  | [], n => (n, none)
  | c :: cs, n =>
      if !c.isDigit then (0, some NumError.ErrSyntax)
      else if n ≥ (2 ^ 64 - 1) / 10 + 1 then (2 ^ 64 - 1, some NumError.ErrRange)
      else
        let n1 := n * 10 + (c.toNat - 48)
        if n1 > 2 ^ 64 - 1 then (2 ^ 64 - 1, some NumError.ErrRange)
        else parseUint.loop cs n1

/-- `strconv.Atoi(s)` for a 64-bit `int`: an optional sign, then the digit loop on a
non-empty rest.  A syntax error gives 0; a value out of the range of `int` gives the nearest
bound with `ErrRange`.  The short path of `Atoi` for fewer than 19 bytes returns the same. -/
def atoi (s : String) : Int × Option NumError :=
  let digits :=
    match s.data with
    | '-' :: rest => rest
    | '+' :: rest => rest
    | cs => cs
  let negative :=
    match s.data with
    | '-' :: _ => true
    | _ => false
  if digits.isEmpty then (0, some NumError.ErrSyntax)
  else
    match parseUint.loop digits 0 with
    | (_, some NumError.ErrSyntax) => (0, some NumError.ErrSyntax)
    | (un, _) =>
        if !negative && un ≥ 2 ^ 63 then (2 ^ 63 - 1, some NumError.ErrRange)
        else if negative && un > 2 ^ 63 then (-(2 ^ 63), some NumError.ErrRange)
        else if negative then (-(un : Int), none)
        else ((un : Int), none)

/-- `strings.Contains(s, sub)` for a substring of one character. -/
def stringsContains (s : String) (sub : Char) : Bool :=
  s.data.any (fun c => c == sub)

/-- `parseTimeToSeconds(input)`: the value and the error (`none` is nil).  The errors of the
three conversions of the `hh:mm:ss` branch are assigned to the blank identifier. -/
def parseTimeToSeconds {F : Type} (ops : Float64Ops F) (input : String) :
    F × Option ParseError :=
  if stringsContains input ':' then
    match CustomValidator.stringsSplit input ':' with
    | [p0, p1, p2] =>
        let h := (atoi p0).1
        let m := (atoi p1).1
        let s := (ops.parseFloat p2).1
        (ops.add (ops.ofInt (wrapInt (wrapInt (h * 3600) + wrapInt (m * 60)))) s, none)
    | _ => (ops.ofInt 0, some ParseError.invalidFormat)
  else
    let r := ops.parseFloat input
    (r.1, r.2.map ParseError.num)

end SplitAudio

/-! ## Vocabulary for the statements

Builders for the Go expressions the statements talk about. -/

namespace GoAst

/-- The string literal with the given content: `"s"`. -/
def strLit (s : String) : Expr :=
  .basicLit Token.STRING ("\"" ++ s ++ "\"")

/-- The field call `zap.K(args)`. -/
def zapField (kind : String) (args : List Expr) : Expr :=
  .callExpr (.mk (.selectorExpr (.ident "zap") kind) args)

/-- The call `base.Method(args)` for a selector `base.Method`. -/
def methodCall (base : Expr) (method : String) (args : List Expr) : Expr :=
  .callExpr (.mk (.selectorExpr base method) args)

/-- The source idiom `utils.Logger.Level(args)`. -/
def utilsLoggerCall (level : String) (args : List Expr) : Expr :=
  methodCall (.selectorExpr (.ident "utils") "Logger") level args

/-- One more link of a fluent chain: `curr.Method(args)`. -/
def chainStep (curr : CallExpr) (method : String) (args : List Expr) : CallExpr :=
  .mk (.selectorExpr (.callExpr curr) method) args

/-- A test on call nodes, as the test on expression nodes that fails on every other node. -/
def callTest (q : CallExpr → Bool) (n : Expr) : Bool :=
  match n with
  | .callExpr c => q c
  | _ => false

/-- A field is described by its zap kind, its zerolog method and its arguments. -/
abbrev FieldDesc := String × String × List Expr

/-- The field call `zap.K(args)` of a description. -/
def FieldDesc.toExpr (f : FieldDesc) : Expr :=
  zapField f.1 f.2.2

/-- The callee of the source idiom: the selector `utils.Logger.<level>` whose method name is
one of the six log levels. -/
def IsLoggerCallee (fn : Expr) : Prop :=
  ∃ level, level ∈ ["Debug", "Info", "Warn", "Error", "Panic", "Fatal"]
    ∧ fn = .selectorExpr (.selectorExpr (.ident "utils") "Logger") level

/-- The behaviour of a rewriter at call expressions: a call on the source idiom is replaced
by what the chain builder returns for its rewritten arguments; every other call comes back as
a call of the rewritten callee on the rewritten arguments, with the same number of arguments
and, when the callee is a selector, the same method name. -/
def RewritesExactlyLoggerCalls (rewriteExpr : Expr → Option Expr)
    (rewriteExprs : List Expr → Option (List Expr))
    (createZerologCall : String → List Expr → Option Expr) : Prop :=
  ∀ (fn : Expr) (args : List Expr),
    (∀ level, level ∈ ["Debug", "Info", "Warn", "Error", "Panic", "Fatal"] →
      fn = .selectorExpr (.selectorExpr (.ident "utils") "Logger") level →
      rewriteExpr (.callExpr (.mk fn args))
        = (rewriteExprs args).bind (createZerologCall level))
    ∧ (¬ IsLoggerCallee fn →
      rewriteExpr (.callExpr (.mk fn args))
          = (rewriteExpr fn).bind (fun fn2 =>
              (rewriteExprs args).bind (fun args2 => some (.callExpr (.mk fn2 args2))))
        ∧ ∀ r, rewriteExpr (.callExpr (.mk fn args)) = some r →
            ∃ fn2 args2, r = .callExpr (.mk fn2 args2) ∧ args2.length = args.length
              ∧ ∀ x sel, fn = .selectorExpr x sel → ∃ x2, fn2 = .selectorExpr x2 sel)

/-- The import specs of the declarations, in order: what the parser records in
`f.Imports`. -/
def declImports : List Decl → List ImportSpec
  | [] => []
  | .genDecl _ specs :: rest =>
      specs.filterMap (fun s => match s with
        | .importSpec imp => some imp
        | _ => none) ++ declImports rest
  | _ :: rest => declImports rest

/-- The file with `f.Imports` read again from its declarations, as after printing and
parsing it. -/
def File.reparsed (f : File) : File :=
  File.mk f.name f.decls (declImports f.decls)

/-- The function body
`var f = func() { utils.Logger.Info("x") }; f()`:
the log call sits in a closure inside a declaration statement. -/
def closureInVarDecl : List Stmt :=
  [.declStmt Token.VAR
      [.valueSpec ["f"] none
        [.funcLit [] [] [] [.exprStmt (utilsLoggerCall "Info" [strLit "x"])]]],
    .exprStmt (.callExpr (.mk (.ident "f") []))]

/-- The file
`package p; import "example.com/utils"; func (s *S) Run() { var f = func() {
utils.Logger.Info("x") }; f() }`. -/
def closureInVarDeclFile : File :=
  File.mk "p"
    [.genDecl Token.IMPORT [.importSpec (ImportSpec.mk none "\"example.com/utils\"")],
      .funcDecl (FuncDecl.mk [.mk ["s"] (some (.starExpr (.ident "S"))) none] "Run" [] [] []
        (some closureInVarDecl))]
    [ImportSpec.mk none "\"example.com/utils\""]

/-- An import group: a general declaration with the token `IMPORT`. -/
def isImportGroup : Decl → Bool
  | .genDecl tok _ => tok == Token.IMPORT
  | _ => false

/-- The import spec that a declaration spec is, if it is one. -/
def Spec.toImportSpec : Spec → Option ImportSpec
  | .importSpec imp => some imp
  | _ => none

/-- The import specs of one declaration: those of an import group, none otherwise. -/
def Decl.importSpecs : Decl → List ImportSpec
  | .genDecl tok specs => if tok == Token.IMPORT then specs.filterMap Spec.toImportSpec else []
  | _ => []

/-- The import specs of the import groups of a declaration list, in order. -/
def importSpecs : List Decl → List ImportSpec
  | [] => []
  | d :: rest => d.importSpecs ++ importSpecs rest

/-- The path literal of an import spec for a path: the path in double quotes. -/
def quoted (path : String) : String :=
  "\"" ++ path ++ "\""

/-- The number of import specs with the given path in the import groups. -/
def importCount (decls : List Decl) (path : String) : Nat :=
  (importSpecs decls).countP (fun imp => imp.path == quoted path)

/-- What removing the imports of a path leaves of one declaration, in the words of the spec:
an import group keeps its import specs with another path, in order, and is dropped when none
is left; every other declaration stays. -/
def withoutImport (path : String) : Decl → Option Decl
  | .genDecl tok specs =>
      if tok == Token.IMPORT then
        match specs.filter (fun s => match s with
            | .importSpec imp => imp.path != quoted path
            | _ => false) with
        | [] => none
        | kept => some (.genDecl tok kept)
      else some (.genDecl tok specs)
  | d => some d

/-- The import spec without local name for a path. -/
def importOf (path : String) : ImportSpec :=
  ImportSpec.mk none (quoted path)

/-- A file `package p` with one import group for `paths` and one function declaration
`funcName` with the given receiver list and body; `recorded` are the paths in `f.Imports`. -/
def sampleFile (recv : List Field) (funcName : String) (paths : List String)
    (body : List Stmt) (recorded : List String) : File :=
  File.mk "p"
    [.genDecl Token.IMPORT (paths.map (fun p => .importSpec (importOf p))),
      .funcDecl (FuncDecl.mk recv funcName [] [] [] (some body))]
    (recorded.map importOf)

/-- The receiver list `(s *S)`. -/
def receiverS : List Field :=
  [.mk ["s"] (some (.starExpr (.ident "S"))) none]

/-- The file `package p; import ("fmt"; "go.uber.org/zap"); func main() { fmt.Println("x") }`:
the zap import is unused and there is no log call. -/
def unusedZapFile : File :=
  sampleFile [] "main" ["fmt", "go.uber.org/zap"]
    [.exprStmt (methodCall (.ident "fmt") "Println" [strLit "x"])]
    ["fmt", "go.uber.org/zap"]

/-- The file `package p; import "fmt"; func main() { fmt.Println("x") }`. -/
def fmtOnlyFile : File :=
  sampleFile [] "main" ["fmt"]
    [.exprStmt (methodCall (.ident "fmt") "Println" [strLit "x"])] ["fmt"]

/-- The file `package p; import ("example.com/utils"; "go.uber.org/zap");
func main() { utils.Logger.Info("x", zap.String("k", "v")) }`: the log call sits in a plain
function. -/
def plainFuncFile : File :=
  sampleFile [] "main" ["example.com/utils", "go.uber.org/zap"]
    [.exprStmt (utilsLoggerCall "Info" [strLit "x", zapField "String" [strLit "k", strLit "v"]])]
    ["example.com/utils", "go.uber.org/zap"]

/-- The file `package p; import ("example.com/utils"; "go.uber.org/zap");
func (s *S) Run() { utils.Logger.Info("x", zap.String("k", "v")) }`: the log call sits in a
method. -/
def loggerMethodFile : File :=
  sampleFile receiverS "Run" ["example.com/utils", "go.uber.org/zap"]
    [.exprStmt (utilsLoggerCall "Info" [strLit "x", zapField "String" [strLit "k", strLit "v"]])]
    ["example.com/utils", "go.uber.org/zap"]

end GoAst

namespace Ast
open GoAst

/-- The start of a chain in package `ast`: `logger.Level()`. -/
def loggerCall (level : String) : CallExpr :=
  .mk (.selectorExpr (.ident "logger") level) []

/-- The chain `logger.Level().T1(args1)...Tn(argsn)` for the described fields. -/
def fieldChain (level : String) (fs : List FieldDesc) : CallExpr :=
  fs.foldl (fun curr f => chainStep curr f.2.1 f.2.2) (loggerCall level)

/-- Running `modifyAST` again on the tree that the first run left. -/
def modifyASTTwice (f : File) : Option (File × Bool) :=
  (modifyAST f).bind (fun r => modifyAST r.1)

/-- A field argument that violates the expected shape: not a call expression, or its callee
not a selector, or the base of the selector not the identifier `zap`. -/
def isShapeViolation (e : Expr) : Bool :=
  match e with
  | .callExpr (.mk (.selectorExpr (.ident name) _) _) => name != "zap"
  | _ => true

/-- A field argument `zap.K(...)` whose kind `K` is a key of `zapToZero`. -/
def isKnownField (e : Expr) : Bool :=
  match e with
  | .callExpr (.mk (.selectorExpr (.ident name) kind) _) =>
      name == "zap" && (zapToZero kind).isSome
  | _ => false

end Ast

namespace Ast2
open GoAst

/-- The start of a chain in package `ast2`: `recv.logger.Level()`. -/
def loggerCall (recv level : String) : CallExpr :=
  .mk (.selectorExpr (.selectorExpr (.ident recv) "logger") level) []

/-- The arguments of a translated field: those of the field, except that the single argument
`e` of an `Error` field becomes `errors.Wrap(e, "from error")`. -/
def translatedArgs (f : FieldDesc) : List Expr :=
  if f.1 = "Error" then f.2.2.map wrapFromError else f.2.2

/-- The chain `recv.logger.Level().T1(a1)...Tn(an)` for the described fields. -/
def fieldChain (recv level : String) (fs : List FieldDesc) : CallExpr :=
  fs.foldl (fun curr f => chainStep curr f.2.1 (translatedArgs f)) (loggerCall recv level)

/-- The lines that the field loop of `createZerologCall` prints with `fmt.Printf`, in order:
one line for each field `zap.K(...)` whose kind is not a key of `zapToZero`; the other
branches that pass a field over print nothing. -/
def createZerologCall.printed : List Expr → List String
  | [] => []
  | field :: rest =>
      match field with
      | .callExpr fcall =>
          match fcall.fn with
          | .selectorExpr fselX zapType =>
              match fselX with
              | .ident fxName =>
                  if fxName != "zap" then createZerologCall.printed rest
                  else
                    match zapToZero zapType with
                    | none =>
                        ("Skipping unknown zap field type: " ++ zapType ++ "\n")
                          :: createZerologCall.printed rest
                    | some _ => createZerologCall.printed rest
              | _ => createZerologCall.printed rest
          | _ => createZerologCall.printed rest
      | _ => createZerologCall.printed rest

/-- The test "the node is the call `err.Error()`", for `ast.Inspect` to look for that call
in a tree. -/
def isErrDotError (n : Expr) : Bool :=
  match n with
  | .callExpr (.mk (.selectorExpr (.ident "err") "Error") []) => true
  | _ => false

/-- A field call `zap.K(...)` whose kind `K` is not a key of `zapToZero`. -/
def isUnknownKindField (e : Expr) : Bool :=
  match e with
  | .callExpr (.mk (.selectorExpr (.ident "zap") kind) _) => (zapToZero kind).isNone
  | _ => false

/-- The argument list with the fields of unknown kind removed; the first argument is the
message and is kept. -/
def withoutUnknownFields : List Expr → List Expr
  | [] => []
  | msg :: fields => msg :: fields.filter (fun e => !isUnknownKindField e)

/-- Running `modifyAST` again on the tree that the first run left. -/
def modifyASTTwice (f : File) : Option (File × Bool) :=
  (modifyAST f (processFile.receivers f)).bind
    (fun r => modifyAST r.1 (processFile.receivers r.1))

end Ast2

/-! ## Chain building: `createZerologCall` -/

namespace Ast
open GoAst

/-- The field loop of package `ast` on fields of known kind appends one link per field. -/
theorem loop_known (base : CallExpr) (msg : Expr) (fs : List FieldDesc)
    (h : ∀ f ∈ fs, zapToZero f.1 = some f.2.1) (curr : CallExpr) :
    createZerologCall.loop base msg (fs.map FieldDesc.toExpr) curr
      = some (.callExpr (chainStep
          (fs.foldl (fun c f => chainStep c f.2.1 f.2.2) curr) "Msg" [msg])) := by
  induction fs generalizing curr with
  | nil => simp [createZerologCall.loop, chainStep]
  | cons f rest ih =>
      have hf : zapToZero f.1 = some f.2.1 := h f (List.mem_cons_self _ _)
      have hrest : ∀ g ∈ rest, zapToZero g.1 = some g.2.1 :=
        fun g hg => h g (List.mem_cons_of_mem _ hg)
      simp [createZerologCall.loop, FieldDesc.toExpr, zapField, CallExpr.fn, CallExpr.args,
        hf]
      simpa [FieldDesc.toExpr, zapField, chainStep] using ih hrest _

end Ast

namespace Ast2
open GoAst

/-- The field loop of package `ast2` on fields of known kind appends one link per field,
wrapping the argument of an `Error` field. -/
theorem loop_known2 (fs : List FieldDesc)
    (h : ∀ f ∈ fs, zapToZero f.1 = some f.2.1 ∧ (f.1 = "Error" → f.2.2.length = 1))
    (curr : CallExpr) :
    createZerologCall.loop (fs.map FieldDesc.toExpr) curr
      = fs.foldl (fun c f => chainStep c f.2.1 (translatedArgs f)) curr := by
  induction fs generalizing curr with
  | nil => simp [createZerologCall.loop]
  | cons f rest ih =>
      obtain ⟨hf, hlen⟩ := h f (List.mem_cons_self _ _)
      have hrest : ∀ g ∈ rest,
          zapToZero g.1 = some g.2.1 ∧ (g.1 = "Error" → g.2.2.length = 1) :=
        fun g hg => h g (List.mem_cons_of_mem _ hg)
      obtain ⟨k, t, args⟩ := f
      simp only at hf hlen
      by_cases hk : k = "Error"
      · obtain ⟨a, ha⟩ := List.length_eq_one.mp (hlen hk)
        subst ha
        subst hk
        simp only [List.map_cons, List.foldl_cons, createZerologCall.loop, FieldDesc.toExpr,
          zapField, CallExpr.fn, CallExpr.args, hf, ih hrest]
        simp [translatedArgs, chainStep]
      · simp only [List.map_cons, List.foldl_cons, createZerologCall.loop, FieldDesc.toExpr,
          zapField, CallExpr.fn, CallExpr.args, hf, ih hrest]
        simp [translatedArgs, chainStep, hk]

/-- A message that is not a call `X.Error()` without arguments fails the error-message
test. -/
theorem errExpr_eq_none (m : Expr) (hm : ∀ x, m ≠ methodCall x "Error" []) :
    createZerologCall.errExpr m = none := by
  unfold createZerologCall.errExpr
  split
  · rename_i mcall
    obtain ⟨fn, args⟩ := mcall
    simp only [CallExpr.fn, CallExpr.args]
    split
    · rename_i x sel
      by_cases hsel : sel = "Error"
      · cases args with
        | nil => exact absurd (by simp [methodCall, hsel]) (hm x)
        | cons a as => simp
      · simp [hsel]
    · rfl
  · rfl

end Ast2

namespace Ast
open GoAst

/-- C1: in package `ast`, for every level, message and list of fields `zap.Ki(argsi)` whose
kinds are keys of `zapToZero`, `createZerologCall` returns exactly
`logger.L().T1(args1)...Tn(argsn).Msg(m)` with `Ti = zapToZero[Ki]`, fields in order and
arguments unchanged; and `utils.Logger.Info("hello", zap.String("k","v"))` is rewritten to
`logger.Info().Str("k","v").Msg("hello")`. -/
theorem ast_createZerologCall_known_fields (level : String) (m : Expr) (fs : List FieldDesc)
    (h : ∀ f ∈ fs, zapToZero f.1 = some f.2.1) :
    createZerologCall level (m :: fs.map FieldDesc.toExpr)
        = some (.callExpr (chainStep (fieldChain level fs) "Msg" [m]))
    ∧ rewriteExpr (utilsLoggerCall "Info"
          [strLit "hello", zapField "String" [strLit "k", strLit "v"]])
        = some (methodCall
            (methodCall (methodCall (.ident "logger") "Info" []) "Str"
              [strLit "k", strLit "v"])
            "Msg" [strLit "hello"]) := by
  refine ⟨?_, rfl⟩
  simp only [createZerologCall]
  exact loop_known _ m fs h _

/-- Witness of C1: `createZerologCall("Warn", ["m", zap.Int("n", x), zap.Error(err)])` is
`logger.Warn().Int("n", x).Err(err).Msg("m")`. -/
theorem ast_createZerologCall_known_fields_witness :
    createZerologCall "Warn"
        [strLit "m", zapField "Int" [strLit "n", .ident "x"], zapField "Error" [.ident "err"]]
      = some (methodCall
          (methodCall
            (methodCall (methodCall (.ident "logger") "Warn" []) "Int"
              [strLit "n", .ident "x"])
            "Err" [.ident "err"])
          "Msg" [strLit "m"]) :=
  (ast_createZerologCall_known_fields "Warn" (strLit "m")
    [("Int", "Int", [strLit "n", .ident "x"]), ("Error", "Err", [.ident "err"])]
    (by decide)).1

end Ast

namespace Ast2
open GoAst

/-- C2: in package `ast2`, for a message that is not a call `X.Error()` without arguments and
fields `zap.Ki(argsi)` of known kind (one argument when the kind is `Error`),
`createZerologCall` returns exactly `r.logger.L().T1(a1)...Tn(an).Msg(m)`, with the fields in
order, `Ti = zapToZero[Ki]`, `ai = argsi` for a kind other than `Error` and
`ai = [errors.Wrap(e, "from error")]` for `zap.Error(e)`. -/
theorem ast2_createZerologCall_known_fields (recv level : String) (m : Expr)
    (fs : List FieldDesc) (hm : ∀ x, m ≠ methodCall x "Error" [])
    (h : ∀ f ∈ fs, zapToZero f.1 = some f.2.1 ∧ (f.1 = "Error" → f.2.2.length = 1)) :
    createZerologCall level (m :: fs.map FieldDesc.toExpr) recv
        = some (.callExpr (chainStep (fieldChain recv level fs) "Msg" [m]))
    ∧ (∀ f ∈ fs, f.1 ≠ "Error" → translatedArgs f = f.2.2)
    ∧ (∀ f ∈ fs, ∀ e, f.1 = "Error" → f.2.2 = [e] → translatedArgs f = [wrapFromError e]) := by
  refine ⟨?_, ?_, ?_⟩
  · simp only [createZerologCall, errExpr_eq_none m hm, loop_known2 fs h]
    rfl
  · intro f _ hk
    simp [translatedArgs, hk]
  · intro f _ e hk he
    simp [translatedArgs, hk, he]

/-- Witness of C2: `createZerologCall("Error", ["failed", zap.String("k", v), zap.Error(err)],
"s")` is `s.logger.Error().Str("k", v).Err(errors.Wrap(err, "from error")).Msg("failed")`. -/
theorem ast2_createZerologCall_known_fields_witness :
    createZerologCall "Error"
        [strLit "failed", zapField "String" [strLit "k", .ident "v"],
          zapField "Error" [.ident "err"]] "s"
      = some (methodCall
          (methodCall
            (methodCall
              (methodCall (.selectorExpr (.ident "s") "logger") "Error" [])
              "Str" [strLit "k", .ident "v"])
            "Err" [methodCall (.ident "errors") "Wrap" [.ident "err", strLit "from error"]])
          "Msg" [strLit "failed"]) :=
  (ast2_createZerologCall_known_fields "s" "Error" (strLit "failed")
    [("String", "Str", [strLit "k", .ident "v"]), ("Error", "Err", [.ident "err"])]
    (by intro x hx; simp [strLit, methodCall] at hx)
    (by decide)).1

end Ast2

/-! ## The nodes below an expression

The nodes that `ast.Inspect` visits below a tree are parts of the tree, so a call found there
is smaller than the tree. -/

namespace GoAst

/-- A test on call nodes fails on the identifiers of a list. -/
theorem inspectIdents_callTest (q : CallExpr → Bool) (names : List String) :
    inspectIdents (callTest q) names = false := by
  simp [inspectIdents, callTest]

/-- A test on call nodes fails on an optional identifier. -/
theorem inspectIdentOpt_callTest (q : CallExpr → Bool) (o : Option String) :
    inspectIdentOpt (callTest q) o = false := by
  cases o <;> simp [inspectIdentOpt, callTest]

/-- A test on call nodes fails on an optional string literal. -/
theorem inspectLitOpt_callTest (q : CallExpr → Bool) (o : Option String) :
    inspectLitOpt (callTest q) o = false := by
  cases o <;> simp [inspectLitOpt, callTest]

mutual
/-- A test on call nodes that fails on every call smaller than an expression finds nothing
below the expression: the nodes `ast.Inspect` visits are parts of it. -/
theorem inspectExpr_small (q : CallExpr → Bool) : ∀ e : Expr,
    (∀ c, sizeOf c < sizeOf e → q c = false) → inspectExpr (callTest q) e = false
  | .badExpr, _ => by
      simp [inspectExpr, callTest, inspectIdentOpt_callTest]
  | .ident _, _ => by
      simp [inspectExpr, callTest, inspectIdentOpt_callTest]
  | .ellipsis a0, h => by
      simp [inspectExpr, callTest, inspectExprOpt_small q a0 (fun c hc => h c (by simp; omega))]
  | .basicLit _ _, _ => by
      simp [inspectExpr, callTest, inspectIdentOpt_callTest]
  | .funcLit a0 a1 a2 a3, h => by
      simp [inspectExpr, callTest, inspectFields_small q a0 (fun c hc => h c (by simp; omega)),
        inspectFields_small q a1 (fun c hc => h c (by simp; omega)),
        inspectFields_small q a2 (fun c hc => h c (by simp; omega)),
        inspectStmts_small q a3 (fun c hc => h c (by simp; omega))]
  | .compositeLit a0 a1, h => by
      simp [inspectExpr, callTest, inspectExprOpt_small q a0 (fun c hc => h c (by simp; omega)),
        inspectExprs_small q a1 (fun c hc => h c (by simp; omega))]
  | .parenExpr a0, h => by
      simp [inspectExpr, callTest, inspectExpr_small q a0 (fun c hc => h c (by simp; omega))]
  | .selectorExpr a0 _, h => by
      simp [inspectExpr, callTest, inspectExpr_small q a0 (fun c hc => h c (by simp; omega))]
  | .indexExpr a0 a1, h => by
      simp [inspectExpr, callTest, inspectExpr_small q a0 (fun c hc => h c (by simp; omega)),
        inspectExpr_small q a1 (fun c hc => h c (by simp; omega))]
  | .indexListExpr a0 a1, h => by
      simp [inspectExpr, callTest, inspectExpr_small q a0 (fun c hc => h c (by simp; omega)),
        inspectExprs_small q a1 (fun c hc => h c (by simp; omega))]
  | .sliceExpr a0 a1 a2 a3 _, h => by
      simp [inspectExpr, callTest, inspectExpr_small q a0 (fun c hc => h c (by simp; omega)),
        inspectExprOpt_small q a1 (fun c hc => h c (by simp; omega)),
        inspectExprOpt_small q a2 (fun c hc => h c (by simp; omega)),
        inspectExprOpt_small q a3 (fun c hc => h c (by simp; omega))]
  | .typeAssertExpr a0 a1, h => by
      simp [inspectExpr, callTest, inspectExpr_small q a0 (fun c hc => h c (by simp; omega)),
        inspectExprOpt_small q a1 (fun c hc => h c (by simp; omega))]
  | .callExpr a0, h => by
      simp [inspectExpr, callTest, h a0 (by simp),
        inspectCall_small q a0 (fun c hc => h c (by simp; omega))]
  | .starExpr a0, h => by
      simp [inspectExpr, callTest, inspectExpr_small q a0 (fun c hc => h c (by simp; omega))]
  | .unaryExpr _ a1, h => by
      simp [inspectExpr, callTest, inspectExpr_small q a1 (fun c hc => h c (by simp; omega))]
  | .binaryExpr a0 _ a2, h => by
      simp [inspectExpr, callTest, inspectExpr_small q a0 (fun c hc => h c (by simp; omega)),
        inspectExpr_small q a2 (fun c hc => h c (by simp; omega))]
  | .keyValueExpr a0 a1, h => by
      simp [inspectExpr, callTest, inspectExpr_small q a0 (fun c hc => h c (by simp; omega)),
        inspectExpr_small q a1 (fun c hc => h c (by simp; omega))]
  | .arrayType a0 a1, h => by
      simp [inspectExpr, callTest, inspectExprOpt_small q a0 (fun c hc => h c (by simp; omega)),
        inspectExpr_small q a1 (fun c hc => h c (by simp; omega))]
  | .structType a0, h => by
      simp [inspectExpr, callTest, inspectFields_small q a0 (fun c hc => h c (by simp; omega))]
  | .funcType a0 a1 a2, h => by
      simp [inspectExpr, callTest, inspectFields_small q a0 (fun c hc => h c (by simp; omega)),
        inspectFields_small q a1 (fun c hc => h c (by simp; omega)),
        inspectFields_small q a2 (fun c hc => h c (by simp; omega))]
  | .interfaceType a0, h => by
      simp [inspectExpr, callTest, inspectFields_small q a0 (fun c hc => h c (by simp; omega))]
  | .mapType a0 a1, h => by
      simp [inspectExpr, callTest, inspectExpr_small q a0 (fun c hc => h c (by simp; omega)),
        inspectExpr_small q a1 (fun c hc => h c (by simp; omega))]
  | .chanType _ a1, h => by
      simp [inspectExpr, callTest, inspectExpr_small q a1 (fun c hc => h c (by simp; omega))]
/-- The same for the children of a call. -/
theorem inspectCall_small (q : CallExpr → Bool) : ∀ e : CallExpr,
    (∀ c, sizeOf c < sizeOf e → q c = false) → inspectCall (callTest q) e = false
  | .mk a0 a1, h => by
      simp [inspectCall, callTest, inspectExpr_small q a0 (fun c hc => h c (by simp; omega)),
        inspectExprs_small q a1 (fun c hc => h c (by simp; omega))]
/-- The same for a list of expressions. -/
theorem inspectExprs_small (q : CallExpr → Bool) : ∀ e : List Expr,
    (∀ c, sizeOf c < sizeOf e → q c = false) → inspectExprs (callTest q) e = false
  | [], _ => by
      simp [inspectExprs, callTest, inspectIdentOpt_callTest]
  | a0 :: a1, h => by
      simp [inspectExprs, callTest, inspectExpr_small q a0 (fun c hc => h c (by simp; omega)),
        inspectExprs_small q a1 (fun c hc => h c (by simp; omega))]
/-- The same for an optional expression. -/
theorem inspectExprOpt_small (q : CallExpr → Bool) : ∀ e : Option Expr,
    (∀ c, sizeOf c < sizeOf e → q c = false) → inspectExprOpt (callTest q) e = false
  | none, _ => by
      simp [inspectExprOpt, callTest, inspectIdentOpt_callTest]
  | some a0, h => by
      simp [inspectExprOpt, callTest, inspectExpr_small q a0 (fun c hc => h c (by simp; omega))]
/-- The same for a statement. -/
theorem inspectStmt_small (q : CallExpr → Bool) : ∀ e : Stmt,
    (∀ c, sizeOf c < sizeOf e → q c = false) → inspectStmt (callTest q) e = false
  | .badStmt, _ => by
      simp [inspectStmt, callTest, inspectIdentOpt_callTest]
  | .declStmt _ a1, h => by
      simp [inspectStmt, callTest, inspectSpecs_small q a1 (fun c hc => h c (by simp; omega))]
  | .emptyStmt, _ => by
      simp [inspectStmt, callTest, inspectIdentOpt_callTest]
  | .labeledStmt _ a1, h => by
      simp [inspectStmt, callTest, inspectStmt_small q a1 (fun c hc => h c (by simp; omega))]
  | .exprStmt a0, h => by
      simp [inspectStmt, callTest, inspectExpr_small q a0 (fun c hc => h c (by simp; omega))]
  | .sendStmt a0 a1, h => by
      simp [inspectStmt, callTest, inspectExpr_small q a0 (fun c hc => h c (by simp; omega)),
        inspectExpr_small q a1 (fun c hc => h c (by simp; omega))]
  | .incDecStmt a0 _, h => by
      simp [inspectStmt, callTest, inspectExpr_small q a0 (fun c hc => h c (by simp; omega))]
  | .assignStmt a0 _ a2, h => by
      simp [inspectStmt, callTest, inspectExprs_small q a0 (fun c hc => h c (by simp; omega)),
        inspectExprs_small q a2 (fun c hc => h c (by simp; omega))]
  | .goStmt a0, h => by
      simp [inspectStmt, callTest, h a0 (by simp),
        inspectCall_small q a0 (fun c hc => h c (by simp; omega))]
  | .deferStmt a0, h => by
      simp [inspectStmt, callTest, h a0 (by simp),
        inspectCall_small q a0 (fun c hc => h c (by simp; omega))]
  | .returnStmt a0, h => by
      simp [inspectStmt, callTest, inspectExprs_small q a0 (fun c hc => h c (by simp; omega))]
  | .branchStmt _ _, _ => by
      simp [inspectStmt, callTest, inspectIdentOpt_callTest]
  | .blockStmt a0, h => by
      simp [inspectStmt, callTest, inspectStmts_small q a0 (fun c hc => h c (by simp; omega))]
  | .ifStmt a0 a1 a2 a3, h => by
      simp [inspectStmt, callTest, inspectStmtOpt_small q a0 (fun c hc => h c (by simp; omega)),
        inspectExpr_small q a1 (fun c hc => h c (by simp; omega)),
        inspectStmts_small q a2 (fun c hc => h c (by simp; omega)),
        inspectStmtOpt_small q a3 (fun c hc => h c (by simp; omega))]
  | .caseClause a0 a1, h => by
      simp [inspectStmt, callTest, inspectExprs_small q a0 (fun c hc => h c (by simp; omega)),
        inspectStmts_small q a1 (fun c hc => h c (by simp; omega))]
  | .switchStmt a0 a1 a2, h => by
      simp [inspectStmt, callTest, inspectStmtOpt_small q a0 (fun c hc => h c (by simp; omega)),
        inspectExprOpt_small q a1 (fun c hc => h c (by simp; omega)),
        inspectStmts_small q a2 (fun c hc => h c (by simp; omega))]
  | .typeSwitchStmt a0 a1 a2, h => by
      simp [inspectStmt, callTest, inspectStmtOpt_small q a0 (fun c hc => h c (by simp; omega)),
        inspectStmt_small q a1 (fun c hc => h c (by simp; omega)),
        inspectStmts_small q a2 (fun c hc => h c (by simp; omega))]
  | .commClause a0 a1, h => by
      simp [inspectStmt, callTest, inspectStmtOpt_small q a0 (fun c hc => h c (by simp; omega)),
        inspectStmts_small q a1 (fun c hc => h c (by simp; omega))]
  | .selectStmt a0, h => by
      simp [inspectStmt, callTest, inspectStmts_small q a0 (fun c hc => h c (by simp; omega))]
  | .forStmt a0 a1 a2 a3, h => by
      simp [inspectStmt, callTest, inspectStmtOpt_small q a0 (fun c hc => h c (by simp; omega)),
        inspectExprOpt_small q a1 (fun c hc => h c (by simp; omega)),
        inspectStmtOpt_small q a2 (fun c hc => h c (by simp; omega)),
        inspectStmts_small q a3 (fun c hc => h c (by simp; omega))]
  | .rangeStmt a0 a1 _ a3 a4, h => by
      simp [inspectStmt, callTest, inspectExprOpt_small q a0 (fun c hc => h c (by simp; omega)),
        inspectExprOpt_small q a1 (fun c hc => h c (by simp; omega)),
        inspectExpr_small q a3 (fun c hc => h c (by simp; omega)),
        inspectStmts_small q a4 (fun c hc => h c (by simp; omega))]
/-- The same for a block. -/
theorem inspectStmts_small (q : CallExpr → Bool) : ∀ e : List Stmt,
    (∀ c, sizeOf c < sizeOf e → q c = false) → inspectStmts (callTest q) e = false
  | [], _ => by
      simp [inspectStmts, callTest, inspectIdentOpt_callTest]
  | a0 :: a1, h => by
      simp [inspectStmts, callTest, inspectStmt_small q a0 (fun c hc => h c (by simp; omega)),
        inspectStmts_small q a1 (fun c hc => h c (by simp; omega))]
/-- The same for an optional statement. -/
theorem inspectStmtOpt_small (q : CallExpr → Bool) : ∀ e : Option Stmt,
    (∀ c, sizeOf c < sizeOf e → q c = false) → inspectStmtOpt (callTest q) e = false
  | none, _ => by
      simp [inspectStmtOpt, callTest, inspectIdentOpt_callTest]
  | some a0, h => by
      simp [inspectStmtOpt, callTest, inspectStmt_small q a0 (fun c hc => h c (by simp; omega))]
/-- The same for a field. -/
theorem inspectField_small (q : CallExpr → Bool) : ∀ e : Field,
    (∀ c, sizeOf c < sizeOf e → q c = false) → inspectField (callTest q) e = false
  | .mk _ a1 _, h => by
      simp [inspectField, callTest, inspectIdents_callTest, inspectLitOpt_callTest,
        inspectExprOpt_small q a1 (fun c hc => h c (by simp; omega))]
/-- The same for a field list. -/
theorem inspectFields_small (q : CallExpr → Bool) : ∀ e : List Field,
    (∀ c, sizeOf c < sizeOf e → q c = false) → inspectFields (callTest q) e = false
  | [], _ => by
      simp [inspectFields, callTest, inspectIdentOpt_callTest]
  | a0 :: a1, h => by
      simp [inspectFields, callTest, inspectField_small q a0 (fun c hc => h c (by simp; omega)),
        inspectFields_small q a1 (fun c hc => h c (by simp; omega))]
/-- The same for a declaration spec. -/
theorem inspectSpec_small (q : CallExpr → Bool) : ∀ e : Spec,
    (∀ c, sizeOf c < sizeOf e → q c = false) → inspectSpec (callTest q) e = false
  | .importSpec _, _ => by
      simp [inspectSpec, callTest, inspectIdentOpt_callTest]
  | .valueSpec _ a1 a2, h => by
      simp [inspectSpec, callTest, inspectIdents_callTest, inspectLitOpt_callTest,
        inspectExprOpt_small q a1 (fun c hc => h c (by simp; omega)),
        inspectExprs_small q a2 (fun c hc => h c (by simp; omega))]
  | .typeSpec _ a1 a2, h => by
      simp [inspectSpec, callTest, inspectIdents_callTest, inspectLitOpt_callTest,
        inspectFields_small q a1 (fun c hc => h c (by simp; omega)),
        inspectExpr_small q a2 (fun c hc => h c (by simp; omega))]
/-- The same for a list of specs. -/
theorem inspectSpecs_small (q : CallExpr → Bool) : ∀ e : List Spec,
    (∀ c, sizeOf c < sizeOf e → q c = false) → inspectSpecs (callTest q) e = false
  | [], _ => by
      simp [inspectSpecs, callTest, inspectIdentOpt_callTest]
  | a0 :: a1, h => by
      simp [inspectSpecs, callTest, inspectSpec_small q a0 (fun c hc => h c (by simp; omega)),
        inspectSpecs_small q a1 (fun c hc => h c (by simp; omega))]
end

end GoAst

namespace Ast2
open GoAst

/-- The effect of one field on the chain does not depend on the fields after it. -/
theorem loop_cons_congr (f : Expr) (r1 r2 : List Expr)
    (h : ∀ c, createZerologCall.loop r1 c = createZerologCall.loop r2 c) (curr : CallExpr) :
    createZerologCall.loop (f :: r1) curr = createZerologCall.loop (f :: r2) curr := by
  simp only [createZerologCall.loop]
  repeat' split
  all_goals first | rfl | exact h _

/-- A field of unknown kind leaves the chain as it is. -/
theorem loop_unknown_skip (f : Expr) (rest : List Expr) (hu : isUnknownKindField f = true)
    (curr : CallExpr) :
    createZerologCall.loop (f :: rest) curr = createZerologCall.loop rest curr := by
  unfold isUnknownKindField at hu
  split at hu
  · rename_i kind args
    simp only [Option.isNone_iff_eq_none] at hu
    simp [createZerologCall.loop, CallExpr.fn, hu]
  · exact absurd hu (by simp)

/-- Removing the fields of unknown kind does not change the chain. -/
theorem loop_filter_unknown (fields : List Expr) (curr : CallExpr) :
    createZerologCall.loop (fields.filter (fun e => !isUnknownKindField e)) curr
      = createZerologCall.loop fields curr := by
  induction fields generalizing curr with
  | nil => rfl
  | cons f rest ih =>
      cases hu : isUnknownKindField f with
      | true =>
          rw [List.filter_cons_of_neg (by simp [hu]), ih, loop_unknown_skip f rest hu]
      | false =>
          rw [List.filter_cons_of_pos (by simp [hu])]
          exact loop_cons_congr f _ _ ih curr

/-- The test `isErrDotError` holds of the call `err.Error()` and of no other node. -/
theorem isErrDotError_iff (n : Expr) :
    isErrDotError n = true ↔ n = methodCall (.ident "err") "Error" [] := by
  constructor
  · intro h
    unfold isErrDotError at h
    split at h
    · rfl
    · cases h
  · intro h
    subst h
    rfl

/-- A test that holds of the call `x.Error()` alone is a test on call nodes. -/
theorem eq_callTest_of_only (p : Expr → Bool) (x : Expr)
    (hp : ∀ n, p n = true → n = methodCall x "Error" []) :
    p = callTest (fun c => p (.callExpr c)) := by
  funext n
  cases n <;> first
    | rfl
    | (simp only [callTest]
       apply Bool.eq_false_iff.2
       intro h
       have h2 := hp _ h
       simp [methodCall] at h2)

/-- The call `x.Error()` is no node of `x`: a test that holds of this call alone finds
nothing below `x`. -/
theorem inspectExpr_receiver (p : Expr → Bool) (x : Expr)
    (hp : ∀ n, p n = true → n = methodCall x "Error" []) :
    inspectExpr p x = false := by
  rw [eq_callTest_of_only p x hp]
  apply inspectExpr_small
  intro c hc
  apply Bool.eq_false_iff.2
  intro h
  have h2 := hp _ h
  simp only [methodCall, Expr.callExpr.injEq] at h2
  subst h2
  simp at hc
  omega

/-- A test that holds of the call `x.Error()` alone fails on every node that is not
this call. -/
theorem false_of_ne_errorCall (p : Expr → Bool) (x : Expr)
    (hp : ∀ n, p n = true → n = methodCall x "Error" []) (n : Expr)
    (hn : n ≠ methodCall x "Error" []) : p n = false :=
  Bool.eq_false_iff.2 (fun h => hn (hp n h))

/-- C3 (amended): in package `ast2`, when the message is a call `X.Error()` without
arguments, `createZerologCall` returns, for every list of field arguments, the chain that its
field loop builds, followed by `.Err(errors.Wrap(X, "from error"))` and `.Msg("")`; for fields
of known kinds that chain is `r.logger.L().T1(a1)...Tn(an)`; without fields the result is
`r.logger.L().Err(errors.Wrap(X, "from error")).Msg("")`.  The two added links do not hold
the call `X.Error()`: `ast.Inspect` finds it in the result exactly when it finds it in the
chain of the fields, and without fields it finds it nowhere, unless `X` is `r.logger` and the
level is `Error`, when the head of the chain is an equal call. -/
theorem ast2_createZerologCall_error_message (recv level : String) (x : Expr)
    (fields : List Expr) :
    createZerologCall level (methodCall x "Error" [] :: fields) recv
        = some (.callExpr (chainStep
            (chainStep (createZerologCall.loop fields (loggerCall recv level)) "Err"
              [wrapFromError x]) "Msg" [strLit ""]))
    ∧ (∀ fs : List FieldDesc,
        (∀ f ∈ fs, zapToZero f.1 = some f.2.1 ∧ (f.1 = "Error" → f.2.2.length = 1)) →
        createZerologCall level (methodCall x "Error" [] :: fs.map FieldDesc.toExpr) recv
          = some (.callExpr (chainStep
              (chainStep (fieldChain recv level fs) "Err" [wrapFromError x]) "Msg"
              [strLit ""])))
    ∧ createZerologCall level [methodCall x "Error" []] recv
        = some (methodCall
            (methodCall (methodCall (.selectorExpr (.ident recv) "logger") level []) "Err"
              [methodCall (.ident "errors") "Wrap" [x, strLit "from error"]])
            "Msg" [strLit ""])
    ∧ (∀ p : Expr → Bool, (∀ n, p n = true → n = methodCall x "Error" []) →
        inspectExpr p (.callExpr (chainStep
            (chainStep (createZerologCall.loop fields (loggerCall recv level)) "Err"
              [wrapFromError x]) "Msg" [strLit ""]))
          = inspectExpr p (.callExpr (createZerologCall.loop fields (loggerCall recv level))))
    ∧ (∀ p : Expr → Bool, (∀ n, p n = true → n = methodCall x "Error" []) →
        (x ≠ .selectorExpr (.ident recv) "logger" ∨ level ≠ "Error") →
        inspectExpr p (methodCall
            (methodCall (methodCall (.selectorExpr (.ident recv) "logger") level []) "Err"
              [methodCall (.ident "errors") "Wrap" [x, strLit "from error"]])
            "Msg" [strLit ""]) = false) := by
  have key : ∀ (p : Expr → Bool), (∀ n, p n = true → n = methodCall x "Error" []) →
      ∀ curr : CallExpr,
      inspectExpr p (.callExpr (chainStep (chainStep curr "Err" [wrapFromError x]) "Msg"
          [strLit ""]))
        = inspectExpr p (.callExpr curr) := by
    intro p hp curr
    have hf := false_of_ne_errorCall p x hp
    have hx := inspectExpr_receiver p x hp
    have hs : ∀ a s, p (.selectorExpr a s) = false := fun a s => hf _ (by simp [methodCall])
    have hi : ∀ s, p (.ident s) = false := fun s => hf _ (by simp [methodCall])
    have hl : ∀ k v, p (.basicLit k v) = false := fun k v => hf _ (by simp [methodCall])
    have ha : ∀ f a l, p (.callExpr (.mk f (a :: l))) = false :=
      fun f a l => hf _ (by simp [methodCall])
    simp [chainStep, wrapFromError, strLit, inspectExpr, inspectCall, inspectExprs, hx, hs, hi,
      hl, ha]
  refine ⟨rfl, ?_, rfl, ?_, ?_⟩
  · intro fs h
    simp only [createZerologCall, loop_known2 fs h]
    rfl
  · intro p hp
    exact key p hp _
  · intro p hp hne
    have hf := false_of_ne_errorCall p x hp
    have hs : ∀ a s, p (.selectorExpr a s) = false := fun a s => hf _ (by simp [methodCall])
    have hi : ∀ s, p (.ident s) = false := fun s => hf _ (by simp [methodCall])
    refine (key p hp (loggerCall recv level)).trans ?_
    simp only [loggerCall, inspectExpr, inspectCall, inspectExprs, hs, hi, Bool.or_false]
    apply hf
    simp only [methodCall, ne_eq, Expr.callExpr.injEq, CallExpr.mk.injEq,
      Expr.selectorExpr.injEq, and_true]
    rintro ⟨h1, h2⟩
    rcases hne with hne | hne
    · exact hne h1.symm
    · exact hne h2

/-- Witness of C3 (amended): `createZerologCall("Error", [err.Error(), zap.Int("n", x)], "s")`
is `s.logger.Error().Int("n", x).Err(errors.Wrap(err, "from error")).Msg("")`; the call
`err.Error()` is no node of it, nor of the result without fields. -/
theorem ast2_createZerologCall_error_message_witness :
    createZerologCall "Error"
        [methodCall (.ident "err") "Error" [], zapField "Int" [strLit "n", .ident "x"]] "s"
      = some (methodCall
          (methodCall
            (methodCall
              (methodCall (.selectorExpr (.ident "s") "logger") "Error" [])
              "Int" [strLit "n", .ident "x"])
            "Err" [methodCall (.ident "errors") "Wrap" [.ident "err", strLit "from error"]])
          "Msg" [strLit ""])
    ∧ inspectExpr isErrDotError (methodCall
          (methodCall
            (methodCall
              (methodCall (.selectorExpr (.ident "s") "logger") "Error" [])
              "Int" [strLit "n", .ident "x"])
            "Err" [methodCall (.ident "errors") "Wrap" [.ident "err", strLit "from error"]])
          "Msg" [strLit ""]) = false
    ∧ inspectExpr isErrDotError (methodCall
          (methodCall (methodCall (.selectorExpr (.ident "s") "logger") "Error" []) "Err"
            [methodCall (.ident "errors") "Wrap" [.ident "err", strLit "from error"]])
          "Msg" [strLit ""]) = false :=
  ⟨(ast2_createZerologCall_error_message "s" "Error" (.ident "err")
      [zapField "Int" [strLit "n", .ident "x"]]).2.1 [("Int", "Int", [strLit "n", .ident "x"])]
      (by decide),
   ((ast2_createZerologCall_error_message "s" "Error" (.ident "err")
      [zapField "Int" [strLit "n", .ident "x"]]).2.2.2.1 isErrDotError
      (fun n h => (isErrDotError_iff n).1 h)).trans rfl,
   (ast2_createZerologCall_error_message "s" "Error" (.ident "err") []).2.2.2.2 isErrDotError
      (fun n h => (isErrDotError_iff n).1 h) (Or.inl (by simp))⟩

/-- Counterexample to C3 as stated: for the arguments
`(err.Error(), zap.String("e", err.Error()))` at level `Error` with receiver `s` the result is
`s.logger.Error().Str("e", err.Error()).Err(errors.Wrap(err, "from error")).Msg("")`, and
`ast.Inspect` finds the call `err.Error()` in it: the field loop hands the arguments of a field
on as they are. -/
theorem ast2_createZerologCall_error_call_in_field :
    createZerologCall "Error"
        [methodCall (.ident "err") "Error" [],
          zapField "String" [strLit "e", methodCall (.ident "err") "Error" []]] "s"
      = some (methodCall
          (methodCall
            (methodCall
              (methodCall (.selectorExpr (.ident "s") "logger") "Error" [])
              "Str" [strLit "e", methodCall (.ident "err") "Error" []])
            "Err" [methodCall (.ident "errors") "Wrap" [.ident "err", strLit "from error"]])
          "Msg" [strLit ""])
    ∧ inspectExpr isErrDotError (methodCall
          (methodCall
            (methodCall
              (methodCall (.selectorExpr (.ident "s") "logger") "Error" [])
              "Str" [strLit "e", methodCall (.ident "err") "Error" []])
            "Err" [methodCall (.ident "errors") "Wrap" [.ident "err", strLit "from error"]])
          "Msg" [strLit ""]) = true
    ∧ (∀ n : Expr, isErrDotError n = true ↔ n = methodCall (.ident "err") "Error" []) :=
  ⟨rfl, rfl, isErrDotError_iff⟩

/-- C4: in package `ast2`, for every argument list `createZerologCall` returns the same as
for the argument list with the fields of unknown kind removed; for example
`("m", zap.String("k", v), zap.Unsupported(x), zap.Int("n", i))` yields
`r.logger.Info().Str("k", v).Int("n", i).Msg("m")`. -/
theorem ast2_createZerologCall_skips_unknown (recv level : String) (args : List Expr) :
    createZerologCall level args recv
        = createZerologCall level (withoutUnknownFields args) recv
    ∧ createZerologCall "Info"
        [strLit "m", zapField "String" [strLit "k", .ident "v"],
          zapField "Unsupported" [.ident "x"], zapField "Int" [strLit "n", .ident "i"]] "r"
        = some (methodCall
            (methodCall
              (methodCall
                (methodCall (.selectorExpr (.ident "r") "logger") "Info" [])
                "Str" [strLit "k", .ident "v"])
              "Int" [strLit "n", .ident "i"])
            "Msg" [strLit "m"]) := by
  refine ⟨?_, rfl⟩
  cases args with
  | nil => rfl
  | cons msg fields =>
      simp only [createZerologCall, withoutUnknownFields, loop_filter_unknown]

end Ast2

namespace Ast
open GoAst

/-- C5: in package `ast` a field of unknown kind ends chain building with the bare initial
call: `createZerologCall("Info", ["hello", zap.String("k","v"), zap.Duration("d", x),
zap.Int("n", i)])` is `logger.Info()`, without the known fields and without `.Msg("hello")`. -/
theorem ast_createZerologCall_unknown_kind_returns_base :
    createZerologCall "Info"
        [strLit "hello", zapField "String" [strLit "k", strLit "v"],
          zapField "Duration" [strLit "d", .ident "x"], zapField "Int" [strLit "n", .ident "i"]]
      = some (methodCall (.ident "logger") "Info" []) := by
  rfl

/-- Counterexample to C6: `createZerologCall("Error", ["failed", zap.Error(err)])` is
`logger.Error().Err(err).Msg("failed")`; it is not
`logger.Error().Err(errors.Wrap(err, "from error")).Msg("failed")`. -/
theorem ast_createZerologCall_error_field_not_wrapped :
    createZerologCall "Error" [strLit "failed", zapField "Error" [.ident "err"]]
        = some (methodCall
            (methodCall (methodCall (.ident "logger") "Error" []) "Err" [.ident "err"])
            "Msg" [strLit "failed"])
    ∧ createZerologCall "Error" [strLit "failed", zapField "Error" [.ident "err"]]
        ≠ some (methodCall
            (methodCall (methodCall (.ident "logger") "Error" []) "Err"
              [methodCall (.ident "errors") "Wrap" [.ident "err", strLit "from error"]])
            "Msg" [strLit "failed"]) := by
  refine ⟨rfl, ?_⟩
  rw [show createZerologCall "Error" [strLit "failed", zapField "Error" [.ident "err"]]
        = some (methodCall
            (methodCall (methodCall (.ident "logger") "Error" []) "Err" [.ident "err"])
            "Msg" [strLit "failed"]) from rfl]
  simp [methodCall]

/-- C6 (amended): in package `ast` a field `zap.Error(args)` among fields of known kind is
translated to the link `.Err(args)`, its arguments passed through unchanged: the result is
`logger.L().<before>.Err(args).<after>.Msg(m)`. -/
theorem ast_createZerologCall_error_field_passthrough (level : String) (m : Expr)
    (before after : List FieldDesc) (args : List Expr)
    (hb : ∀ f ∈ before, zapToZero f.1 = some f.2.1)
    (ha : ∀ f ∈ after, zapToZero f.1 = some f.2.1) :
    createZerologCall level
        (m :: (before.map FieldDesc.toExpr ++ zapField "Error" args
          :: after.map FieldDesc.toExpr))
      = some (.callExpr (chainStep
          (after.foldl (fun c f => chainStep c f.2.1 f.2.2)
            (chainStep (fieldChain level before) "Err" args))
          "Msg" [m])) := by
  have h : ∀ f ∈ before ++ ("Error", "Err", args) :: after, zapToZero f.1 = some f.2.1 := by
    intro f hf
    rcases List.mem_append.mp hf with hf | hf
    · exact hb f hf
    · rcases List.mem_cons.mp hf with hf | hf
      · subst hf; rfl
      · exact ha f hf
  have := loop_known (loggerCall level) m _ h (loggerCall level)
  simp only [List.map_append, List.map_cons, List.foldl_append, List.foldl_cons] at this
  simpa [createZerologCall, fieldChain, loggerCall, FieldDesc.toExpr] using this

/-- Witness of C6 (amended): `createZerologCall("Error", ["failed", zap.String("k", v),
zap.Error(err), zap.Int("n", i)])` is
`logger.Error().Str("k", v).Err(err).Int("n", i).Msg("failed")`. -/
theorem ast_createZerologCall_error_field_passthrough_witness :
    createZerologCall "Error"
        [strLit "failed", zapField "String" [strLit "k", .ident "v"],
          zapField "Error" [.ident "err"], zapField "Int" [strLit "n", .ident "i"]]
      = some (methodCall
          (methodCall
            (methodCall
              (methodCall (methodCall (.ident "logger") "Error" []) "Str"
                [strLit "k", .ident "v"])
              "Err" [.ident "err"])
            "Int" [strLit "n", .ident "i"])
          "Msg" [strLit "failed"]) :=
  ast_createZerologCall_error_field_passthrough "Error" (strLit "failed")
    [("String", "Str", [strLit "k", .ident "v"])] [("Int", "Int", [strLit "n", .ident "i"])]
    [.ident "err"] (by decide) (by decide)

end Ast

/-! ## Traversal: `rewriteExpr`, `rewriteStmt`, `rewriteBlock` -/

namespace Ast
open GoAst

/-- The keys of `logLevels` are the six level names. -/
theorem logLevels_iff (level : String) :
    logLevels level = true ↔ level ∈ ["Debug", "Info", "Warn", "Error", "Panic", "Fatal"] := by
  unfold logLevels
  split <;> simp_all

/-- `isUtilsLogger` holds of the selector `utils.Logger` and of nothing else. -/
theorem isUtilsLogger_iff (e : Expr) :
    isUtilsLogger e = true ↔ e = .selectorExpr (.ident "utils") "Logger" := by
  unfold isUtilsLogger
  split
  · split
    · rename_i name
      by_cases h : name = "utils" <;> simp [h]
    · rename_i h
      simp
      intro h1 
      exact absurd h1 (h _)
  · rename_i h
    simp
    intro h1
    exact absurd h1 (h _ _)

/-- Whatever the field loop returns is a call expression. -/
theorem loop_isCall (base : CallExpr) (msg : Expr) (fields : List Expr) (curr : CallExpr)
    (r : Expr) (h : createZerologCall.loop base msg fields curr = some r) :
    ∃ c, r = .callExpr c := by
  induction fields generalizing curr with
  | nil =>
      simp only [createZerologCall.loop, Option.some.injEq] at h
      exact ⟨_, h.symm⟩
  | cons f rest ih =>
      simp only [createZerologCall.loop] at h
      repeat' split at h
      all_goals first
        | exact ih _ h
        | exact ⟨_, (Option.some.inj h).symm⟩
        | cases h

/-- Whatever `createZerologCall` returns is a call expression. -/
theorem createZerologCall_isCall (level : String) (args : List Expr) (r : Expr)
    (h : createZerologCall level args = some r) : ∃ c, r = .callExpr c := by
  cases args with
  | nil => simp [createZerologCall] at h
  | cons m fs => exact loop_isCall _ _ _ _ _ h

/-- The call case of `rewriteExpr` returns a call expression. -/
theorem rewriteCall_isCall (c : CallExpr) (r : Expr) (h : rewriteCall c = some r) :
    ∃ c2, r = .callExpr c2 := by
  obtain ⟨fn, args⟩ := c
  simp only [rewriteCall, Option.bind_eq_bind, Option.bind_eq_some] at h
  obtain ⟨fn2, _, args2, _, h⟩ := h
  split at h
  · split at h
    · exact createZerologCall_isCall _ _ _ h
    · simp only [Option.pure_def, Option.some.injEq] at h
      exact ⟨_, h.symm⟩
  · simp only [Option.pure_def, Option.some.injEq] at h
    exact ⟨_, h.symm⟩

/-- Only an identifier is rewritten to an identifier. -/
theorem rewriteExpr_ident_inv (y : Expr) (n : String) (h : rewriteExpr y = some (.ident n)) :
    y = .ident n := by
  cases y
  case callExpr c =>
    simp only [rewriteExpr] at h
    obtain ⟨c2, hc⟩ := rewriteCall_isCall c _ h
    cases hc
  all_goals
    simp [rewriteExpr, Option.bind_eq_some] at h
  all_goals simp_all

/-- A selector is rewritten to the selector of its rewritten base. -/
theorem rewriteExpr_selector (x : Expr) (sel : String) :
    rewriteExpr (.selectorExpr x sel) = (rewriteExpr x).map (fun x2 => .selectorExpr x2 sel) := by
  simp only [rewriteExpr]
  cases rewriteExpr x <;> rfl

/-- Only a selector of the same name is rewritten to a selector. -/
theorem rewriteExpr_selector_inv (e y : Expr) (sel : String)
    (h : rewriteExpr e = some (.selectorExpr y sel)) :
    ∃ y0, e = .selectorExpr y0 sel ∧ rewriteExpr y0 = some y := by
  cases e
  case callExpr c =>
    simp only [rewriteExpr] at h
    obtain ⟨c2, hc⟩ := rewriteCall_isCall c _ h
    cases hc
  case selectorExpr y0 s0 =>
    simp [rewriteExpr, Option.bind_eq_some] at h
    obtain ⟨a, ha, h1, h2⟩ := h
    subst h1; subst h2
    exact ⟨y0, rfl, ha⟩
  all_goals
    simp [rewriteExpr, Option.bind_eq_some] at h

/-- Rewriting does not change whether an expression is `utils.Logger`. -/
theorem isUtilsLogger_rewrite (x x2 : Expr) (h : rewriteExpr x = some x2) :
    isUtilsLogger x2 = isUtilsLogger x := by
  rw [Bool.eq_iff_iff, isUtilsLogger_iff, isUtilsLogger_iff]
  constructor
  · intro h2
    subst h2
    obtain ⟨y0, rfl, hy⟩ := rewriteExpr_selector_inv _ _ _ h
    rw [rewriteExpr_ident_inv _ _ hy]
  · intro h2
    subst h2
    have : rewriteExpr (.selectorExpr (.ident "utils") "Logger")
        = some (.selectorExpr (.ident "utils") "Logger") := rfl
    rw [this] at h
    exact (Option.some.inj h).symm

/-- Rewriting an argument list keeps its length. -/
theorem rewriteExprs_length (args args2 : List Expr) (h : rewriteExprs args = some args2) :
    args2.length = args.length := by
  induction args generalizing args2 with
  | nil =>
      simp only [rewriteExprs, Option.some.injEq] at h
      subst h; rfl
  | cons a as ih =>
      simp only [rewriteExprs, Option.bind_eq_bind, Option.bind_eq_some, Option.pure_def,
        Option.some.injEq] at h
      obtain ⟨a2, _, as2, has, h⟩ := h
      subst h
      simp [ih as2 has]

/-- The behaviour of `rewriteExpr` at a call expression. -/
theorem rewriteExpr_call_contract :
    RewritesExactlyLoggerCalls rewriteExpr rewriteExprs createZerologCall := by
  intro fn args
  constructor
  · intro level hl hfn
    subst hfn
    have hl2 := (logLevels_iff level).mpr hl
    simp only [rewriteExpr, rewriteCall, Option.bind_eq_bind, Option.pure_def,
      Option.some_bind]
    cases rewriteExprs args with
    | none => rfl
    | some a2 =>
        have : isUtilsLogger (.selectorExpr (.ident "utils") "Logger") = true := rfl
        simp [this, hl2]
  · intro hn
    have key : rewriteExpr (.callExpr (.mk fn args))
          = (rewriteExpr fn).bind (fun fn2 =>
              (rewriteExprs args).bind (fun args2 => some (.callExpr (.mk fn2 args2)))) := by
      simp only [rewriteExpr, rewriteCall, Option.bind_eq_bind, Option.pure_def]
      cases h1 : rewriteExpr fn with
      | none => rfl
      | some fn2 =>
          cases h2 : rewriteExprs args with
          | none => rfl
          | some a2 =>
              simp only [Option.some_bind]
              split
              · rename_i x2 sel
                obtain ⟨x0, hfn, hx0⟩ := rewriteExpr_selector_inv _ _ _ h1
                have hcond : (isUtilsLogger x2 && logLevels sel) = false := by
                  rw [isUtilsLogger_rewrite _ _ hx0]
                  cases hb : (isUtilsLogger x0 && logLevels sel) with
                  | false => rfl
                  | true =>
                      exfalso
                      rw [Bool.and_eq_true, isUtilsLogger_iff, logLevels_iff] at hb
                      exact hn ⟨sel, hb.2, by rw [hfn, hb.1]⟩
                simp [hcond]
              · rfl
    refine ⟨key, ?_⟩
    intro r hr
    rw [key] at hr
    simp only [Option.bind_eq_some, Option.some.injEq] at hr
    obtain ⟨fn2, h1, a2, h2, hr⟩ := hr
    refine ⟨fn2, a2, hr.symm, rewriteExprs_length _ _ h2, ?_⟩
    intro x sel hfn
    subst hfn
    simp only [rewriteExpr, Option.bind_eq_bind, Option.bind_eq_some, Option.pure_def,
      Option.some.injEq] at h1
    obtain ⟨x2, _, h1⟩ := h1
    exact ⟨x2, h1.symm⟩


/-- A call that is not a logger call fails the test of `rewriteExpr` on its callee. -/
theorem isLoggerCall_callExpr (fn : Expr) (args : List Expr)
    (h : isLoggerCall (.callExpr (.mk fn args)) = false) (x : Expr) (sel : String)
    (hfn : fn = .selectorExpr x sel) : (isUtilsLogger x && logLevels sel) = false := by
  subst hfn
  simpa [isLoggerCall, CallExpr.fn] using h

mutual
/-- An expression without logger call is rewritten to itself. -/
theorem rewriteExpr_id : ∀ e : Expr, inspectExpr isLoggerCall e = false → rewriteExpr e = some e
  | .badExpr, _ => rfl
  | .ident _, _ => rfl
  | .ellipsis _, _ => rfl
  | .basicLit _ _, _ => rfl
  | .funcLit tps ps rs body, h => by
      simp only [inspectExpr, Bool.or_eq_false_iff] at h
      simp [rewriteExpr, rewriteBlock_id body h.2]
  | .compositeLit t elts, h => by
      simp only [inspectExpr, Bool.or_eq_false_iff] at h
      simp [rewriteExpr, rewriteExprOpt_id t h.1.2, rewriteExprs_id elts h.2]
  | .parenExpr x, h => by
      simp only [inspectExpr, Bool.or_eq_false_iff] at h
      simp [rewriteExpr, rewriteExpr_id x h.2]
  | .selectorExpr x sel, h => by
      simp only [inspectExpr, Bool.or_eq_false_iff] at h
      simp [rewriteExpr, rewriteExpr_id x h.1.2]
  | .indexExpr x i, h => by
      simp only [inspectExpr, Bool.or_eq_false_iff] at h
      simp [rewriteExpr, rewriteExpr_id x h.1.2, rewriteExpr_id i h.2]
  | .indexListExpr _ _, _ => rfl
  | .sliceExpr x lo hi mx s3, h => by
      simp only [inspectExpr, Bool.or_eq_false_iff] at h
      simp [rewriteExpr, rewriteExpr_id x h.1.1.1.2, rewriteExprOpt_id lo h.1.1.2,
        rewriteExprOpt_id hi h.1.2, rewriteExprOpt_id mx h.2]
  | .typeAssertExpr x t, h => by
      simp only [inspectExpr, Bool.or_eq_false_iff] at h
      simp [rewriteExpr, rewriteExpr_id x h.1.2, rewriteExprOpt_id t h.2]
  | .callExpr c, h => by
      simp only [inspectExpr, Bool.or_eq_false_iff] at h
      simp [rewriteExpr, rewriteCall_id c h.1 h.2]
  | .starExpr x, h => by
      simp only [inspectExpr, Bool.or_eq_false_iff] at h
      simp [rewriteExpr, rewriteExpr_id x h.2]
  | .unaryExpr op x, h => by
      simp only [inspectExpr, Bool.or_eq_false_iff] at h
      simp [rewriteExpr, rewriteExpr_id x h.2]
  | .binaryExpr x op y, h => by
      simp only [inspectExpr, Bool.or_eq_false_iff] at h
      simp [rewriteExpr, rewriteExpr_id x h.1.2, rewriteExpr_id y h.2]
  | .keyValueExpr k v, h => by
      simp only [inspectExpr, Bool.or_eq_false_iff] at h
      simp [rewriteExpr, rewriteExpr_id k h.1.2, rewriteExpr_id v h.2]
  | .arrayType len elt, h => by
      simp only [inspectExpr, Bool.or_eq_false_iff] at h
      simp [rewriteExpr, rewriteExprOpt_id len h.1.2, rewriteExpr_id elt h.2]
  | .structType _, _ => rfl
  | .funcType _ _ _, _ => rfl
  | .interfaceType _, _ => rfl
  | .mapType k v, h => by
      simp only [inspectExpr, Bool.or_eq_false_iff] at h
      simp [rewriteExpr, rewriteExpr_id k h.1.2, rewriteExpr_id v h.2]
  | .chanType dir v, h => by
      simp only [inspectExpr, Bool.or_eq_false_iff] at h
      simp [rewriteExpr, rewriteExpr_id v h.2]
/-- A call without logger call is rewritten to itself. -/
theorem rewriteCall_id : ∀ c : CallExpr, isLoggerCall (.callExpr c) = false →
    inspectCall isLoggerCall c = false → rewriteCall c = some (.callExpr c)
  | .mk fn args, h0, h => by
      simp only [inspectCall, Bool.or_eq_false_iff] at h
      simp only [rewriteCall, rewriteExpr_id fn h.1, rewriteExprs_id args h.2,
        Option.bind_eq_bind, Option.some_bind, Option.pure_def]
      split
      · rename_i x sel
        simp [isLoggerCall_callExpr _ _ h0 x sel rfl]
      · rfl
/-- An expression list without logger call is rewritten to itself. -/
theorem rewriteExprs_id : ∀ es : List Expr, inspectExprs isLoggerCall es = false →
    rewriteExprs es = some es
  | [], _ => rfl
  | e :: es, h => by
      simp only [inspectExprs, Bool.or_eq_false_iff] at h
      simp [rewriteExprs, rewriteExpr_id e h.1, rewriteExprs_id es h.2]
/-- An optional expression without logger call is rewritten to itself. -/
theorem rewriteExprOpt_id : ∀ o : Option Expr, inspectExprOpt isLoggerCall o = false →
    rewriteExprOpt o = some o
  | none, _ => rfl
  | some e, h => by
      simp only [inspectExprOpt] at h
      simp [rewriteExprOpt, rewriteExpr_id e h]
/-- A statement without logger call is rewritten to itself. -/
theorem rewriteStmt_id : ∀ s : Stmt, inspectStmt isLoggerCall s = false →
    rewriteStmt s = some s
  | .badStmt, _ => rfl
  | .declStmt _ _, _ => rfl
  | .emptyStmt, _ => rfl
  | .labeledStmt label s, h => by
      simp only [inspectStmt, Bool.or_eq_false_iff] at h
      simp [rewriteStmt, rewriteStmt_id s h.2]
  | .exprStmt x, h => by
      simp only [inspectStmt] at h
      simp [rewriteStmt, rewriteExpr_id x h]
  | .sendStmt c v, h => by
      simp only [inspectStmt, Bool.or_eq_false_iff] at h
      simp [rewriteStmt, rewriteExpr_id c h.1, rewriteExpr_id v h.2]
  | .incDecStmt x tok, h => by
      simp only [inspectStmt] at h
      simp [rewriteStmt, rewriteExpr_id x h]
  | .assignStmt lhs tok rhs, h => by
      simp only [inspectStmt, Bool.or_eq_false_iff] at h
      simp [rewriteStmt, rewriteExprs_id lhs h.1, rewriteExprs_id rhs h.2]
  | .goStmt c, h => by
      simp only [inspectStmt, Bool.or_eq_false_iff] at h
      simp [rewriteStmt, rewriteCall_id c h.1 h.2]
  | .deferStmt c, h => by
      simp only [inspectStmt, Bool.or_eq_false_iff] at h
      simp [rewriteStmt, rewriteCall_id c h.1 h.2]
  | .returnStmt rs, h => by
      simp only [inspectStmt] at h
      simp [rewriteStmt, rewriteExprs_id rs h]
  | .branchStmt _ _, _ => rfl
  | .blockStmt l, h => by
      simp only [inspectStmt] at h
      simp [rewriteStmt, rewriteBlock_id l h]
  | .ifStmt init cond body els, h => by
      simp only [inspectStmt, Bool.or_eq_false_iff] at h
      simp [rewriteStmt, rewriteStmtOpt_id init h.1.1.1, rewriteExpr_id cond h.1.1.2,
        rewriteBlock_id body h.1.2, rewriteStmtOpt_id els h.2]
  | .caseClause l body, h => by
      simp only [inspectStmt, Bool.or_eq_false_iff] at h
      simp [rewriteStmt, rewriteExprs_id l h.1, rewriteBlock_id body h.2]
  | .switchStmt init tag body, h => by
      simp only [inspectStmt, Bool.or_eq_false_iff] at h
      simp [rewriteStmt, rewriteStmtOpt_id init h.1.1, rewriteExprOpt_id tag h.1.2,
        rewriteBlock_id body h.2]
  | .typeSwitchStmt init assign body, h => by
      simp only [inspectStmt, Bool.or_eq_false_iff] at h
      simp [rewriteStmt, rewriteStmtOpt_id init h.1.1, rewriteStmt_id assign h.1.2,
        rewriteBlock_id body h.2]
  | .commClause comm body, h => by
      simp only [inspectStmt, Bool.or_eq_false_iff] at h
      simp [rewriteStmt, rewriteStmtOpt_id comm h.1, rewriteBlock_id body h.2]
  | .selectStmt body, h => by
      simp only [inspectStmt] at h
      simp [rewriteStmt, rewriteBlock_id body h]
  | .forStmt init cond post body, h => by
      simp only [inspectStmt, Bool.or_eq_false_iff] at h
      simp [rewriteStmt, rewriteStmtOpt_id init h.1.1.1, rewriteExprOpt_id cond h.1.1.2,
        rewriteStmtOpt_id post h.1.2, rewriteBlock_id body h.2]
  | .rangeStmt k v tok x body, h => by
      simp only [inspectStmt, Bool.or_eq_false_iff] at h
      simp [rewriteStmt, rewriteExprOpt_id k h.1.1.1, rewriteExprOpt_id v h.1.1.2,
        rewriteExpr_id x h.1.2, rewriteBlock_id body h.2]
/-- A block without logger call is rewritten to itself. -/
theorem rewriteBlock_id : ∀ ss : List Stmt, inspectStmts isLoggerCall ss = false →
    rewriteBlock ss = some ss
  | [], _ => rfl
  | s :: ss, h => by
      simp only [inspectStmts, Bool.or_eq_false_iff] at h
      simp [rewriteBlock, rewriteStmt_id s h.1, rewriteBlock_id ss h.2]
/-- An optional statement without logger call is rewritten to itself. -/
theorem rewriteStmtOpt_id : ∀ o : Option Stmt, inspectStmtOpt isLoggerCall o = false →
    rewriteStmtOpt o = some o
  | none, _ => rfl
  | some s, h => by
      simp only [inspectStmtOpt] at h
      simp [rewriteStmtOpt, rewriteStmt_id s h]
end

end Ast

namespace Ast2
open GoAst

/-- The keys of `logLevels` are the six level names (package `ast2`). -/
theorem logLevels_iff2 (level : String) :
    logLevels level = true ↔ level ∈ ["Debug", "Info", "Warn", "Error", "Panic", "Fatal"] := by
  unfold logLevels
  split <;> simp_all

/-- `isUtilsLogger` holds of the selector `utils.Logger` and of nothing else (package `ast2`). -/
theorem isUtilsLogger_iff2 (e : Expr) :
    isUtilsLogger e = true ↔ e = .selectorExpr (.ident "utils") "Logger" := by
  unfold isUtilsLogger
  split
  · split
    · simp
    · rename_i h
      simp
      intro h1
      exact absurd h1 (h _)
  · rename_i h
    simp
    intro h1
    exact absurd h1 (h _ _)

/-- Whatever `createZerologCall` returns is a call expression (package `ast2`). -/
theorem createZerologCall_isCall2 (recv : String) (level : String) (args : List Expr) (r : Expr)
    (h : createZerologCall level args recv = some r) : ∃ c, r = .callExpr c := by
  cases args with
  | nil => simp [createZerologCall] at h
  | cons m fs =>
      simp only [createZerologCall] at h
      split at h <;> exact ⟨_, (Option.some.inj h).symm⟩

/-- The call case of `rewriteExpr` returns a call expression (package `ast2`). -/
theorem rewriteCall_isCall2 (recv : String) (c : CallExpr) (r : Expr) (h : rewriteCall recv c = some r) :
    ∃ c2, r = .callExpr c2 := by
  obtain ⟨fn, args⟩ := c
  simp only [rewriteCall, Option.bind_eq_bind, Option.bind_eq_some] at h
  obtain ⟨fn2, _, args2, _, h⟩ := h
  split at h
  · split at h
    · exact createZerologCall_isCall2 recv _ _ _ h
    · simp only [Option.pure_def, Option.some.injEq] at h
      exact ⟨_, h.symm⟩
  · simp only [Option.pure_def, Option.some.injEq] at h
    exact ⟨_, h.symm⟩

/-- Only an identifier is rewritten to an identifier (package `ast2`). -/
theorem rewriteExpr_ident_inv2 (recv : String) (y : Expr) (n : String) (h : rewriteExpr recv y = some (.ident n)) :
    y = .ident n := by
  cases y
  case callExpr c =>
    simp only [rewriteExpr] at h
    obtain ⟨c2, hc⟩ := rewriteCall_isCall2 recv c _ h
    cases hc
  all_goals
    simp [rewriteExpr, Option.bind_eq_some] at h
  all_goals simp_all

/-- A selector is rewritten to the selector of its rewritten base (package `ast2`). -/
theorem rewriteExpr_selector2 (recv : String) (x : Expr) (sel : String) :
    rewriteExpr recv (.selectorExpr x sel) = (rewriteExpr recv x).map (fun x2 => .selectorExpr x2 sel) := by
  simp only [rewriteExpr]
  cases rewriteExpr recv x <;> rfl

/-- Only a selector of the same name is rewritten to a selector (package `ast2`). -/
theorem rewriteExpr_selector_inv2 (recv : String) (e y : Expr) (sel : String)
    (h : rewriteExpr recv e = some (.selectorExpr y sel)) :
    ∃ y0, e = .selectorExpr y0 sel ∧ rewriteExpr recv y0 = some y := by
  cases e
  case callExpr c =>
    simp only [rewriteExpr] at h
    obtain ⟨c2, hc⟩ := rewriteCall_isCall2 recv c _ h
    cases hc
  case selectorExpr y0 s0 =>
    simp [rewriteExpr, Option.bind_eq_some] at h
    obtain ⟨a, ha, h1, h2⟩ := h
    subst h1; subst h2
    exact ⟨y0, rfl, ha⟩
  all_goals
    simp [rewriteExpr, Option.bind_eq_some] at h

/-- Rewriting does not change whether an expression is `utils.Logger` (package `ast2`). -/
theorem isUtilsLogger_rewrite2 (recv : String) (x x2 : Expr) (h : rewriteExpr recv x = some x2) :
    isUtilsLogger x2 = isUtilsLogger x := by
  rw [Bool.eq_iff_iff, isUtilsLogger_iff2, isUtilsLogger_iff2]
  constructor
  · intro h2
    subst h2
    obtain ⟨y0, rfl, hy⟩ := rewriteExpr_selector_inv2 recv _ _ _ h
    rw [rewriteExpr_ident_inv2 recv _ _ hy]
  · intro h2
    subst h2
    have : rewriteExpr recv (.selectorExpr (.ident "utils") "Logger")
        = some (.selectorExpr (.ident "utils") "Logger") := rfl
    rw [this] at h
    exact (Option.some.inj h).symm

/-- Rewriting an argument list keeps its length (package `ast2`). -/
theorem rewriteExprs_length2 (recv : String) (args args2 : List Expr) (h : rewriteExprs recv args = some args2) :
    args2.length = args.length := by
  induction args generalizing args2 with
  | nil =>
      simp only [rewriteExprs, Option.some.injEq] at h
      subst h; rfl
  | cons a as ih =>
      simp only [rewriteExprs, Option.bind_eq_bind, Option.bind_eq_some, Option.pure_def,
        Option.some.injEq] at h
      obtain ⟨a2, _, as2, has, h⟩ := h
      subst h
      simp [ih as2 has]

/-- The behaviour of `rewriteExpr` at a call expression (package `ast2`). -/
theorem rewriteExpr_call_contract2 (recv : String) :
    RewritesExactlyLoggerCalls (rewriteExpr recv) (rewriteExprs recv)
      (fun level args => createZerologCall level args recv) := by
  intro fn args
  constructor
  · intro level hl hfn
    subst hfn
    have hl2 := (logLevels_iff2 level).mpr hl
    simp only [rewriteExpr, rewriteCall, Option.bind_eq_bind, Option.pure_def,
      Option.some_bind]
    cases rewriteExprs recv args with
    | none => rfl
    | some a2 =>
        have : isUtilsLogger (.selectorExpr (.ident "utils") "Logger") = true := rfl
        simp [this, hl2]
  · intro hn
    have key : rewriteExpr recv (.callExpr (.mk fn args))
          = (rewriteExpr recv fn).bind (fun fn2 =>
              (rewriteExprs recv args).bind (fun args2 => some (.callExpr (.mk fn2 args2)))) := by
      simp only [rewriteExpr, rewriteCall, Option.bind_eq_bind, Option.pure_def]
      cases h1 : rewriteExpr recv fn with
      | none => rfl
      | some fn2 =>
          cases h2 : rewriteExprs recv args with
          | none => rfl
          | some a2 =>
              simp only [Option.some_bind]
              split
              · rename_i x2 sel
                obtain ⟨x0, hfn, hx0⟩ := rewriteExpr_selector_inv2 recv _ _ _ h1
                have hcond : (isUtilsLogger x2 && logLevels sel) = false := by
                  rw [isUtilsLogger_rewrite2 recv _ _ hx0]
                  cases hb : (isUtilsLogger x0 && logLevels sel) with
                  | false => rfl
                  | true =>
                      exfalso
                      rw [Bool.and_eq_true, isUtilsLogger_iff2, logLevels_iff2] at hb
                      exact hn ⟨sel, hb.2, by rw [hfn, hb.1]⟩
                simp [hcond]
              · rfl
    refine ⟨key, ?_⟩
    intro r hr
    rw [key] at hr
    simp only [Option.bind_eq_some, Option.some.injEq] at hr
    obtain ⟨fn2, h1, a2, h2, hr⟩ := hr
    refine ⟨fn2, a2, hr.symm, rewriteExprs_length2 recv _ _ h2, ?_⟩
    intro x sel hfn
    subst hfn
    simp only [rewriteExpr, Option.bind_eq_bind, Option.bind_eq_some, Option.pure_def,
      Option.some.injEq] at h1
    obtain ⟨x2, _, h1⟩ := h1
    exact ⟨x2, h1.symm⟩


/-- A call that is not a logger call fails the test of `rewriteExpr` on its callee (package `ast2`). -/
theorem isLoggerCall_callExpr2 (fn : Expr) (args : List Expr)
    (h : isLoggerCall (.callExpr (.mk fn args)) = false) (x : Expr) (sel : String)
    (hfn : fn = .selectorExpr x sel) : (isUtilsLogger x && logLevels sel) = false := by
  subst hfn
  simpa [isLoggerCall, CallExpr.fn] using h

mutual
/-- An expression without logger call is rewritten to itself (package `ast2`). -/
theorem rewriteExpr_id2 (recv : String) : ∀ e : Expr, inspectExpr isLoggerCall e = false → rewriteExpr recv e = some e
  | .badExpr, _ => rfl
  | .ident _, _ => rfl
  | .ellipsis _, _ => rfl
  | .basicLit _ _, _ => rfl
  | .funcLit tps ps rs body, h => by
      simp only [inspectExpr, Bool.or_eq_false_iff] at h
      simp [rewriteExpr, rewriteBlock_id2 recv body h.2]
  | .compositeLit t elts, h => by
      simp only [inspectExpr, Bool.or_eq_false_iff] at h
      simp [rewriteExpr, rewriteExprOpt_id2 recv t h.1.2, rewriteExprs_id2 recv elts h.2]
  | .parenExpr x, h => by
      simp only [inspectExpr, Bool.or_eq_false_iff] at h
      simp [rewriteExpr, rewriteExpr_id2 recv x h.2]
  | .selectorExpr x sel, h => by
      simp only [inspectExpr, Bool.or_eq_false_iff] at h
      simp [rewriteExpr, rewriteExpr_id2 recv x h.1.2]
  | .indexExpr x i, h => by
      simp only [inspectExpr, Bool.or_eq_false_iff] at h
      simp [rewriteExpr, rewriteExpr_id2 recv x h.1.2, rewriteExpr_id2 recv i h.2]
  | .indexListExpr _ _, _ => rfl
  | .sliceExpr x lo hi mx s3, h => by
      simp only [inspectExpr, Bool.or_eq_false_iff] at h
      simp [rewriteExpr, rewriteExpr_id2 recv x h.1.1.1.2, rewriteExprOpt_id2 recv lo h.1.1.2,
        rewriteExprOpt_id2 recv hi h.1.2, rewriteExprOpt_id2 recv mx h.2]
  | .typeAssertExpr x t, h => by
      simp only [inspectExpr, Bool.or_eq_false_iff] at h
      simp [rewriteExpr, rewriteExpr_id2 recv x h.1.2, rewriteExprOpt_id2 recv t h.2]
  | .callExpr c, h => by
      simp only [inspectExpr, Bool.or_eq_false_iff] at h
      simp [rewriteExpr, rewriteCall_id2 recv c h.1 h.2]
  | .starExpr x, h => by
      simp only [inspectExpr, Bool.or_eq_false_iff] at h
      simp [rewriteExpr, rewriteExpr_id2 recv x h.2]
  | .unaryExpr op x, h => by
      simp only [inspectExpr, Bool.or_eq_false_iff] at h
      simp [rewriteExpr, rewriteExpr_id2 recv x h.2]
  | .binaryExpr x op y, h => by
      simp only [inspectExpr, Bool.or_eq_false_iff] at h
      simp [rewriteExpr, rewriteExpr_id2 recv x h.1.2, rewriteExpr_id2 recv y h.2]
  | .keyValueExpr k v, h => by
      simp only [inspectExpr, Bool.or_eq_false_iff] at h
      simp [rewriteExpr, rewriteExpr_id2 recv k h.1.2, rewriteExpr_id2 recv v h.2]
  | .arrayType len elt, h => by
      simp only [inspectExpr, Bool.or_eq_false_iff] at h
      simp [rewriteExpr, rewriteExprOpt_id2 recv len h.1.2, rewriteExpr_id2 recv elt h.2]
  | .structType _, _ => rfl
  | .funcType _ _ _, _ => rfl
  | .interfaceType _, _ => rfl
  | .mapType k v, h => by
      simp only [inspectExpr, Bool.or_eq_false_iff] at h
      simp [rewriteExpr, rewriteExpr_id2 recv k h.1.2, rewriteExpr_id2 recv v h.2]
  | .chanType dir v, h => by
      simp only [inspectExpr, Bool.or_eq_false_iff] at h
      simp [rewriteExpr, rewriteExpr_id2 recv v h.2]
/-- A call without logger call is rewritten to itself (package `ast2`). -/
theorem rewriteCall_id2 (recv : String) : ∀ c : CallExpr, isLoggerCall (.callExpr c) = false →
    inspectCall isLoggerCall c = false → rewriteCall recv c = some (.callExpr c)
  | .mk fn args, h0, h => by
      simp only [inspectCall, Bool.or_eq_false_iff] at h
      simp only [rewriteCall, rewriteExpr_id2 recv fn h.1, rewriteExprs_id2 recv args h.2,
        Option.bind_eq_bind, Option.some_bind, Option.pure_def]
      split
      · rename_i x sel
        simp [isLoggerCall_callExpr2 _ _ h0 x sel rfl]
      · rfl
/-- An expression list without logger call is rewritten to itself (package `ast2`). -/
theorem rewriteExprs_id2 (recv : String) : ∀ es : List Expr, inspectExprs isLoggerCall es = false →
    rewriteExprs recv es = some es
  | [], _ => rfl
  | e :: es, h => by
      simp only [inspectExprs, Bool.or_eq_false_iff] at h
      simp [rewriteExprs, rewriteExpr_id2 recv e h.1, rewriteExprs_id2 recv es h.2]
/-- An optional expression without logger call is rewritten to itself (package `ast2`). -/
theorem rewriteExprOpt_id2 (recv : String) : ∀ o : Option Expr, inspectExprOpt isLoggerCall o = false →
    rewriteExprOpt recv o = some o
  | none, _ => rfl
  | some e, h => by
      simp only [inspectExprOpt] at h
      simp [rewriteExprOpt, rewriteExpr_id2 recv e h]
/-- A statement without logger call is rewritten to itself (package `ast2`). -/
theorem rewriteStmt_id2 (recv : String) : ∀ s : Stmt, inspectStmt isLoggerCall s = false →
    rewriteStmt recv s = some s
  | .badStmt, _ => rfl
  | .declStmt _ _, _ => rfl
  | .emptyStmt, _ => rfl
  | .labeledStmt label s, h => by
      simp only [inspectStmt, Bool.or_eq_false_iff] at h
      simp [rewriteStmt, rewriteStmt_id2 recv s h.2]
  | .exprStmt x, h => by
      simp only [inspectStmt] at h
      simp [rewriteStmt, rewriteExpr_id2 recv x h]
  | .sendStmt c v, h => by
      simp only [inspectStmt, Bool.or_eq_false_iff] at h
      simp [rewriteStmt, rewriteExpr_id2 recv c h.1, rewriteExpr_id2 recv v h.2]
  | .incDecStmt x tok, h => by
      simp only [inspectStmt] at h
      simp [rewriteStmt, rewriteExpr_id2 recv x h]
  | .assignStmt lhs tok rhs, h => by
      simp only [inspectStmt, Bool.or_eq_false_iff] at h
      simp [rewriteStmt, rewriteExprs_id2 recv lhs h.1, rewriteExprs_id2 recv rhs h.2]
  | .goStmt c, h => by
      simp only [inspectStmt, Bool.or_eq_false_iff] at h
      simp [rewriteStmt, rewriteCall_id2 recv c h.1 h.2]
  | .deferStmt c, h => by
      simp only [inspectStmt, Bool.or_eq_false_iff] at h
      simp [rewriteStmt, rewriteCall_id2 recv c h.1 h.2]
  | .returnStmt rs, h => by
      simp only [inspectStmt] at h
      simp [rewriteStmt, rewriteExprs_id2 recv rs h]
  | .branchStmt _ _, _ => rfl
  | .blockStmt l, h => by
      simp only [inspectStmt] at h
      simp [rewriteStmt, rewriteBlock_id2 recv l h]
  | .ifStmt init cond body els, h => by
      simp only [inspectStmt, Bool.or_eq_false_iff] at h
      simp [rewriteStmt, rewriteStmtOpt_id2 recv init h.1.1.1, rewriteExpr_id2 recv cond h.1.1.2,
        rewriteBlock_id2 recv body h.1.2, rewriteStmtOpt_id2 recv els h.2]
  | .caseClause l body, h => by
      simp only [inspectStmt, Bool.or_eq_false_iff] at h
      simp [rewriteStmt, rewriteExprs_id2 recv l h.1, rewriteBlock_id2 recv body h.2]
  | .switchStmt init tag body, h => by
      simp only [inspectStmt, Bool.or_eq_false_iff] at h
      simp [rewriteStmt, rewriteStmtOpt_id2 recv init h.1.1, rewriteExprOpt_id2 recv tag h.1.2,
        rewriteBlock_id2 recv body h.2]
  | .typeSwitchStmt init assign body, h => by
      simp only [inspectStmt, Bool.or_eq_false_iff] at h
      simp [rewriteStmt, rewriteStmtOpt_id2 recv init h.1.1, rewriteStmt_id2 recv assign h.1.2,
        rewriteBlock_id2 recv body h.2]
  | .commClause comm body, h => by
      simp only [inspectStmt, Bool.or_eq_false_iff] at h
      simp [rewriteStmt, rewriteStmtOpt_id2 recv comm h.1, rewriteBlock_id2 recv body h.2]
  | .selectStmt body, h => by
      simp only [inspectStmt] at h
      simp [rewriteStmt, rewriteBlock_id2 recv body h]
  | .forStmt init cond post body, h => by
      simp only [inspectStmt, Bool.or_eq_false_iff] at h
      simp [rewriteStmt, rewriteStmtOpt_id2 recv init h.1.1.1, rewriteExprOpt_id2 recv cond h.1.1.2,
        rewriteStmtOpt_id2 recv post h.1.2, rewriteBlock_id2 recv body h.2]
  | .rangeStmt k v tok x body, h => by
      simp only [inspectStmt, Bool.or_eq_false_iff] at h
      simp [rewriteStmt, rewriteExprOpt_id2 recv k h.1.1.1, rewriteExprOpt_id2 recv v h.1.1.2,
        rewriteExpr_id2 recv x h.1.2, rewriteBlock_id2 recv body h.2]
/-- A block without logger call is rewritten to itself (package `ast2`). -/
theorem rewriteBlock_id2 (recv : String) : ∀ ss : List Stmt, inspectStmts isLoggerCall ss = false →
    rewriteBlock recv ss = some ss
  | [], _ => rfl
  | s :: ss, h => by
      simp only [inspectStmts, Bool.or_eq_false_iff] at h
      simp [rewriteBlock, rewriteStmt_id2 recv s h.1, rewriteBlock_id2 recv ss h.2]
/-- An optional statement without logger call is rewritten to itself (package `ast2`). -/
theorem rewriteStmtOpt_id2 (recv : String) : ∀ o : Option Stmt, inspectStmtOpt isLoggerCall o = false →
    rewriteStmtOpt recv o = some o
  | none, _ => rfl
  | some s, h => by
      simp only [inspectStmtOpt] at h
      simp [rewriteStmtOpt, rewriteStmt_id2 recv s h]
end

end Ast2

/-! ## Claims about the traversal and about `modifyAST` -/

open GoAst

/-- C7: in both packages `rewriteExpr` replaces a call by the generated chain exactly when
its callee is the selector `utils.Logger.<level>` with one of the six log levels; every other
call, such as `other.Logger.Info(..)`, `utils.Log.Info(..)`, `logger.Info(..)` or
`utils.Logger.Trace(..)`, comes back as a call with the same method name and the same number
of arguments. -/
theorem rewriteExpr_rewrites_exactly_logger_calls :
    RewritesExactlyLoggerCalls Ast.rewriteExpr Ast.rewriteExprs Ast.createZerologCall
    ∧ (∀ recv, RewritesExactlyLoggerCalls (Ast2.rewriteExpr recv) (Ast2.rewriteExprs recv)
        (fun level args => Ast2.createZerologCall level args recv))
    ∧ (∀ e ∈ [methodCall (.selectorExpr (.ident "other") "Logger") "Info" [strLit "m"],
          methodCall (.selectorExpr (.ident "utils") "Log") "Info" [strLit "m"],
          methodCall (.ident "logger") "Info" [strLit "m"],
          utilsLoggerCall "Trace" [strLit "m"]],
        Ast.rewriteExpr e = some e ∧ Ast2.rewriteExpr "r" e = some e)
    ∧ Ast.rewriteExpr (utilsLoggerCall "Warn" [strLit "m"])
        = some (methodCall (methodCall (.ident "logger") "Warn" []) "Msg" [strLit "m"])
    ∧ Ast2.rewriteExpr "r" (utilsLoggerCall "Warn" [strLit "m"])
        = some (methodCall
            (methodCall (.selectorExpr (.ident "r") "logger") "Warn" []) "Msg" [strLit "m"]) := by
  refine ⟨Ast.rewriteExpr_call_contract, Ast2.rewriteExpr_call_contract2, ?_, rfl, rfl⟩
  intro e he
  simp only [List.mem_cons, List.mem_singleton, List.not_mem_nil, or_false] at he
  rcases he with h | h | h | h <;> subst h <;> exact ⟨rfl, rfl⟩

/-- Witness of C7: `other.Logger.Info("m", x)` is not the source idiom, and package `ast`
returns it as the same call: selector named `Info`, two arguments. -/
theorem rewriteExpr_rewrites_exactly_logger_calls_witness :
    Ast.rewriteExpr (.callExpr (.mk
        (.selectorExpr (.selectorExpr (.ident "other") "Logger") "Info")
        [strLit "m", .ident "x"]))
      = some (.callExpr (.mk
        (.selectorExpr (.selectorExpr (.ident "other") "Logger") "Info")
        [strLit "m", .ident "x"])) :=
  ((rewriteExpr_rewrites_exactly_logger_calls.1
      (.selectorExpr (.selectorExpr (.ident "other") "Logger") "Info")
      [strLit "m", .ident "x"]).2
    (by rintro ⟨level, _, h⟩; simp at h)).1.trans rfl

/-- C8: the traversal is not exhaustive.  For the body
`var f = func() { utils.Logger.Info("x") }; f()` both packages return from `rewriteBlock` with
the body as it was, and `hasZapLoggerCalls` still finds the log call in it. -/
theorem rewriteBlock_leaves_call_in_declStmt :
    Ast.rewriteBlock closureInVarDecl = some closureInVarDecl
    ∧ Ast.hasZapLoggerCalls closureInVarDecl = true
    ∧ Ast2.rewriteBlock "s" closureInVarDecl = some closureInVarDecl
    ∧ Ast2.hasZapLoggerCalls closureInVarDecl = true :=
  ⟨rfl, rfl, rfl, rfl⟩

/-- C9: in both packages a statement or an expression in which `ast.Inspect` finds no call
on `utils.Logger.<level>` is returned by `rewriteStmt` and `rewriteExpr` as the same tree, and
`processFunc` on a function whose body holds no such call returns false and the function as it
was. -/
theorem rewrite_non_interference :
    (∀ e, inspectExpr Ast.isLoggerCall e = false → Ast.rewriteExpr e = some e)
    ∧ (∀ s, inspectStmt Ast.isLoggerCall s = false → Ast.rewriteStmt s = some s)
    ∧ (∀ fd, (∀ b, fd.body = some b → Ast.hasZapLoggerCalls b = false) →
        Ast.processFunc fd = some (fd, false))
    ∧ (∀ recv e, inspectExpr Ast2.isLoggerCall e = false → Ast2.rewriteExpr recv e = some e)
    ∧ (∀ recv s, inspectStmt Ast2.isLoggerCall s = false → Ast2.rewriteStmt recv s = some s)
    ∧ (∀ fd key receivers, (∀ b, fd.body = some b → Ast2.hasZapLoggerCalls b = false) →
        Ast2.processFunc fd key receivers = some (fd, false)) := by
  refine ⟨Ast.rewriteExpr_id, Ast.rewriteStmt_id, ?_, Ast2.rewriteExpr_id2,
    Ast2.rewriteStmt_id2, ?_⟩
  · intro fd h
    unfold Ast.processFunc
    cases hb : fd.body with
    | none => rfl
    | some b => simp [h b hb]
  · intro fd key receivers h
    unfold Ast2.processFunc
    cases hb : fd.body with
    | none => rfl
    | some b => simp [h b hb]

/-- Witness of C9: the statement `if ok { go other.Logger.Info("m") }` holds no call on
`utils.Logger`, and both packages return it unchanged. -/
theorem rewrite_non_interference_witness :
    Ast.rewriteStmt (.ifStmt none (.ident "ok")
        [.goStmt (.mk (.selectorExpr (.selectorExpr (.ident "other") "Logger") "Info")
          [strLit "m"])] none)
      = some (.ifStmt none (.ident "ok")
        [.goStmt (.mk (.selectorExpr (.selectorExpr (.ident "other") "Logger") "Info")
          [strLit "m"])] none)
    ∧ Ast2.rewriteStmt "r" (.ifStmt none (.ident "ok")
        [.goStmt (.mk (.selectorExpr (.selectorExpr (.ident "other") "Logger") "Info")
          [strLit "m"])] none)
      = some (.ifStmt none (.ident "ok")
        [.goStmt (.mk (.selectorExpr (.selectorExpr (.ident "other") "Logger") "Info")
          [strLit "m"])] none) :=
  ⟨rewrite_non_interference.2.1 _ rfl, rewrite_non_interference.2.2.2.2.1 "r" _ rfl⟩

/-- C10: `modifyAST` is not idempotent.  On the file whose method body is
`var f = func() { utils.Logger.Info("x") }; f()` the first run returns true and the second run
returns true again, in both packages, also when `f.Imports` is read again from the tree in
between; run on the same tree, the second run appends the zerolog import (in `ast2` also the
errors import) a second time. -/
theorem modifyAST_second_run_reports_change :
    (Ast.modifyAST closureInVarDeclFile).map Prod.snd = some true
    ∧ (Ast.modifyASTTwice closureInVarDeclFile).map Prod.snd = some true
    ∧ ((Ast.modifyAST closureInVarDeclFile).bind
        (fun r => Ast.modifyAST r.1.reparsed)).map Prod.snd = some true
    ∧ (Ast.modifyAST closureInVarDeclFile).map (fun r => (declImports r.1.decls).map (·.path))
        = some ["\"example.com/utils\"", "\"github.com/rs/zerolog\""]
    ∧ (Ast.modifyASTTwice closureInVarDeclFile).map
          (fun r => (declImports r.1.decls).map (·.path))
        = some ["\"example.com/utils\"", "\"github.com/rs/zerolog\"",
            "\"github.com/rs/zerolog\""]
    ∧ (Ast2.modifyAST closureInVarDeclFile
        (Ast2.processFile.receivers closureInVarDeclFile)).map Prod.snd = some true
    ∧ (Ast2.modifyASTTwice closureInVarDeclFile).map Prod.snd = some true
    ∧ ((Ast2.modifyAST closureInVarDeclFile
          (Ast2.processFile.receivers closureInVarDeclFile)).bind
        (fun r => Ast2.modifyAST r.1.reparsed
          (Ast2.processFile.receivers r.1.reparsed))).map Prod.snd = some true
    ∧ (Ast2.modifyASTTwice closureInVarDeclFile).map
          (fun r => (declImports r.1.decls).map (·.path))
        = some ["\"example.com/utils\"", "\"github.com/pkg/errors\"",
            "\"github.com/rs/zerolog\"", "\"github.com/pkg/errors\"",
            "\"github.com/rs/zerolog\""] := by
  refine ⟨?_, ?_, ?_, ?_, ?_, ?_, ?_, ?_, ?_⟩ <;> rfl

/-! ## Import bookkeeping: `addImport`, `removeImport`, `modifyAST` -/

namespace GoAst

/-- Declarations without import group have no import specs. -/
theorem importSpecs_eq_nil (ds : List Decl) (h : ∀ d ∈ ds, isImportGroup d = false) :
    importSpecs ds = [] := by
  induction ds with
  | nil => rfl
  | cons d rest ih =>
      have hd := h d (List.mem_cons_self _ _)
      have hr := ih (fun e he => h e (List.mem_cons_of_mem _ he))
      cases d with
      | genDecl tok specs =>
          have ht : ¬ tok = Token.IMPORT := by simpa [isImportGroup] using hd
          simp [importSpecs, Decl.importSpecs, ht, hr]
      | badDecl => simp [importSpecs, Decl.importSpecs, hr]
      | funcDecl fd => simp [importSpecs, Decl.importSpecs, hr]

/-- Filtering the specs of a declaration adds no node for `ast.Inspect` to find. -/
theorem inspectSpecs_filter (q : Expr → Bool) (k : Spec → Bool) (specs : List Spec)
    (h : inspectSpecs q (specs.filter k) = true) : inspectSpecs q specs = true := by
  induction specs with
  | nil => exact h
  | cons s ss ih =>
      by_cases hk : k s = true
      · rw [List.filter_cons_of_pos hk] at h
        simp only [inspectSpecs, Bool.or_eq_true] at h ⊢
        exact h.imp id ih
      · rw [List.filter_cons_of_neg hk] at h
        simp only [inspectSpecs, Bool.or_eq_true]
        exact Or.inr (ih h)

end GoAst

namespace Ast
open GoAst

/-- The import specs after `addImport` found a group: the old ones and the new one. -/
theorem countP_toFirstGroup (q : ImportSpec → Bool) (imp : ImportSpec) (ds ds2 : List Decl)
    (h : addImport.toFirstGroup imp ds = some ds2) :
    (importSpecs ds2).countP q = (importSpecs ds).countP q + [imp].countP q := by
  induction ds generalizing ds2 with
  | nil => simp [addImport.toFirstGroup] at h
  | cons d rest ih =>
      cases d with
      | genDecl tok specs =>
          by_cases ht : tok = Token.IMPORT
          · subst ht
            simp only [addImport.toFirstGroup, beq_self_eq_true, if_true, Option.some.injEq] at h
            subst h
            simp only [importSpecs, Decl.importSpecs, List.filterMap_append, Spec.toImportSpec,
              beq_self_eq_true, if_true, List.filterMap_cons, List.filterMap_nil,
              List.countP_append, List.countP_cons, List.countP_nil]
            omega
          · simp only [addImport.toFirstGroup, beq_iff_eq, ht, if_false, Option.map_eq_some'] at h
            obtain ⟨ds3, h3, rfl⟩ := h
            simp [importSpecs, Decl.importSpecs, ht, ih ds3 h3]
      | badDecl =>
          simp only [addImport.toFirstGroup, Option.map_eq_some'] at h
          obtain ⟨ds3, h3, rfl⟩ := h
          simp [importSpecs, Decl.importSpecs, ih ds3 h3]
      | funcDecl fd =>
          simp only [addImport.toFirstGroup, Option.map_eq_some'] at h
          obtain ⟨ds3, h3, rfl⟩ := h
          simp [importSpecs, Decl.importSpecs, ih ds3 h3]

/-- Without an import group `addImport` finds none, and there are no import specs. -/
theorem toFirstGroup_eq_none (imp : ImportSpec) (ds : List Decl) :
    addImport.toFirstGroup imp ds = none ↔ ∀ d ∈ ds, isImportGroup d = false := by
  induction ds with
  | nil => simp [addImport.toFirstGroup]
  | cons d rest ih =>
      cases d with
      | genDecl tok specs =>
          by_cases ht : tok = Token.IMPORT
          · simp [addImport.toFirstGroup, ht, isImportGroup]
          · simp [addImport.toFirstGroup, ht, isImportGroup, ih]
      | badDecl => simp [addImport.toFirstGroup, isImportGroup, ih]
      | funcDecl fd => simp [addImport.toFirstGroup, isImportGroup, ih]

/-- `addImport` adds one import spec with the quoted path to the import groups. -/
theorem countP_addImport (q : ImportSpec → Bool) (f : File) (path name : String) :
    (importSpecs (addImport f path name).decls).countP q
      = (importSpecs f.decls).countP q
        + [ImportSpec.mk (if name != "" then some name else none) (quoted path)].countP q := by
  unfold addImport
  simp only []
  cases h : addImport.toFirstGroup
      (ImportSpec.mk (if name != "" then some name else none) ("\"" ++ path ++ "\"")) f.decls with
  | some ds2 => exact countP_toFirstGroup q _ _ _ h
  | none =>
      have h0 := importSpecs_eq_nil _ ((toFirstGroup_eq_none _ _).mp h)
      simp [importSpecs, Decl.importSpecs, Spec.toImportSpec, h0, quoted]

/-- `removeImport` leaves the import specs with another path, in order. -/
theorem importSpecs_removeImport (path : String) (ds : List Decl) :
    importSpecs (removeImport.decls path ds)
      = (importSpecs ds).filter (fun imp => imp.path != quoted path) := by
  induction ds with
  | nil => rfl
  | cons d rest ih =>
      cases d with
      | genDecl tok specs =>
          by_cases ht : tok = Token.IMPORT
          · subst ht
            have hk : (specs.filter (removeImport.keep path)).filterMap Spec.toImportSpec
                = (specs.filterMap Spec.toImportSpec).filter
                    (fun imp => imp.path != quoted path) := by
              induction specs with
              | nil => rfl
              | cons s ss ihs =>
                  cases s with
                  | importSpec imp =>
                      by_cases hp : imp.path = quoted path
                      · have hp2 : imp.path = "\"" ++ path ++ "\"" := hp
                        simp [List.filter_cons, removeImport.keep, Spec.toImportSpec, hp, hp2,
                          ihs, quoted]
                      · have hp2 : ¬ imp.path = "\"" ++ path ++ "\"" := hp
                        simp [List.filter_cons, removeImport.keep, Spec.toImportSpec, hp, hp2,
                          ihs, quoted]
                  | valueSpec _ _ _ =>
                      simp [List.filter_cons, removeImport.keep, Spec.toImportSpec, ihs]
                  | typeSpec _ _ _ =>
                      simp [List.filter_cons, removeImport.keep, Spec.toImportSpec, ihs]
            simp only [removeImport.decls, beq_self_eq_true, if_true]
            split
            · simp [importSpecs, Decl.importSpecs, hk, ih]
            · rename_i hlen
              have hnil : specs.filter (removeImport.keep path) = [] := by
                cases hf : specs.filter (removeImport.keep path) with
                | nil => rfl
                | cons a as => simp [hf] at hlen
              have hk2 := hk
              rw [hnil] at hk2
              simp only [List.filterMap_nil] at hk2
              simp [importSpecs, Decl.importSpecs, ← hk2, ih]
          · simp [removeImport.decls, importSpecs, Decl.importSpecs, ht, ih]
      | badDecl => simp [removeImport.decls, importSpecs, Decl.importSpecs, ih]
      | funcDecl fd => simp [removeImport.decls, importSpecs, Decl.importSpecs, ih]

/-- A function that `processFunc` reports as unchanged is unchanged. -/
theorem processFunc_false (fd : FuncDecl) (r : FuncDecl × Bool) (h : processFunc fd = some r)
    (hr : r.2 = false) : r.1 = fd := by
  unfold processFunc at h
  split at h
  · cases h; rfl
  · split at h
    · cases h; rfl
    · simp only [Option.bind_eq_bind, Option.bind_eq_some, Option.pure_def,
        Option.some.injEq] at h
      obtain ⟨b2, _, h⟩ := h
      subst h
      simp at hr

/-- The pass over the declarations leaves the import groups as they are. -/
theorem visit_importSpecs (ds : List Decl) (r : List Decl × Bool)
    (h : modifyAST.visit ds = some r) : importSpecs r.1 = importSpecs ds := by
  induction ds generalizing r with
  | nil =>
      simp only [modifyAST.visit, Option.some.injEq] at h
      subst h; rfl
  | cons d rest ih =>
      cases d with
      | funcDecl fd =>
          simp only [modifyAST.visit, Option.bind_eq_bind, Option.bind_eq_some,
            Option.pure_def, Option.some.injEq] at h
          obtain ⟨r1, _, rs, hrs, h⟩ := h
          subst h
          simp [importSpecs, Decl.importSpecs, ih rs hrs]
      | genDecl tok specs =>
          simp only [modifyAST.visit, Option.bind_eq_bind, Option.bind_eq_some,
            Option.pure_def, Option.some.injEq] at h
          obtain ⟨rs, hrs, h⟩ := h
          subst h
          simp [importSpecs, ih rs hrs]
      | badDecl =>
          simp only [modifyAST.visit, Option.bind_eq_bind, Option.bind_eq_some,
            Option.pure_def, Option.some.injEq] at h
          obtain ⟨rs, hrs, h⟩ := h
          subst h
          simp [importSpecs, ih rs hrs]

/-- A pass that reports no change returns the declarations as they were. -/
theorem visit_false (ds : List Decl) (r : List Decl × Bool)
    (h : modifyAST.visit ds = some r) (hr : r.2 = false) : r.1 = ds := by
  induction ds generalizing r with
  | nil =>
      simp only [modifyAST.visit, Option.some.injEq] at h
      subst h; rfl
  | cons d rest ih =>
      cases d with
      | funcDecl fd =>
          simp only [modifyAST.visit, Option.bind_eq_bind, Option.bind_eq_some,
            Option.pure_def, Option.some.injEq] at h
          obtain ⟨r1, h1, rs, hrs, h⟩ := h
          subst h
          simp only [Bool.or_eq_false_iff] at hr
          simp [processFunc_false fd r1 h1 hr.1, ih rs hrs hr.2]
      | genDecl tok specs =>
          simp only [modifyAST.visit, Option.bind_eq_bind, Option.bind_eq_some,
            Option.pure_def, Option.some.injEq] at h
          obtain ⟨rs, hrs, h⟩ := h
          subst h
          simp [ih rs hrs hr]
      | badDecl =>
          simp only [modifyAST.visit, Option.bind_eq_bind, Option.bind_eq_some,
            Option.pure_def, Option.some.injEq] at h
          obtain ⟨rs, hrs, h⟩ := h
          subst h
          simp [ih rs hrs hr]

/-- Removing an import adds no node for `ast.Inspect` to find. -/
theorem inspect_removeImport (q : Expr → Bool) (path : String) (ds : List Decl)
    (h : (removeImport.decls path ds).any (inspectDecl q) = true) :
    ds.any (inspectDecl q) = true := by
  induction ds with
  | nil => simp [removeImport.decls] at h
  | cons d rest ih =>
      cases d with
      | genDecl tok specs =>
          simp only [removeImport.decls] at h
          simp only [List.any_cons, Bool.or_eq_true]
          split at h
          · split at h
            · simp only [List.any_cons, Bool.or_eq_true, inspectDecl] at h
              rcases h with h | h
              · exact Or.inl (inspectSpecs_filter q _ specs h)
              · exact Or.inr (ih h)
            · exact Or.inr (ih h)
          · simp only [List.any_cons, Bool.or_eq_true] at h
            exact h.imp id ih
      | badDecl =>
          simp only [removeImport.decls, List.any_cons, Bool.or_eq_true] at h ⊢
          exact h.imp id ih
      | funcDecl fd =>
          simp only [removeImport.decls, List.any_cons, Bool.or_eq_true] at h ⊢
          exact h.imp id ih

/-- A file that does not use `zap` does not use it after `removeImport` either. -/
theorem usesZap_removeImport (f : File) (path : String) (h : usesZap f = false) :
    usesZap (removeImport f path) = false := by
  cases hu : usesZap (removeImport f path) with
  | false => rfl
  | true =>
      exfalso
      simp only [usesZap, inspectFile, removeImport, Bool.or_eq_true] at hu
      simp only [usesZap, inspectFile, Bool.or_eq_false_iff] at h
      rcases hu with hu | hu
      · rw [h.1] at hu; cases hu
      · rw [inspect_removeImport _ _ _ hu] at h
        exact absurd h.2 (by simp)

/-- After `removeImport` no import spec with the path is left in the import groups. -/
theorem importCount_removeImport (path : String) (ds : List Decl) :
    importCount (removeImport.decls path ds) path = 0 := by
  simp [importCount, importSpecs_removeImport, List.countP_eq_zero]

/-- `removeImport` of one path keeps the number of import specs of a different path. -/
theorem importCount_removeImport_other (path other : String) (ds : List Decl)
    (hne : quoted other ≠ quoted path) :
    importCount (removeImport.decls path ds) other = importCount ds other := by
  simp only [importCount, importSpecs_removeImport, List.countP_filter]
  apply List.countP_congr
  intro imp _
  by_cases hp : imp.path = quoted other
  · have : ¬ imp.path = quoted path := fun e => hne (hp.symm.trans e)
    simp [hp, hne]
  · simp [hp]

/-- The last step of `modifyAST`, the conditional removal of the zap import, keeps the number
of import specs of a different path. -/
theorem importCount_cleanup (f2 : File) (other : String)
    (hne : quoted other ≠ quoted "go.uber.org/zap") :
    importCount (if (!usesZap f2) = true then removeImport f2 "go.uber.org/zap" else f2).decls
        other
      = importCount f2.decls other := by
  split
  · simp only [removeImport, importCount_removeImport_other _ _ _ hne]
  · rfl

/-- `isImportPresent` on a file whose `Imports` agrees with its import groups. -/
theorem isImportPresent_iff (f : File) (path : String) (hi : f.imports = importSpecs f.decls) :
    isImportPresent f path = true ↔ 0 < importCount f.decls path := by
  simp only [isImportPresent, importCount, hi, List.any_eq_true, List.countP_pos_iff, quoted]

/-- In package `ast` a run of `modifyAST` that reports a change leaves exactly one
zerolog import, given that `Imports` agrees with the import groups and holds zerolog at most once. -/
theorem ast_zerolog_once (f g : File) (hi : f.imports = importSpecs f.decls)
    (hle : importCount f.decls "github.com/rs/zerolog" ≤ 1)
    (h : modifyAST f = some (g, true)) :
    importCount g.decls "github.com/rs/zerolog" = 1 := by
  simp only [modifyAST, Option.bind_eq_bind, Option.bind_eq_some, Option.pure_def,
    Option.some.injEq, Prod.mk.injEq] at h
  obtain ⟨r, hr, hg, hm⟩ := h
  have hv := visit_importSpecs _ _ hr
  have hne : quoted "github.com/rs/zerolog" ≠ quoted "go.uber.org/zap" := by decide
  have hz : [ImportSpec.mk (if ("" : String) != "" then some "" else none)
      (quoted "github.com/rs/zerolog")].countP
      (fun imp => imp.path == quoted "github.com/rs/zerolog") = 1 := by decide
  have hp : isImportPresent (File.mk f.name r.1 f.imports) "github.com/rs/zerolog" = true
      ↔ 0 < importCount f.decls "github.com/rs/zerolog" := by
    have := isImportPresent_iff f "github.com/rs/zerolog" hi
    simpa [isImportPresent] using this
  have h2 : importCount (if (!isImportPresent (File.mk f.name r.1 f.imports)
        "github.com/rs/zerolog") = true then
        addImport (File.mk f.name r.1 f.imports) "github.com/rs/zerolog" ""
      else File.mk f.name r.1 f.imports).decls "github.com/rs/zerolog" = 1 := by
    by_cases hpres : isImportPresent (File.mk f.name r.1 f.imports) "github.com/rs/zerolog"
        = true
    · have := hp.mp hpres
      simp only [hpres, Bool.not_true, Bool.false_eq_true, if_false, importCount, hv]
      simp only [importCount] at this hle
      omega
    · have h0 : ¬ 0 < importCount f.decls "github.com/rs/zerolog" := fun h0 => hpres (hp.mpr h0)
      have hpres2 : isImportPresent (File.mk f.name r.1 f.imports) "github.com/rs/zerolog"
          = false := by simpa using hpres
      simp only [hpres2, Bool.not_false, if_true, importCount, countP_addImport, hz, hv]
      simp only [importCount] at h0
      omega
  simp only [hm, if_true] at hg
  subst hg
  rw [importCount_cleanup _ _ hne]
  exact h2

/-- `removeImport` changes nothing when every import group is non-empty and holds
only import specs of another path. -/
theorem removeImport_decls_id (path : String) (ds : List Decl)
    (hw : ∀ tok specs, Decl.genDecl tok specs ∈ ds → tok = Token.IMPORT →
      specs ≠ [] ∧ ∀ s ∈ specs, ∃ imp, s = .importSpec imp ∧ imp.path ≠ quoted path) :
    removeImport.decls path ds = ds := by
  induction ds with
  | nil => rfl
  | cons d rest ih =>
      have hrest := ih (fun tok specs hm => hw tok specs (List.mem_cons_of_mem _ hm))
      cases d with
      | genDecl tok specs =>
          by_cases ht : tok = Token.IMPORT
          · obtain ⟨hne, hall⟩ := hw tok specs (List.mem_cons_self _ _) ht
            have hf : specs.filter (removeImport.keep path) = specs := by
              rw [List.filter_eq_self]
              intro s hs
              obtain ⟨imp, rfl, hp⟩ := hall s hs
              have hp2 : ¬ imp.path = "\"" ++ path ++ "\"" := hp
              simp [removeImport.keep, hp2]
            have hlen : specs.length > 0 := List.length_pos.mpr hne
            simp [removeImport.decls, ht, hf, hlen, hrest]
          · simp [removeImport.decls, ht, hrest]
      | badDecl => simp [removeImport.decls, hrest]
      | funcDecl fd => simp [removeImport.decls, hrest]

/-- `addImport` with an import group: the new spec goes to the end of the first one. -/
theorem toFirstGroup_append (imp : ImportSpec) (pre post : List Decl) (specs : List Spec)
    (hpre : ∀ d ∈ pre, isImportGroup d = false) :
    addImport.toFirstGroup imp (pre ++ .genDecl Token.IMPORT specs :: post)
      = some (pre ++ .genDecl Token.IMPORT (specs ++ [.importSpec imp]) :: post) := by
  induction pre with
  | nil => simp [addImport.toFirstGroup]
  | cons d rest ih =>
      have hd := hpre d (List.mem_cons_self _ _)
      have hr := ih (fun e he => hpre e (List.mem_cons_of_mem _ he))
      cases d with
      | genDecl tok specs2 =>
          have ht : ¬ tok = Token.IMPORT := by simpa [isImportGroup] using hd
          simp [addImport.toFirstGroup, ht, hr]
      | badDecl => simp [addImport.toFirstGroup, hr]
      | funcDecl fd => simp [addImport.toFirstGroup, hr]

/-- `removeImport` is the removal described by `withoutImport`, declaration by
declaration. -/
theorem removeImport_decls_eq (path : String) (ds : List Decl) :
    removeImport.decls path ds = ds.filterMap (withoutImport path) := by
  have hk : removeImport.keep path = (fun s => match s with
      | .importSpec imp => imp.path != quoted path
      | _ => false) := by
    funext s
    cases s <;> rfl
  induction ds with
  | nil => rfl
  | cons d rest ih =>
      cases d with
      | genDecl tok specs =>
          by_cases ht : tok = Token.IMPORT
          · subst ht
            simp only [removeImport.decls, beq_self_eq_true, if_true, List.filterMap_cons,
              withoutImport, ih, hk]
            cases hf : specs.filter (fun s => match s with
                | .importSpec imp => imp.path != quoted path
                | _ => false) with
            | nil => simp
            | cons a as => simp
          · simp [removeImport.decls, withoutImport, ht, ih]
      | badDecl => simp [removeImport.decls, withoutImport, ih]
      | funcDecl fd => simp [removeImport.decls, withoutImport, ih]

/-- After `removeImport` every import group is non-empty and free of the path. -/
theorem removeImport_groups (path : String) (ds : List Decl) (tok : Token) (specs : List Spec)
    (hm : Decl.genDecl tok specs ∈ removeImport.decls path ds) (ht : tok = Token.IMPORT) :
    specs ≠ [] ∧ ∀ imp, Spec.importSpec imp ∈ specs → imp.path ≠ quoted path := by
  induction ds with
  | nil => simp [removeImport.decls] at hm
  | cons d rest ih =>
      cases d with
      | genDecl tok2 specs2 =>
          simp only [removeImport.decls] at hm
          split at hm
          · split at hm
            · rcases List.mem_cons.mp hm with h | h
              · rename_i hlen
                simp only [Decl.genDecl.injEq] at h
                obtain ⟨_, rfl⟩ := h
                refine ⟨fun e => by simp [e] at hlen, ?_⟩
                intro imp himp
                have := (List.mem_filter.mp himp).2
                intro hp
                have hp2 : imp.path = "\"" ++ path ++ "\"" := hp
                simp [removeImport.keep, hp2] at this
              · exact ih h
            · exact ih hm
          · rcases List.mem_cons.mp hm with h | h
            · rename_i hne
              simp only [Decl.genDecl.injEq] at h
              obtain ⟨rfl, _⟩ := h
              exact absurd ht (by simpa using hne)
            · exact ih h
      | badDecl =>
          simp only [removeImport.decls] at hm
          rcases List.mem_cons.mp hm with h | h
          · cases h
          · exact ih h
      | funcDecl fd =>
          simp only [removeImport.decls] at hm
          rcases List.mem_cons.mp hm with h | h
          · cases h
          · exact ih h

/-- `removeImport` keeps the declarations that are not import groups, in order. -/
theorem removeImport_others (path : String) (ds : List Decl) :
    (removeImport.decls path ds).filter (fun d => !isImportGroup d)
      = ds.filter (fun d => !isImportGroup d) := by
  induction ds with
  | nil => rfl
  | cons d rest ih =>
      cases d with
      | genDecl tok specs =>
          by_cases ht : tok = Token.IMPORT
          · subst ht
            simp only [removeImport.decls, beq_self_eq_true, if_true]
            split
            · rw [List.filter_cons_of_neg (by simp [isImportGroup]),
                List.filter_cons_of_neg (by simp [isImportGroup]), ih]
            · rw [List.filter_cons_of_neg (by simp [isImportGroup]), ih]
          · simp only [removeImport.decls, beq_iff_eq, ht, if_false]
            rw [List.filter_cons_of_pos (by simp [isImportGroup, ht]),
              List.filter_cons_of_pos (by simp [isImportGroup, ht]), ih]
      | badDecl =>
          simp only [removeImport.decls]
          rw [List.filter_cons_of_pos (by simp [isImportGroup]),
            List.filter_cons_of_pos (by simp [isImportGroup]), ih]
      | funcDecl fd =>
          simp only [removeImport.decls]
          rw [List.filter_cons_of_pos (by simp [isImportGroup]),
            List.filter_cons_of_pos (by simp [isImportGroup]), ih]

end Ast

namespace Ast2
open GoAst

/-- The import specs after `addImport` found a group: the old ones and the new one (package `ast2`). -/
theorem countP_toFirstGroup2 (q : ImportSpec → Bool) (imp : ImportSpec) (ds ds2 : List Decl)
    (h : addImport.toFirstGroup imp ds = some ds2) :
    (importSpecs ds2).countP q = (importSpecs ds).countP q + [imp].countP q := by
  induction ds generalizing ds2 with
  | nil => simp [addImport.toFirstGroup] at h
  | cons d rest ih =>
      cases d with
      | genDecl tok specs =>
          by_cases ht : tok = Token.IMPORT
          · subst ht
            simp only [addImport.toFirstGroup, beq_self_eq_true, if_true, Option.some.injEq] at h
            subst h
            simp only [importSpecs, Decl.importSpecs, List.filterMap_append, Spec.toImportSpec,
              beq_self_eq_true, if_true, List.filterMap_cons, List.filterMap_nil,
              List.countP_append, List.countP_cons, List.countP_nil]
            omega
          · simp only [addImport.toFirstGroup, beq_iff_eq, ht, if_false, Option.map_eq_some'] at h
            obtain ⟨ds3, h3, rfl⟩ := h
            simp [importSpecs, Decl.importSpecs, ht, ih ds3 h3]
      | badDecl =>
          simp only [addImport.toFirstGroup, Option.map_eq_some'] at h
          obtain ⟨ds3, h3, rfl⟩ := h
          simp [importSpecs, Decl.importSpecs, ih ds3 h3]
      | funcDecl fd =>
          simp only [addImport.toFirstGroup, Option.map_eq_some'] at h
          obtain ⟨ds3, h3, rfl⟩ := h
          simp [importSpecs, Decl.importSpecs, ih ds3 h3]

/-- Without an import group `addImport` finds none, and there are no import specs (package `ast2`). -/
theorem toFirstGroup_eq_none2 (imp : ImportSpec) (ds : List Decl) :
    addImport.toFirstGroup imp ds = none ↔ ∀ d ∈ ds, isImportGroup d = false := by
  induction ds with
  | nil => simp [addImport.toFirstGroup]
  | cons d rest ih =>
      cases d with
      | genDecl tok specs =>
          by_cases ht : tok = Token.IMPORT
          · simp [addImport.toFirstGroup, ht, isImportGroup]
          · simp [addImport.toFirstGroup, ht, isImportGroup, ih]
      | badDecl => simp [addImport.toFirstGroup, isImportGroup, ih]
      | funcDecl fd => simp [addImport.toFirstGroup, isImportGroup, ih]

/-- `addImport` adds one import spec with the quoted path to the import groups (package `ast2`). -/
theorem countP_addImport2 (q : ImportSpec → Bool) (f : File) (path name : String) :
    (importSpecs (addImport f path name).decls).countP q
      = (importSpecs f.decls).countP q
        + [ImportSpec.mk (if name != "" then some name else none) (quoted path)].countP q := by
  unfold addImport
  simp only []
  cases h : addImport.toFirstGroup
      (ImportSpec.mk (if name != "" then some name else none) ("\"" ++ path ++ "\"")) f.decls with
  | some ds2 => exact countP_toFirstGroup2 q _ _ _ h
  | none =>
      have h0 := importSpecs_eq_nil _ ((toFirstGroup_eq_none2 _ _).mp h)
      simp [importSpecs, Decl.importSpecs, Spec.toImportSpec, h0, quoted]

/-- `removeImport` leaves the import specs with another path, in order (package `ast2`). -/
theorem importSpecs_removeImport2 (path : String) (ds : List Decl) :
    importSpecs (removeImport.decls path ds)
      = (importSpecs ds).filter (fun imp => imp.path != quoted path) := by
  induction ds with
  | nil => rfl
  | cons d rest ih =>
      cases d with
      | genDecl tok specs =>
          by_cases ht : tok = Token.IMPORT
          · subst ht
            have hk : (specs.filter (removeImport.keep path)).filterMap Spec.toImportSpec
                = (specs.filterMap Spec.toImportSpec).filter
                    (fun imp => imp.path != quoted path) := by
              induction specs with
              | nil => rfl
              | cons s ss ihs =>
                  cases s with
                  | importSpec imp =>
                      by_cases hp : imp.path = quoted path
                      · have hp2 : imp.path = "\"" ++ path ++ "\"" := hp
                        simp [List.filter_cons, removeImport.keep, Spec.toImportSpec, hp, hp2,
                          ihs, quoted]
                      · have hp2 : ¬ imp.path = "\"" ++ path ++ "\"" := hp
                        simp [List.filter_cons, removeImport.keep, Spec.toImportSpec, hp, hp2,
                          ihs, quoted]
                  | valueSpec _ _ _ =>
                      simp [List.filter_cons, removeImport.keep, Spec.toImportSpec, ihs]
                  | typeSpec _ _ _ =>
                      simp [List.filter_cons, removeImport.keep, Spec.toImportSpec, ihs]
            simp only [removeImport.decls, beq_self_eq_true, if_true]
            split
            · simp [importSpecs, Decl.importSpecs, hk, ih]
            · rename_i hlen
              have hnil : specs.filter (removeImport.keep path) = [] := by
                cases hf : specs.filter (removeImport.keep path) with
                | nil => rfl
                | cons a as => simp [hf] at hlen
              have hk2 := hk
              rw [hnil] at hk2
              simp only [List.filterMap_nil] at hk2
              simp [importSpecs, Decl.importSpecs, ← hk2, ih]
          · simp [removeImport.decls, importSpecs, Decl.importSpecs, ht, ih]
      | badDecl => simp [removeImport.decls, importSpecs, Decl.importSpecs, ih]
      | funcDecl fd => simp [removeImport.decls, importSpecs, Decl.importSpecs, ih]

/-- Removing an import adds no node for `ast.Inspect` to find (package `ast2`). -/
theorem inspect_removeImport2 (q : Expr → Bool) (path : String) (ds : List Decl)
    (h : (removeImport.decls path ds).any (inspectDecl q) = true) :
    ds.any (inspectDecl q) = true := by
  induction ds with
  | nil => simp [removeImport.decls] at h
  | cons d rest ih =>
      cases d with
      | genDecl tok specs =>
          simp only [removeImport.decls] at h
          simp only [List.any_cons, Bool.or_eq_true]
          split at h
          · split at h
            · simp only [List.any_cons, Bool.or_eq_true, inspectDecl] at h
              rcases h with h | h
              · exact Or.inl (inspectSpecs_filter q _ specs h)
              · exact Or.inr (ih h)
            · exact Or.inr (ih h)
          · simp only [List.any_cons, Bool.or_eq_true] at h
            exact h.imp id ih
      | badDecl =>
          simp only [removeImport.decls, List.any_cons, Bool.or_eq_true] at h ⊢
          exact h.imp id ih
      | funcDecl fd =>
          simp only [removeImport.decls, List.any_cons, Bool.or_eq_true] at h ⊢
          exact h.imp id ih

/-- A file that does not use `zap` does not use it after `removeImport` either (package `ast2`). -/
theorem usesZap_removeImport2 (f : File) (path : String) (h : usesZap f = false) :
    usesZap (removeImport f path) = false := by
  cases hu : usesZap (removeImport f path) with
  | false => rfl
  | true =>
      exfalso
      simp only [usesZap, inspectFile, removeImport, Bool.or_eq_true] at hu
      simp only [usesZap, inspectFile, Bool.or_eq_false_iff] at h
      rcases hu with hu | hu
      · rw [h.1] at hu; cases hu
      · rw [inspect_removeImport2 _ _ _ hu] at h
        exact absurd h.2 (by simp)

/-- After `removeImport` no import spec with the path is left in the import groups (package `ast2`). -/
theorem importCount_removeImport2 (path : String) (ds : List Decl) :
    importCount (removeImport.decls path ds) path = 0 := by
  simp [importCount, importSpecs_removeImport2, List.countP_eq_zero]

/-- `removeImport` of one path keeps the number of import specs of a different path (package `ast2`). -/
theorem importCount_removeImport_other2 (path other : String) (ds : List Decl)
    (hne : quoted other ≠ quoted path) :
    importCount (removeImport.decls path ds) other = importCount ds other := by
  simp only [importCount, importSpecs_removeImport2, List.countP_filter]
  apply List.countP_congr
  intro imp _
  by_cases hp : imp.path = quoted other
  · have : ¬ imp.path = quoted path := fun e => hne (hp.symm.trans e)
    simp [hp, hne]
  · simp [hp]

/-- The last step of `modifyAST`, the conditional removal of the zap import, keeps the number
of import specs of a different path (package `ast2`). -/
theorem importCount_cleanup2 (f2 : File) (other : String)
    (hne : quoted other ≠ quoted "go.uber.org/zap") :
    importCount (if (!usesZap f2) = true then removeImport f2 "go.uber.org/zap" else f2).decls
        other
      = importCount f2.decls other := by
  split
  · simp only [removeImport, importCount_removeImport_other2 _ _ _ hne]
  · rfl

/-- `isImportPresent` on a file whose `Imports` agrees with its import groups (package `ast2`). -/
theorem isImportPresent_iff2 (f : File) (path : String) (hi : f.imports = importSpecs f.decls) :
    isImportPresent f path = true ↔ 0 < importCount f.decls path := by
  simp only [isImportPresent, importCount, hi, List.any_eq_true, List.countP_pos_iff, quoted]

/-- `removeImport` changes nothing when every import group is non-empty and holds
only import specs of another path (package `ast2`). -/
theorem removeImport_decls_id2 (path : String) (ds : List Decl)
    (hw : ∀ tok specs, Decl.genDecl tok specs ∈ ds → tok = Token.IMPORT →
      specs ≠ [] ∧ ∀ s ∈ specs, ∃ imp, s = .importSpec imp ∧ imp.path ≠ quoted path) :
    removeImport.decls path ds = ds := by
  induction ds with
  | nil => rfl
  | cons d rest ih =>
      have hrest := ih (fun tok specs hm => hw tok specs (List.mem_cons_of_mem _ hm))
      cases d with
      | genDecl tok specs =>
          by_cases ht : tok = Token.IMPORT
          · obtain ⟨hne, hall⟩ := hw tok specs (List.mem_cons_self _ _) ht
            have hf : specs.filter (removeImport.keep path) = specs := by
              rw [List.filter_eq_self]
              intro s hs
              obtain ⟨imp, rfl, hp⟩ := hall s hs
              have hp2 : ¬ imp.path = "\"" ++ path ++ "\"" := hp
              simp [removeImport.keep, hp2]
            have hlen : specs.length > 0 := List.length_pos.mpr hne
            simp [removeImport.decls, ht, hf, hlen, hrest]
          · simp [removeImport.decls, ht, hrest]
      | badDecl => simp [removeImport.decls, hrest]
      | funcDecl fd => simp [removeImport.decls, hrest]

/-- `addImport` with an import group: the new spec goes to the end of the first one (package `ast2`). -/
theorem toFirstGroup_append2 (imp : ImportSpec) (pre post : List Decl) (specs : List Spec)
    (hpre : ∀ d ∈ pre, isImportGroup d = false) :
    addImport.toFirstGroup imp (pre ++ .genDecl Token.IMPORT specs :: post)
      = some (pre ++ .genDecl Token.IMPORT (specs ++ [.importSpec imp]) :: post) := by
  induction pre with
  | nil => simp [addImport.toFirstGroup]
  | cons d rest ih =>
      have hd := hpre d (List.mem_cons_self _ _)
      have hr := ih (fun e he => hpre e (List.mem_cons_of_mem _ he))
      cases d with
      | genDecl tok specs2 =>
          have ht : ¬ tok = Token.IMPORT := by simpa [isImportGroup] using hd
          simp [addImport.toFirstGroup, ht, hr]
      | badDecl => simp [addImport.toFirstGroup, hr]
      | funcDecl fd => simp [addImport.toFirstGroup, hr]

/-- `removeImport` is the removal described by `withoutImport`, declaration by
declaration (package `ast2`). -/
theorem removeImport_decls_eq2 (path : String) (ds : List Decl) :
    removeImport.decls path ds = ds.filterMap (withoutImport path) := by
  have hk : removeImport.keep path = (fun s => match s with
      | .importSpec imp => imp.path != quoted path
      | _ => false) := by
    funext s
    cases s <;> rfl
  induction ds with
  | nil => rfl
  | cons d rest ih =>
      cases d with
      | genDecl tok specs =>
          by_cases ht : tok = Token.IMPORT
          · subst ht
            simp only [removeImport.decls, beq_self_eq_true, if_true, List.filterMap_cons,
              withoutImport, ih, hk]
            cases hf : specs.filter (fun s => match s with
                | .importSpec imp => imp.path != quoted path
                | _ => false) with
            | nil => simp
            | cons a as => simp
          · simp [removeImport.decls, withoutImport, ht, ih]
      | badDecl => simp [removeImport.decls, withoutImport, ih]
      | funcDecl fd => simp [removeImport.decls, withoutImport, ih]

/-- After `removeImport` every import group is non-empty and free of the path (package `ast2`). -/
theorem removeImport_groups2 (path : String) (ds : List Decl) (tok : Token) (specs : List Spec)
    (hm : Decl.genDecl tok specs ∈ removeImport.decls path ds) (ht : tok = Token.IMPORT) :
    specs ≠ [] ∧ ∀ imp, Spec.importSpec imp ∈ specs → imp.path ≠ quoted path := by
  induction ds with
  | nil => simp [removeImport.decls] at hm
  | cons d rest ih =>
      cases d with
      | genDecl tok2 specs2 =>
          simp only [removeImport.decls] at hm
          split at hm
          · split at hm
            · rcases List.mem_cons.mp hm with h | h
              · rename_i hlen
                simp only [Decl.genDecl.injEq] at h
                obtain ⟨_, rfl⟩ := h
                refine ⟨fun e => by simp [e] at hlen, ?_⟩
                intro imp himp
                have := (List.mem_filter.mp himp).2
                intro hp
                have hp2 : imp.path = "\"" ++ path ++ "\"" := hp
                simp [removeImport.keep, hp2] at this
              · exact ih h
            · exact ih hm
          · rcases List.mem_cons.mp hm with h | h
            · rename_i hne
              simp only [Decl.genDecl.injEq] at h
              obtain ⟨rfl, _⟩ := h
              exact absurd ht (by simpa using hne)
            · exact ih h
      | badDecl =>
          simp only [removeImport.decls] at hm
          rcases List.mem_cons.mp hm with h | h
          · cases h
          · exact ih h
      | funcDecl fd =>
          simp only [removeImport.decls] at hm
          rcases List.mem_cons.mp hm with h | h
          · cases h
          · exact ih h

/-- `removeImport` keeps the declarations that are not import groups, in order (package `ast2`). -/
theorem removeImport_others2 (path : String) (ds : List Decl) :
    (removeImport.decls path ds).filter (fun d => !isImportGroup d)
      = ds.filter (fun d => !isImportGroup d) := by
  induction ds with
  | nil => rfl
  | cons d rest ih =>
      cases d with
      | genDecl tok specs =>
          by_cases ht : tok = Token.IMPORT
          · subst ht
            simp only [removeImport.decls, beq_self_eq_true, if_true]
            split
            · rw [List.filter_cons_of_neg (by simp [isImportGroup]),
                List.filter_cons_of_neg (by simp [isImportGroup]), ih]
            · rw [List.filter_cons_of_neg (by simp [isImportGroup]), ih]
          · simp only [removeImport.decls, beq_iff_eq, ht, if_false]
            rw [List.filter_cons_of_pos (by simp [isImportGroup, ht]),
              List.filter_cons_of_pos (by simp [isImportGroup, ht]), ih]
      | badDecl =>
          simp only [removeImport.decls]
          rw [List.filter_cons_of_pos (by simp [isImportGroup]),
            List.filter_cons_of_pos (by simp [isImportGroup]), ih]
      | funcDecl fd =>
          simp only [removeImport.decls]
          rw [List.filter_cons_of_pos (by simp [isImportGroup]),
            List.filter_cons_of_pos (by simp [isImportGroup]), ih]

end Ast2

namespace Ast2
open GoAst

/-- `addImport` leaves `Imports` as it is (package `ast2`). -/
theorem addImport_imports2 (f : File) (path name : String) :
    (addImport f path name).imports = f.imports := by
  unfold addImport
  simp only []
  split <;> rfl

/-- A function that `processFunc` reports as unchanged is unchanged (package `ast2`). -/
theorem processFunc_false2 (fd : FuncDecl) (key : Nat) (receivers : Receivers)
    (r : FuncDecl × Bool) (h : processFunc fd key receivers = some r) (hr : r.2 = false) :
    r.1 = fd := by
  unfold processFunc at h
  split at h
  · cases h; rfl
  · split at h
    · cases h; rfl
    · split at h
      · cases h; rfl
      · simp only [Option.bind_eq_bind, Option.bind_eq_some, Option.pure_def,
          Option.some.injEq] at h
        obtain ⟨b2, _, h⟩ := h
        subst h
        simp at hr

/-- Without an entry in the receiver map `processFunc` leaves the function alone. -/
theorem processFunc_no_receiver (fd : FuncDecl) (key : Nat) (receivers : Receivers)
    (h : receivers key = none) : processFunc fd key receivers = some (fd, false) := by
  unfold processFunc
  split
  · rfl
  · split
    · rfl
    · simp [h]

/-- The pass over the declarations leaves the import groups as they are (package `ast2`). -/
theorem visit_importSpecs2 (receivers : Receivers) (key : Nat) (ds : List Decl)
    (r : List Decl × Bool) (h : modifyAST.visit receivers key ds = some r) :
    importSpecs r.1 = importSpecs ds := by
  induction ds generalizing r key with
  | nil =>
      simp only [modifyAST.visit, Option.some.injEq] at h
      subst h; rfl
  | cons d rest ih =>
      cases d with
      | funcDecl fd =>
          simp only [modifyAST.visit] at h
          split at h
          · simp only [Option.bind_eq_bind, Option.bind_eq_some, Option.pure_def,
              Option.some.injEq] at h
            obtain ⟨rs, hrs, h⟩ := h
            subst h
            simp [importSpecs, Decl.importSpecs, ih _ rs hrs]
          · simp only [Option.bind_eq_bind, Option.bind_eq_some, Option.pure_def,
              Option.some.injEq] at h
            obtain ⟨r1, _, rs, hrs, h⟩ := h
            subst h
            simp [importSpecs, Decl.importSpecs, ih _ rs hrs]
      | genDecl tok specs =>
          simp only [modifyAST.visit, Option.bind_eq_bind, Option.bind_eq_some,
            Option.pure_def, Option.some.injEq] at h
          obtain ⟨rs, hrs, h⟩ := h
          subst h
          simp [importSpecs, ih _ rs hrs]
      | badDecl =>
          simp only [modifyAST.visit, Option.bind_eq_bind, Option.bind_eq_some,
            Option.pure_def, Option.some.injEq] at h
          obtain ⟨rs, hrs, h⟩ := h
          subst h
          simp [importSpecs, ih _ rs hrs]

/-- A pass that reports no change returns the declarations as they were (package `ast2`). -/
theorem visit_false2 (receivers : Receivers) (key : Nat) (ds : List Decl)
    (r : List Decl × Bool) (h : modifyAST.visit receivers key ds = some r)
    (hr : r.2 = false) : r.1 = ds := by
  induction ds generalizing r key with
  | nil =>
      simp only [modifyAST.visit, Option.some.injEq] at h
      subst h; rfl
  | cons d rest ih =>
      cases d with
      | funcDecl fd =>
          simp only [modifyAST.visit] at h
          split at h
          · simp only [Option.bind_eq_bind, Option.bind_eq_some, Option.pure_def,
              Option.some.injEq] at h
            obtain ⟨rs, hrs, h⟩ := h
            subst h
            simp [ih _ rs hrs hr]
          · simp only [Option.bind_eq_bind, Option.bind_eq_some, Option.pure_def,
              Option.some.injEq] at h
            obtain ⟨r1, h1, rs, hrs, h⟩ := h
            subst h
            simp only [Bool.or_eq_false_iff] at hr
            simp [processFunc_false2 fd _ _ r1 h1 hr.1, ih _ rs hrs hr.2]
      | genDecl tok specs =>
          simp only [modifyAST.visit, Option.bind_eq_bind, Option.bind_eq_some,
            Option.pure_def, Option.some.injEq] at h
          obtain ⟨rs, hrs, h⟩ := h
          subst h
          simp [ih _ rs hrs hr]
      | badDecl =>
          simp only [modifyAST.visit, Option.bind_eq_bind, Option.bind_eq_some,
            Option.pure_def, Option.some.injEq] at h
          obtain ⟨rs, hrs, h⟩ := h
          subst h
          simp [ih _ rs hrs hr]

/-- When no function declaration has an entry in the receiver map, the pass over the
declarations changes nothing and reports no change. -/
theorem visit_no_receiver (receivers : Receivers) (key : Nat) (ds : List Decl)
    (h : ∀ i fd, ds.get? i = some (.funcDecl fd) → receivers (key + i) = none) :
    modifyAST.visit receivers key ds = some (ds, false) := by
  induction ds generalizing key with
  | nil => rfl
  | cons d rest ih =>
      have hrest : modifyAST.visit receivers (key + 1) rest = some (rest, false) := by
        apply ih
        intro i fd hi
        have := h (i + 1) fd (by simpa using hi)
        rw [← this]
        congr 1
        omega
      cases d with
      | funcDecl fd =>
          have h0 : receivers key = none := by simpa using h 0 fd (by simp)
          simp only [modifyAST.visit]
          split
          · simp [hrest]
          · simp [processFunc_no_receiver fd key receivers h0, hrest]
      | genDecl tok specs => simp [modifyAST.visit, hrest]
      | badDecl => simp [modifyAST.visit, hrest]

/-- A run of `modifyAST` that reports no change returns the file as it was (package
`ast2`). -/
theorem modifyAST_false2 (f g : File) (receivers : Receivers)
    (h : modifyAST f receivers = some (g, false)) : g = f := by
  simp only [modifyAST, Option.bind_eq_bind, Option.bind_eq_some, Option.pure_def,
    Option.some.injEq, Prod.mk.injEq] at h
  obtain ⟨r, hr, hg, hm⟩ := h
  have hd := visit_false2 _ _ _ _ hr hm
  simp only [hm, Bool.false_eq_true, if_false] at hg
  subst hg
  rw [hd]

/-- In package `ast2` a run of `modifyAST` that reports a change leaves exactly one
zerolog import, given that `Imports` agrees with the import groups and holds zerolog at most once. -/
theorem ast2_zerolog_once (f g : File) (receivers : Receivers)
    (hi : f.imports = importSpecs f.decls)
    (hle : importCount f.decls "github.com/rs/zerolog" ≤ 1)
    (h : modifyAST f receivers = some (g, true)) :
    importCount g.decls "github.com/rs/zerolog" = 1 := by
  simp only [modifyAST, Option.bind_eq_bind, Option.bind_eq_some, Option.pure_def,
    Option.some.injEq, Prod.mk.injEq] at h
  obtain ⟨r, hr, hg, hm⟩ := h
  have hv := visit_importSpecs2 _ _ _ _ hr
  have hne : quoted "github.com/rs/zerolog" ≠ quoted "go.uber.org/zap" := by decide
  have hz : [ImportSpec.mk (if ("" : String) != "" then some "" else none)
      (quoted "github.com/rs/zerolog")].countP
      (fun imp => imp.path == quoted "github.com/rs/zerolog") = 1 := by decide
  have he : [ImportSpec.mk (if ("" : String) != "" then some "" else none)
      (quoted "github.com/pkg/errors")].countP
      (fun imp => imp.path == quoted "github.com/rs/zerolog") = 0 := by decide
  -- the file after the errors import was handled
  have hg1 : ∀ g1 : File,
      g1 = (if (!isImportPresent (File.mk f.name r.1 f.imports) "github.com/pkg/errors")
              = true then
            addImport (File.mk f.name r.1 f.imports) "github.com/pkg/errors" ""
          else File.mk f.name r.1 f.imports) →
      g1.imports = f.imports
        ∧ importCount g1.decls "github.com/rs/zerolog"
            = importCount f.decls "github.com/rs/zerolog" := by
    intro g1 hg1
    subst hg1
    split
    · refine ⟨addImport_imports2 _ _ _, ?_⟩
      simp only [importCount, countP_addImport2, he, hv, Nat.add_zero]
    · exact ⟨rfl, by simp only [importCount, hv]⟩
  simp only [hm, if_true] at hg
  revert hg
  generalize hgen : (if (!isImportPresent (File.mk f.name r.1 f.imports)
        "github.com/pkg/errors") = true then
      addImport (File.mk f.name r.1 f.imports) "github.com/pkg/errors" ""
    else File.mk f.name r.1 f.imports) = g1
  obtain ⟨himp, hcnt⟩ := hg1 g1 hgen.symm
  intro hg
  have hp : isImportPresent g1 "github.com/rs/zerolog" = true
      ↔ 0 < importCount f.decls "github.com/rs/zerolog" := by
    have := isImportPresent_iff2 f "github.com/rs/zerolog" hi
    simpa [isImportPresent, himp] using this
  have h2 : importCount (if (!isImportPresent g1 "github.com/rs/zerolog") = true then
        addImport g1 "github.com/rs/zerolog" ""
      else g1).decls "github.com/rs/zerolog" = 1 := by
    by_cases hpres : isImportPresent g1 "github.com/rs/zerolog" = true
    · have := hp.mp hpres
      simp only [hpres, Bool.not_true, Bool.false_eq_true, if_false, hcnt]
      omega
    · have h0 : ¬ 0 < importCount f.decls "github.com/rs/zerolog" :=
        fun h0 => hpres (hp.mpr h0)
      have hpres2 : isImportPresent g1 "github.com/rs/zerolog" = false := by
        simpa using hpres
      simp only [hpres2, Bool.not_false, if_true]
      have hadd := countP_addImport2 (fun imp => imp.path == quoted "github.com/rs/zerolog")
        g1 "github.com/rs/zerolog" ""
      simp only [importCount] at hcnt h0 ⊢
      rw [hadd, hz, hcnt]
      omega
  subst hg
  rw [importCount_cleanup2 _ _ hne]
  exact h2

/-- In package `ast2` a run of `modifyAST` that reports a change and leaves no use of `zap`
leaves no zap import either. -/
theorem ast2_zap_removed_when_modified (f g : File) (receivers : Receivers)
    (h : modifyAST f receivers = some (g, true)) (hu : usesZap g = false) :
    importCount g.decls "go.uber.org/zap" = 0 := by
  simp only [modifyAST, Option.bind_eq_bind, Option.bind_eq_some, Option.pure_def,
    Option.some.injEq, Prod.mk.injEq] at h
  obtain ⟨r, hr, hg, hm⟩ := h
  simp only [hm, if_true] at hg
  revert hg
  generalize (if (!isImportPresent
      (if (!isImportPresent (File.mk f.name r.1 f.imports) "github.com/pkg/errors") = true then
          addImport (File.mk f.name r.1 f.imports) "github.com/pkg/errors" ""
        else File.mk f.name r.1 f.imports) "github.com/rs/zerolog") = true then
      addImport
        (if (!isImportPresent (File.mk f.name r.1 f.imports) "github.com/pkg/errors") = true then
          addImport (File.mk f.name r.1 f.imports) "github.com/pkg/errors" ""
        else File.mk f.name r.1 f.imports) "github.com/rs/zerolog" ""
    else
      (if (!isImportPresent (File.mk f.name r.1 f.imports) "github.com/pkg/errors") = true then
          addImport (File.mk f.name r.1 f.imports) "github.com/pkg/errors" ""
        else File.mk f.name r.1 f.imports)) = g2
  intro hg
  by_cases hu2 : usesZap g2 = true
  · simp only [hu2, Bool.not_true, Bool.false_eq_true, if_false] at hg
    subst hg
    rw [hu2] at hu
    cases hu
  · have hu3 : usesZap g2 = false := by simpa using hu2
    simp only [hu3, Bool.not_false, if_true] at hg
    subst hg
    simp [removeImport, importCount_removeImport2]

end Ast2

/-! ## Panics of the strict chain builder -/

namespace Ast
open GoAst

/-- A field of known kind lets the loop go on with a longer chain. -/
theorem loop_known_field (base : CallExpr) (msg f : Expr) (curr : CallExpr)
    (h : isKnownField f = true) :
    ∃ next, ∀ rest, createZerologCall.loop base msg (f :: rest) curr
      = createZerologCall.loop base msg rest next := by
  unfold isKnownField at h
  split at h
  · rename_i name kind args
    simp only [Bool.and_eq_true, beq_iff_eq, Option.isSome_iff_exists] at h
    obtain ⟨rfl, t, ht⟩ := h
    exact ⟨.mk (.selectorExpr (.callExpr curr) t) args,
      fun rest => by simp [createZerologCall.loop, CallExpr.fn, CallExpr.args, ht]⟩
  · cases h

/-- A field that violates the shape makes the loop panic. -/
theorem loop_violation (base : CallExpr) (msg f : Expr) (rest : List Expr) (curr : CallExpr)
    (h : isShapeViolation f = true) :
    createZerologCall.loop base msg (f :: rest) curr = none := by
  unfold isShapeViolation at h
  split at h
  · rename_i name kind args
    have hn : ¬ name = "zap" := by simpa using h
    simp [createZerologCall.loop, CallExpr.fn, hn]
  · rename_i hshape
    simp only [createZerologCall.loop]
    split
    · rename_i fcall
      obtain ⟨fn, args⟩ := fcall
      simp only [CallExpr.fn]
      split
      · rename_i x sel
        split
        · rename_i name
          exact absurd rfl (hshape name sel args)
        · rfl
      · rfl
    · rfl

/-- A well-shaped field of unknown kind ends the loop with the initial call. -/
theorem loop_unknown_kind (base : CallExpr) (msg f : Expr) (rest : List Expr)
    (curr : CallExpr) (hk : isKnownField f = false) (hv : isShapeViolation f = false) :
    createZerologCall.loop base msg (f :: rest) curr = some (.callExpr base) := by
  unfold isShapeViolation at hv
  split at hv
  · rename_i name kind args
    have hn : name = "zap" := by simpa using hv
    subst hn
    have hz : zapToZero kind = none := by
      simpa [isKnownField] using hk
    simp [createZerologCall.loop, CallExpr.fn, hz]
  · cases hv

/-- The field loop panics exactly when the first field that is not of known kind violates
the shape. -/
theorem loop_eq_none_iff (base : CallExpr) (msg : Expr) (fields : List Expr)
    (curr : CallExpr) :
    createZerologCall.loop base msg fields curr = none
      ↔ ∃ g, fields.find? (fun e => !isKnownField e) = some g ∧ isShapeViolation g = true := by
  induction fields generalizing curr with
  | nil => simp [createZerologCall.loop]
  | cons f rest ih =>
      cases hk : isKnownField f with
      | true =>
          obtain ⟨next, hnext⟩ := loop_known_field base msg f curr hk
          rw [hnext rest, ih next]
          simp [List.find?_cons, hk]
      | false =>
          cases hv : isShapeViolation f with
          | true =>
              rw [loop_violation base msg f rest curr hv]
              simp [List.find?_cons, hk, hv]
          | false =>
              rw [loop_unknown_kind base msg f rest curr hk hv]
              simp [List.find?_cons, hk, hv]

end Ast

/-! ## The struct validator -/

namespace CustomValidator

/-- A Go string has length zero exactly when it is empty. -/
theorem utf8ByteSize_eq_zero (s : String) : s.utf8ByteSize = 0 ↔ s = "" := by
  cases s with
  | mk l =>
    cases l with
    | nil => simp [String.utf8ByteSize, String.utf8ByteSize.go]
    | cons c cs =>
      have := Char.utf8Size_pos c
      simp [String.utf8ByteSize, String.utf8ByteSize.go]
      constructor
      · intro h; omega
      · intro h; exact absurd (congrArg String.data h) (by simp)

/-- The rule `required` on a string field rejects exactly the empty string. -/
theorem applyRule_required_string (s : String) (f : StructField) :
    applyRule "required" (Value.ofString s) f
      = if s = "" then some "is required" else none := by
  by_cases h : s = ""
  · subst h; rfl
  · have h2 : ¬ s.utf8ByteSize = 0 := fun h0 => h ((utf8ByteSize_eq_zero s).mp h0)
    simp [applyRule, isEmptyValue, Value.ofString, h, h2]

/-- The rule `string` accepts a string field. -/
theorem applyRule_string_string (s : String) (f : StructField) :
    applyRule "string" (Value.ofString s) f = none := by
  simp [applyRule, Value.ofString]

/-- The rule `number` accepts a pointer field. -/
theorem applyRule_number_ptr (p : Option Int) (f : StructField) :
    applyRule "number" (Value.ofIntPtr p) f = none := by
  simp [applyRule, Value.ofIntPtr]

/-- The rule `optional` has no case and accepts every value. -/
theorem applyRule_optional (v : Value) (f : StructField) :
    applyRule "optional" v f = none := by
  have h : stringsHasPrefix "optional" "enum=" = false := by decide
  simp [applyRule, h]

/-- `contains` is membership in the list. -/
theorem contains_iff (arr : List String) (s : String) : contains arr s = true ↔ s ∈ arr := by
  induction arr with
  | nil => simp [contains]
  | cons v rest ih =>
      by_cases h : v = s
      · simp [contains, h]
      · have h2 : ¬ s = v := fun e => h e.symm
        simp [contains, h, h2, ih]

/-- The enum rule of `CategoryName` accepts exactly the four category names. -/
theorem applyRule_enum_category (s : String) (f : StructField) :
    applyRule "enum=PLATFORM|BRANDING_POSSIBILITIES|GAME_CATEGORIES|TAGS" (Value.ofString s) f
        = none
      ↔ s ∈ [PLATFORM, BRANDING_POSSIBILITIES, GAME_CATEGORIES, TAGS] := by
  have h1 : stringsHasPrefix "enum=PLATFORM|BRANDING_POSSIBILITIES|GAME_CATEGORIES|TAGS"
      "enum=" = true := by decide
  have h2 : stringsSplit
      (stringsTrimPrefix "enum=PLATFORM|BRANDING_POSSIBILITIES|GAME_CATEGORIES|TAGS" "enum=")
      '|' = [PLATFORM, BRANDING_POSSIBILITIES, GAME_CATEGORIES, TAGS] := by decide
  have h3 : ("enum=PLATFORM|BRANDING_POSSIBILITIES|GAME_CATEGORIES|TAGS" == "required")
      = false := by decide
  have h4 : ("enum=PLATFORM|BRANDING_POSSIBILITIES|GAME_CATEGORIES|TAGS" == "string")
      = false := by decide
  have h5 : ("enum=PLATFORM|BRANDING_POSSIBILITIES|GAME_CATEGORIES|TAGS" == "number")
      = false := by decide
  have h6 : ((Value.ofString s).kind != Kind.String) = false := by simp [Value.ofString]
  unfold applyRule
  rw [h3, h4, h5, h1]
  simp only [Bool.false_eq_true, if_false, if_true, h6, h2]
  rw [← contains_iff]
  simp only [Value.ofString]
  by_cases hc : contains [PLATFORM, BRANDING_POSSIBILITIES, GAME_CATEGORIES, TAGS] s = true
  · simp [hc]
  · simp [hc]

/-- The rules `required,string` on a string field reject exactly the empty string. -/
theorem rules_required_string (s : String) (f : StructField) :
    validateStruct.rules (Value.ofString s) f ["required", "string"] = none ↔ s ≠ "" := by
  simp only [validateStruct.rules]
  rw [applyRule_required_string, applyRule_string_string]
  by_cases h : s = "" <;> simp [h]

/-- The rules `number,optional` accept every `*int` field. -/
theorem rules_number_optional (p : Option Int) (f : StructField) :
    validateStruct.rules (Value.ofIntPtr p) f ["number", "optional"] = none := by
  simp only [validateStruct.rules]
  rw [applyRule_number_ptr, applyRule_optional]

/-- The rules of `CategoryName` accept exactly the four category names. -/
theorem rules_category (s : String) (f : StructField) :
    validateStruct.rules (Value.ofString s) f
        ["required", "enum=PLATFORM|BRANDING_POSSIBILITIES|GAME_CATEGORIES|TAGS"] = none
      ↔ s ∈ [PLATFORM, BRANDING_POSSIBILITIES, GAME_CATEGORIES, TAGS] := by
  have he := applyRule_enum_category s f
  simp only [validateStruct.rules]
  rw [applyRule_required_string]
  by_cases h : s = ""
  · subst h
    simp [PLATFORM, BRANDING_POSSIBILITIES, GAME_CATEGORIES, TAGS]
  · simp only [h, if_false]
    rw [← he]
    cases applyRule "enum=PLATFORM|BRANDING_POSSIBILITIES|GAME_CATEGORIES|TAGS"
      (Value.ofString s) f <;> simp

/-- Validation of the four fields of a `GameLibraryTagDto`. -/
theorem validateStruct_dto_iff (e : GameLibraryTagDto) :
    validateStruct e.toInput = none
      ↔ e.GameLibraryTagId ≠ "" ∧ e.TagName ≠ ""
        ∧ e.CategoryName ∈ [PLATFORM, BRANDING_POSSIBILITIES, GAME_CATEGORIES, TAGS] := by
  have hs1 : stringsSplit "required,string" ',' = ["required", "string"] := by decide
  have hs2 : stringsSplit "number,optional" ',' = ["number", "optional"] := by decide
  have hs3 : stringsSplit "required,enum=PLATFORM|BRANDING_POSSIBILITIES|GAME_CATEGORIES|TAGS"
      ',' = ["required", "enum=PLATFORM|BRANDING_POSSIBILITIES|GAME_CATEGORIES|TAGS"] := by
    decide
  have ht1 : ("required,string" == "") = false := by decide
  have ht2 : ("number,optional" == "") = false := by decide
  have ht3 : ("required,enum=PLATFORM|BRANDING_POSSIBILITIES|GAME_CATEGORIES|TAGS" == "")
      = false := by decide
  obtain ⟨tid, tname, tagId, cat⟩ := e
  have r1 := rules_required_string tid (StructField.mk "GameLibraryTagId" "required,string")
  have r2 := rules_required_string tname (StructField.mk "TagName" "required,string")
  have r3 := rules_number_optional tagId (StructField.mk "TagId" "number,optional")
  have r4 := rules_category cat (StructField.mk "CategoryName"
    "required,enum=PLATFORM|BRANDING_POSSIBILITIES|GAME_CATEGORIES|TAGS")
  simp only [validateStruct, GameLibraryTagDto.toInput, validateStruct.fields, ht1, ht2, ht3,
    hs1, hs2, hs3, Bool.false_eq_true, if_false]
  rw [r3, ← r1, ← r2, ← r4]
  cases validateStruct.rules (Value.ofString tid)
      (StructField.mk "GameLibraryTagId" "required,string") ["required", "string"] <;>
    cases validateStruct.rules (Value.ofString tname)
      (StructField.mk "TagName" "required,string") ["required", "string"] <;>
    cases validateStruct.rules (Value.ofString cat) (StructField.mk "CategoryName"
      "required,enum=PLATFORM|BRANDING_POSSIBILITIES|GAME_CATEGORIES|TAGS")
      ["required", "enum=PLATFORM|BRANDING_POSSIBILITIES|GAME_CATEGORIES|TAGS"] <;> simp

end CustomValidator

/-! ## Claims about receivers, imports, panics and the validator -/

/-- C11: in package `ast2`, `processFunc` on a function whose body has no entry in the
receiver map returns false and the function as it was, whatever the body holds; so
`modifyAST` on a file in which no function declaration has an entry (plain functions, methods
with unnamed receiver) returns false and the file, imports included, as it was. -/
theorem ast2_no_receiver_no_rewrite :
    (∀ fd key receivers, receivers key = none →
        Ast2.processFunc fd key receivers = some (fd, false))
    ∧ (∀ (f : File) (receivers : Ast2.Receivers),
        (∀ i fd, f.decls.get? i = some (.funcDecl fd) → receivers i = none) →
        Ast2.modifyAST f receivers = some (f, false))
    ∧ (∀ f : File, (∀ fd, Decl.funcDecl fd ∈ f.decls → Ast2.receiverName fd = none) →
        Ast2.modifyAST f (Ast2.processFile.receivers f) = some (f, false)) := by
  have h2 : ∀ (f : File) (receivers : Ast2.Receivers),
      (∀ i fd, f.decls.get? i = some (.funcDecl fd) → receivers i = none) →
      Ast2.modifyAST f receivers = some (f, false) := by
    intro f receivers h
    have hv := Ast2.visit_no_receiver receivers 0 f.decls (by simpa using h)
    simp [Ast2.modifyAST, hv]
  refine ⟨Ast2.processFunc_no_receiver, h2, ?_⟩
  intro f h
  apply h2
  intro i fd hi
  simp only [Ast2.processFile.receivers, hi]
  exact h fd (List.get?_mem hi)

/-- Witness of C11: in `plainFuncFile` the call `utils.Logger.Info(..)` sits in the plain
function `main`; `hasZapLoggerCalls` finds it, and `modifyAST` returns the file unchanged and
false. -/
theorem ast2_no_receiver_no_rewrite_witness :
    Ast2.hasZapLoggerCalls
        [.exprStmt (utilsLoggerCall "Info"
          [strLit "x", zapField "String" [strLit "k", strLit "v"]])] = true
    ∧ Ast2.modifyAST plainFuncFile (Ast2.processFile.receivers plainFuncFile)
        = some (plainFuncFile, false) :=
  ⟨rfl, ast2_no_receiver_no_rewrite.2.2 plainFuncFile (by
    intro fd h
    simp only [plainFuncFile, sampleFile, List.mem_cons, List.mem_singleton, List.not_mem_nil,
      or_false, Decl.funcDecl.injEq] at h
    rcases h with h | h
    · cases h
    · subst h
      rfl)⟩

/-- C12: in both packages, for a file whose `Imports` list agrees with the import specs of
its import groups and that imports `github.com/rs/zerolog` at most once, a run of `modifyAST`
that returns true leaves exactly one import spec with the path `github.com/rs/zerolog` in
the import groups. -/
theorem modifyAST_zerolog_import_once :
    (∀ f g : File, f.imports = importSpecs f.decls →
        importCount f.decls "github.com/rs/zerolog" ≤ 1 →
        Ast.modifyAST f = some (g, true) →
        importCount g.decls "github.com/rs/zerolog" = 1)
    ∧ (∀ (f g : File) (receivers : Ast2.Receivers), f.imports = importSpecs f.decls →
        importCount f.decls "github.com/rs/zerolog" ≤ 1 →
        Ast2.modifyAST f receivers = some (g, true) →
        importCount g.decls "github.com/rs/zerolog" = 1) :=
  ⟨fun f g hi hle h => Ast.ast_zerolog_once f g hi hle h,
   fun f g receivers hi hle h => Ast2.ast2_zerolog_once f g receivers hi hle h⟩

/-- Witness of C12: package `ast` rewrites the method of `loggerMethodFile`, returns true
and leaves the imports `example.com/utils` and `github.com/rs/zerolog`, the latter once. -/
theorem modifyAST_zerolog_import_once_witness :
    importCount
        (sampleFile receiverS "Run" ["example.com/utils", "github.com/rs/zerolog"]
          [.exprStmt (methodCall
            (methodCall (methodCall (.ident "logger") "Info" []) "Str"
              [strLit "k", strLit "v"])
            "Msg" [strLit "x"])]
          ["example.com/utils", "go.uber.org/zap"]).decls
        "github.com/rs/zerolog" = 1 :=
  modifyAST_zerolog_import_once.1 loggerMethodFile _ rfl (by decide) rfl

/-- C13: in package `ast`, after `modifyAST` returns, an import spec with the path
`go.uber.org/zap` is present in the import groups exactly when one was present before and
`usesZap` still finds a selector on the identifier `zap` in the file, whatever flag
`modifyAST` returns. -/
theorem ast_modifyAST_zap_import_iff (f g : File) (modified : Bool)
    (h : Ast.modifyAST f = some (g, modified)) :
    0 < importCount g.decls "go.uber.org/zap"
      ↔ 0 < importCount f.decls "go.uber.org/zap" ∧ Ast.usesZap g = true := by
  simp only [Ast.modifyAST, Option.bind_eq_bind, Option.bind_eq_some, Option.pure_def,
    Option.some.injEq, Prod.mk.injEq] at h
  obtain ⟨r, hr, hg, _⟩ := h
  have hi := Ast.visit_importSpecs _ _ hr
  have hz : [ImportSpec.mk (if ("" : String) != "" then some "" else none)
      (quoted "github.com/rs/zerolog")].countP
      (fun imp => imp.path == quoted "go.uber.org/zap") = 0 := by decide
  have hcount : ∀ f2 : File,
      f2 = (if r.2 = true then
              if (!Ast.isImportPresent (File.mk f.name r.1 f.imports) "github.com/rs/zerolog")
                  = true then
                Ast.addImport (File.mk f.name r.1 f.imports) "github.com/rs/zerolog" ""
              else File.mk f.name r.1 f.imports
            else File.mk f.name r.1 f.imports) →
      importCount f2.decls "go.uber.org/zap" = importCount f.decls "go.uber.org/zap" := by
    intro f2 hf2
    subst hf2
    split
    · split
      · simp only [importCount, Ast.countP_addImport, hz, hi, Nat.add_zero]
      · simp only [importCount, hi]
    · simp only [importCount, hi]
  revert hg
  generalize hf2 : (if r.2 = true then
              if (!Ast.isImportPresent (File.mk f.name r.1 f.imports) "github.com/rs/zerolog")
                  = true then
                Ast.addImport (File.mk f.name r.1 f.imports) "github.com/rs/zerolog" ""
              else File.mk f.name r.1 f.imports
            else File.mk f.name r.1 f.imports) = f2
  have hc := hcount f2 hf2.symm
  intro hg
  by_cases hu : Ast.usesZap f2 = true
  · simp only [hu, Bool.not_true, Bool.false_eq_true, if_false] at hg
    subst hg
    simp [hc, hu]
  · have hu2 : Ast.usesZap f2 = false := by simpa using hu
    simp only [hu2, Bool.not_false, if_true] at hg
    subst hg
    have h3 := Ast.usesZap_removeImport f2 "go.uber.org/zap" hu2
    simp only [Ast.removeImport] at h3
    simp [Ast.removeImport, Ast.importCount_removeImport, h3]

/-- Witness of C13: `unusedZapFile` imports zap without using it and holds no log call;
`modifyAST` returns false and the file with the import group reduced to `fmt`, so the
zap import was present before, `usesZap` finds nothing, and the import is absent after. -/
theorem ast_modifyAST_zap_import_iff_witness :
    (0 < importCount
        (sampleFile [] "main" ["fmt"]
          [.exprStmt (methodCall (.ident "fmt") "Println" [strLit "x"])]
          ["fmt", "go.uber.org/zap"]).decls "go.uber.org/zap"
      ↔ 0 < importCount unusedZapFile.decls "go.uber.org/zap"
        ∧ Ast.usesZap
            (sampleFile [] "main" ["fmt"]
              [.exprStmt (methodCall (.ident "fmt") "Println" [strLit "x"])]
              ["fmt", "go.uber.org/zap"]) = true)
    ∧ importCount unusedZapFile.decls "go.uber.org/zap" = 1 :=
  ⟨ast_modifyAST_zap_import_iff unusedZapFile _ false rfl, by decide⟩

/-- Counterexample to C14: on `unusedZapFile`, which imports zap without using it and holds no
log call, `ast2.modifyAST` returns false and the file as it was: no selector on `zap` is in
the file and the zap import is still there. -/
theorem ast2_modifyAST_keeps_unused_zap_import :
    Ast2.modifyAST unusedZapFile (Ast2.processFile.receivers unusedZapFile)
        = some (unusedZapFile, false)
    ∧ Ast2.usesZap unusedZapFile = false
    ∧ importCount unusedZapFile.decls "go.uber.org/zap" = 1 :=
  ⟨rfl, rfl, by decide⟩

/-- C14 (amended): in package `ast2`, when `modifyAST` returns true and `usesZap` finds no
selector on the identifier `zap` in the resulting file, no import spec with the path
`go.uber.org/zap` is left in the import groups; when `modifyAST` returns false, the file is
as it was. -/
theorem ast2_modifyAST_zap_import_when_modified (f g : File) (receivers : Ast2.Receivers)
    (modified : Bool) (h : Ast2.modifyAST f receivers = some (g, modified)) :
    (modified = true → Ast2.usesZap g = false → importCount g.decls "go.uber.org/zap" = 0)
    ∧ (modified = false → g = f) := by
  constructor
  · intro hm hu
    subst hm
    exact Ast2.ast2_zap_removed_when_modified f g receivers h hu
  · intro hm
    subst hm
    exact Ast2.modifyAST_false2 f g receivers h

/-- Witness of C14 (amended): package `ast2` rewrites the method of `loggerMethodFile`,
returns true, and the result, in which `zap` is no longer used, has no zap import. -/
theorem ast2_modifyAST_zap_import_when_modified_witness :
    importCount
        (sampleFile receiverS "Run"
          ["example.com/utils", "github.com/pkg/errors", "github.com/rs/zerolog"]
          [.exprStmt (methodCall
            (methodCall (methodCall (.selectorExpr (.ident "s") "logger") "Info" []) "Str"
              [strLit "k", strLit "v"])
            "Msg" [strLit "x"])]
          ["example.com/utils", "go.uber.org/zap"]).decls
        "go.uber.org/zap" = 0 :=
  (ast2_modifyAST_zap_import_when_modified loggerMethodFile _
    (Ast2.processFile.receivers loggerMethodFile) true rfl).1 rfl rfl

/-- Counterexample to C15: on `unusedZapFile`, in which no selector on `zap` occurs,
`ast.modifyAST` returns false and a file whose import group lost the zap import spec: the
declaration list is not the one before the call. -/
theorem ast_modifyAST_false_changes_imports :
    Ast.modifyAST unusedZapFile = some
        (sampleFile [] "main" ["fmt"]
          [.exprStmt (methodCall (.ident "fmt") "Println" [strLit "x"])]
          ["fmt", "go.uber.org/zap"], false)
    ∧ Ast.usesZap unusedZapFile = false
    ∧ (sampleFile [] "main" ["fmt"]
          [.exprStmt (methodCall (.ident "fmt") "Println" [strLit "x"])]
          ["fmt", "go.uber.org/zap"]).decls ≠ unusedZapFile.decls := by
  refine ⟨rfl, rfl, ?_⟩
  intro h
  have := congrArg (fun ds => importCount ds "go.uber.org/zap") h
  revert this
  decide

/-- C15 (amended): in package `ast`, whenever `modifyAST` returns false, the file holds no
selector on the identifier `zap`, and every import group is non-empty and holds only import
specs with a path other than `go.uber.org/zap`, the file, its declaration list included, is
the same after the call as before. -/
theorem ast_modifyAST_no_import_change (f g : File) (h : Ast.modifyAST f = some (g, false))
    (hu : Ast.usesZap f = false)
    (hw : ∀ tok specs, Decl.genDecl tok specs ∈ f.decls → tok = Token.IMPORT →
      specs ≠ [] ∧ ∀ s ∈ specs, ∃ imp, s = .importSpec imp
        ∧ imp.path ≠ quoted "go.uber.org/zap") :
    g = f ∧ g.decls = f.decls := by
  simp only [Ast.modifyAST, Option.bind_eq_bind, Option.bind_eq_some, Option.pure_def,
    Option.some.injEq, Prod.mk.injEq] at h
  obtain ⟨r, hr, hg, hm⟩ := h
  have hd := Ast.visit_false _ _ hr hm
  simp only [hm, Bool.false_eq_true, if_false, hd] at hg
  have hf : File.mk f.name f.decls f.imports = f := rfl
  rw [hf, hu] at hg
  simp only [Bool.not_false, if_true, Ast.removeImport,
    Ast.removeImport_decls_id _ _ hw] at hg
  subst hg
  exact ⟨rfl, rfl⟩

/-- Witness of C15 (amended): `fmtOnlyFile` imports only `fmt` and holds no log call and no
selector on `zap`; `modifyAST` returns false and the file unchanged. -/
theorem ast_modifyAST_no_import_change_witness :
    Ast.modifyAST fmtOnlyFile = some (fmtOnlyFile, false)
    ∧ Ast.usesZap fmtOnlyFile = false
    ∧ (fmtOnlyFile = fmtOnlyFile ∧ fmtOnlyFile.decls = fmtOnlyFile.decls) :=
  ⟨rfl, rfl, ast_modifyAST_no_import_change fmtOnlyFile fmtOnlyFile rfl rfl (by
    intro tok specs hm ht
    simp only [fmtOnlyFile, sampleFile, List.map_cons, List.map_nil, List.mem_cons,
      List.mem_singleton, List.not_mem_nil, or_false, Decl.genDecl.injEq] at hm
    rcases hm with hm | hm
    · obtain ⟨_, rfl⟩ := hm
      refine ⟨by simp, ?_⟩
      intro s hs
      simp only [List.mem_singleton] at hs
      subst hs
      exact ⟨importOf "fmt", rfl, by decide⟩
    · cases hm)⟩

/-- C16: `addImport(f, path, name)` in both packages: when the file has an import group, the
new import spec is appended after the specs of the first one and every other declaration and
spec keeps its place; when it has none, a new import group holding only the new spec becomes
the first declaration and the former declarations follow in their order. -/
theorem addImport_position :
    (∀ (f : File) (path name : String) (pre post : List Decl) (specs : List Spec),
        f.decls = pre ++ .genDecl Token.IMPORT specs :: post →
        (∀ d ∈ pre, isImportGroup d = false) →
        Ast.addImport f path name
          = File.mk f.name
              (pre ++ .genDecl Token.IMPORT
                (specs ++ [.importSpec
                  (ImportSpec.mk (if name != "" then some name else none) (quoted path))])
                :: post)
              f.imports)
    ∧ (∀ (f : File) (path name : String), (∀ d ∈ f.decls, isImportGroup d = false) →
        Ast.addImport f path name
          = File.mk f.name
              (.genDecl Token.IMPORT
                [.importSpec
                  (ImportSpec.mk (if name != "" then some name else none) (quoted path))]
                :: f.decls)
              f.imports)
    ∧ (∀ (f : File) (path name : String) (pre post : List Decl) (specs : List Spec),
        f.decls = pre ++ .genDecl Token.IMPORT specs :: post →
        (∀ d ∈ pre, isImportGroup d = false) →
        Ast2.addImport f path name
          = File.mk f.name
              (pre ++ .genDecl Token.IMPORT
                (specs ++ [.importSpec
                  (ImportSpec.mk (if name != "" then some name else none) (quoted path))])
                :: post)
              f.imports)
    ∧ (∀ (f : File) (path name : String), (∀ d ∈ f.decls, isImportGroup d = false) →
        Ast2.addImport f path name
          = File.mk f.name
              (.genDecl Token.IMPORT
                [.importSpec
                  (ImportSpec.mk (if name != "" then some name else none) (quoted path))]
                :: f.decls)
              f.imports) := by
  refine ⟨?_, ?_, ?_, ?_⟩
  · intro f path name pre post specs hd hpre
    have := Ast.toFirstGroup_append
      (ImportSpec.mk (if name != "" then some name else none) (quoted path)) pre post specs hpre
    simp only [Ast.addImport, hd]
    simp only [quoted] at this
    rw [this]
    rfl
  · intro f path name hno
    have := (Ast.toFirstGroup_eq_none
      (ImportSpec.mk (if name != "" then some name else none) (quoted path)) f.decls).mpr hno
    simp only [Ast.addImport]
    simp only [quoted] at this
    rw [this]
    rfl
  · intro f path name pre post specs hd hpre
    have := Ast2.toFirstGroup_append2
      (ImportSpec.mk (if name != "" then some name else none) (quoted path)) pre post specs hpre
    simp only [Ast2.addImport, hd]
    simp only [quoted] at this
    rw [this]
    rfl
  · intro f path name hno
    have := (Ast2.toFirstGroup_eq_none2
      (ImportSpec.mk (if name != "" then some name else none) (quoted path)) f.decls).mpr hno
    simp only [Ast2.addImport]
    simp only [quoted] at this
    rw [this]
    rfl

/-- Witness of C16: in `fmtOnlyFile` the import group is the first declaration; `addImport`
of zerolog appends the new spec after `fmt` and leaves the function declaration in place. -/
theorem addImport_position_witness :
    Ast.addImport fmtOnlyFile "github.com/rs/zerolog" ""
      = File.mk "p"
          ([] ++ .genDecl Token.IMPORT
            ([.importSpec (importOf "fmt")] ++ [.importSpec
              (ImportSpec.mk (if ("" : String) != "" then some "" else none)
                (quoted "github.com/rs/zerolog"))])
            :: [.funcDecl (FuncDecl.mk [] "main" [] [] []
                (some [.exprStmt (methodCall (.ident "fmt") "Println" [strLit "x"])]))])
          (["fmt"].map importOf) :=
  addImport_position.1 fmtOnlyFile "github.com/rs/zerolog" "" []
    [.funcDecl (FuncDecl.mk [] "main" [] [] []
      (some [.exprStmt (methodCall (.ident "fmt") "Println" [strLit "x"])]))]
    [.importSpec (importOf "fmt")] rfl (by simp)

/-- C17: `removeImport(f, path)` in both packages: the declarations afterwards are those
before with each import group reduced to its import specs of another path, in order, and
dropped exactly when none is left, every other declaration kept in place; so no import group
holds a spec with the path, no import group is empty, the other import specs survive in
order, and the declarations that are not import groups survive in order. -/
theorem removeImport_survivors :
    (∀ (f : File) (path : String),
        (Ast.removeImport f path).name = f.name
        ∧ (Ast.removeImport f path).imports = f.imports
        ∧ (Ast.removeImport f path).decls = f.decls.filterMap (withoutImport path)
        ∧ (∀ tok specs, Decl.genDecl tok specs ∈ (Ast.removeImport f path).decls →
            tok = Token.IMPORT →
            specs ≠ [] ∧ ∀ imp, Spec.importSpec imp ∈ specs → imp.path ≠ quoted path)
        ∧ importSpecs (Ast.removeImport f path).decls
            = (importSpecs f.decls).filter (fun imp => imp.path != quoted path)
        ∧ (Ast.removeImport f path).decls.filter (fun d => !isImportGroup d)
            = f.decls.filter (fun d => !isImportGroup d))
    ∧ (∀ (f : File) (path : String),
        (Ast2.removeImport f path).name = f.name
        ∧ (Ast2.removeImport f path).imports = f.imports
        ∧ (Ast2.removeImport f path).decls = f.decls.filterMap (withoutImport path)
        ∧ (∀ tok specs, Decl.genDecl tok specs ∈ (Ast2.removeImport f path).decls →
            tok = Token.IMPORT →
            specs ≠ [] ∧ ∀ imp, Spec.importSpec imp ∈ specs → imp.path ≠ quoted path)
        ∧ importSpecs (Ast2.removeImport f path).decls
            = (importSpecs f.decls).filter (fun imp => imp.path != quoted path)
        ∧ (Ast2.removeImport f path).decls.filter (fun d => !isImportGroup d)
            = f.decls.filter (fun d => !isImportGroup d))
    ∧ (Ast.removeImport unusedZapFile "go.uber.org/zap").decls = fmtOnlyFile.decls
    ∧ (Ast.removeImport fmtOnlyFile "fmt").decls
        = [.funcDecl (FuncDecl.mk [] "main" [] [] []
            (some [.exprStmt (methodCall (.ident "fmt") "Println" [strLit "x"])]))] := by
  refine ⟨?_, ?_, rfl, rfl⟩
  · intro f path
    exact ⟨rfl, rfl, Ast.removeImport_decls_eq path f.decls,
      fun tok specs hm ht => Ast.removeImport_groups path f.decls tok specs hm ht,
      Ast.importSpecs_removeImport path f.decls, Ast.removeImport_others path f.decls⟩
  · intro f path
    exact ⟨rfl, rfl, Ast2.removeImport_decls_eq2 path f.decls,
      fun tok specs hm ht => Ast2.removeImport_groups2 path f.decls tok specs hm ht,
      Ast2.importSpecs_removeImport2 path f.decls, Ast2.removeImport_others2 path f.decls⟩

/-- C18: package `ast2` does fail on an empty argument list: `createZerologCall("Info", [],
"r")` panics (the guard for `len(args) < 1` evaluates `args[0]`), and so does `rewriteExpr` on
the call `utils.Logger.Info()`; on every non-empty argument list `createZerologCall` returns
an expression. -/
theorem ast2_createZerologCall_empty_args_panics :
    Ast2.createZerologCall "Info" [] "r" = none
    ∧ Ast2.rewriteExpr "r" (utilsLoggerCall "Info" []) = none
    ∧ (∀ (level recv : String) (msg : Expr) (fields : List Expr),
        ∃ r, Ast2.createZerologCall level (msg :: fields) recv = some r) := by
  refine ⟨rfl, rfl, ?_⟩
  intro level recv msg fields
  simp only [Ast2.createZerologCall]
  split <;> exact ⟨_, rfl⟩

namespace Ast
open GoAst

/-- C19: in package `ast`, `createZerologCall` panics exactly when the argument list is empty
or the first field argument that is not a call `zap.K(...)` with `K` a key of `zapToZero`
violates the shape (not a call expression, callee not a selector, or base not the identifier
`zap`); in every other case it returns an expression. -/
theorem ast_createZerologCall_panics_iff (level : String) (args : List Expr) :
    (createZerologCall level args = none
      ↔ args = [] ∨ ∃ msg fields g, args = msg :: fields
          ∧ fields.find? (fun e => !isKnownField e) = some g ∧ isShapeViolation g = true)
    ∧ (createZerologCall level args ≠ none → ∃ r, createZerologCall level args = some r)
    ∧ createZerologCall "Info" [strLit "m", zapField "Int" [strLit "n", .ident "i"],
        .ident "fields"] = none
    ∧ createZerologCall "Info" [strLit "m", zapField "Duration" [strLit "d", .ident "x"],
        .ident "fields"] = some (methodCall (.ident "logger") "Info" []) := by
  refine ⟨?_, ?_, rfl, rfl⟩
  · cases args with
    | nil => simp [createZerologCall]
    | cons msg fields =>
        simp only [createZerologCall, loop_eq_none_iff]
        constructor
        · rintro ⟨g, hg, hv⟩
          exact Or.inr ⟨msg, fields, g, rfl, hg, hv⟩
        · rintro (h | ⟨m2, fs2, g, he, hg, hv⟩)
          · cases h
          · cases he
            exact ⟨g, hg, hv⟩
  · intro h
    exact Option.ne_none_iff_exists'.mp h

end Ast

namespace CustomValidator

/-- C20: `validateStruct` accepts a `GameLibraryTagDto` exactly when `GameLibraryTagId` and
`TagName` are non-empty and `CategoryName` is one of `PLATFORM`, `BRANDING_POSSIBILITIES`,
`GAME_CATEGORIES`, `TAGS`, whatever `TagId` is (changing `TagId` changes neither the test nor
the verdict); the DTO of the test with category `GAME_CATEGORIES` is accepted and the one
with `INVALID_CATEGORY` is rejected. -/
theorem validateStruct_gameLibraryTagDto (d : GameLibraryTagDto) :
    (validateStruct d.toInput = none
      ↔ d.GameLibraryTagId ≠ "" ∧ d.TagName ≠ ""
        ∧ d.CategoryName ∈ [PLATFORM, BRANDING_POSSIBILITIES, GAME_CATEGORIES, TAGS])
    ∧ (∀ tagId : Option Int,
        (validateStruct
            (GameLibraryTagDto.mk d.GameLibraryTagId d.TagName tagId d.CategoryName).toInput
          = none) ↔ validateStruct d.toInput = none)
    ∧ validateStruct (GameLibraryTagDto.mk "123" "Shooter" none "GAME_CATEGORIES").toInput
        = none
    ∧ validateStruct (GameLibraryTagDto.mk "123" "Shooter" none "INVALID_CATEGORY").toInput
        ≠ none := by
  refine ⟨validateStruct_dto_iff d, ?_, by decide, by decide⟩
  intro tagId
  rw [validateStruct_dto_iff, validateStruct_dto_iff]

end CustomValidator

/-! ## Claims about call results, the changed flag, diagnostics, the tables and the small
utilities -/

/-- C21: in both packages, whenever `rewriteExpr` returns on a call expression, the result is
a call expression, and the type assertions of the go-statement and defer-statement cases of
`rewriteStmt` succeed: the statements are returned with that call. -/
theorem rewriteExpr_call_returns_call :
    (∀ (c : CallExpr) (r : Expr), Ast.rewriteExpr (.callExpr c) = some r →
        ∃ c2, r = .callExpr c2 ∧ Ast.rewriteStmt (.goStmt c) = some (.goStmt c2)
          ∧ Ast.rewriteStmt (.deferStmt c) = some (.deferStmt c2))
    ∧ (∀ (recv : String) (c : CallExpr) (r : Expr),
        Ast2.rewriteExpr recv (.callExpr c) = some r →
        ∃ c2, r = .callExpr c2 ∧ Ast2.rewriteStmt recv (.goStmt c) = some (.goStmt c2)
          ∧ Ast2.rewriteStmt recv (.deferStmt c) = some (.deferStmt c2))
    ∧ Ast.rewriteStmt (.goStmt (.mk (.selectorExpr (.selectorExpr (.ident "utils") "Logger")
          "Info") [strLit "x"]))
        = some (.goStmt (.mk (.selectorExpr (.callExpr (.mk (.selectorExpr (.ident "logger")
            "Info") [])) "Msg") [strLit "x"])) := by
  refine ⟨?_, ?_, rfl⟩
  · intro c r h
    simp only [Ast.rewriteExpr] at h
    obtain ⟨c2, rfl⟩ := Ast.rewriteCall_isCall c r h
    exact ⟨c2, rfl, by simp [Ast.rewriteStmt, h], by simp [Ast.rewriteStmt, h]⟩
  · intro recv c r h
    simp only [Ast2.rewriteExpr] at h
    obtain ⟨c2, rfl⟩ := Ast2.rewriteCall_isCall2 recv c r h
    exact ⟨c2, rfl, by simp [Ast2.rewriteStmt, h], by simp [Ast2.rewriteStmt, h]⟩

/-- C22: the changed flag is not faithful.  For the method whose body is
`var f = func() { utils.Logger.Info("x") }; f()`, `processFunc` returns true in both packages
(in `ast2` with the receiver `s` in the map) and the function it returns is the one it was
given: no call was replaced. -/
theorem processFunc_true_without_replacement :
    Ast.processFunc (FuncDecl.mk receiverS "Run" [] [] [] (some closureInVarDecl))
        = some (FuncDecl.mk receiverS "Run" [] [] [] (some closureInVarDecl), true)
    ∧ Ast2.processFunc (FuncDecl.mk receiverS "Run" [] [] [] (some closureInVarDecl)) 0
          (fun _ => some "s")
        = some (FuncDecl.mk receiverS "Run" [] [] [] (some closureInVarDecl), true) :=
  ⟨rfl, rfl⟩

/-- C23: package `ast2` drops fields silently.  For the field arguments `extra` (not a call),
`other.String("k", v)` (callee not a `zap` selector) and `zap.Error()` (an `Error` field
without argument) the chain holds none of them and nothing is printed; only a field of
unknown kind, such as `zap.Unsupported(x)`, produces a line. -/
theorem ast2_createZerologCall_silent_drops :
    Ast2.createZerologCall "Info"
        [strLit "m", .ident "extra", methodCall (.ident "other") "String"
          [strLit "k", .ident "v"], zapField "Error" []] "r"
      = some (methodCall (methodCall (.selectorExpr (.ident "r") "logger") "Info" []) "Msg"
          [strLit "m"])
    ∧ Ast2.createZerologCall.printed
        [.ident "extra", methodCall (.ident "other") "String" [strLit "k", .ident "v"],
          zapField "Error" []] = []
    ∧ Ast2.createZerologCall.printed [zapField "Unsupported" [.ident "x"]]
      = ["Skipping unknown zap field type: Unsupported\n"] :=
  ⟨rfl, rfl, by decide⟩

/-- Counterexample to C24: the kind `Any` is a key of both tables and maps to `Any` in
package `ast` and to `Interface` in package `ast2`. -/
theorem zapToZero_any_differs :
    Ast.zapToZero "Any" = some "Any" ∧ Ast2.zapToZero "Any" = some "Interface"
    ∧ Ast.zapToZero "Any" ≠ Ast2.zapToZero "Any" := by
  decide

/-- C24 (amended): every field kind other than `Any` that is a key of both tables maps to the
same target method name in both; the keys of `ast.zapToZero` are `String`, `Int`, `Any`,
`Error`, `Bool`, all of them keys of `ast2.zapToZero`; in both tables `String` maps to `Str`,
`Int` to `Int`, `Bool` to `Bool` and `Error` to `Err`; `Any` maps to `Any` in package `ast`
and to `Interface` in package `ast2`. -/
theorem zapToZero_tables_agree_except_any (kind t1 t2 : String)
    (h1 : Ast.zapToZero kind = some t1) (h2 : Ast2.zapToZero kind = some t2)
    (hk : kind ≠ "Any") :
    t1 = t2
    ∧ kind ∈ ["String", "Int", "Error", "Bool"]
    ∧ (Ast.zapToZero "String" = some "Str" ∧ Ast2.zapToZero "String" = some "Str")
    ∧ (Ast.zapToZero "Int" = some "Int" ∧ Ast2.zapToZero "Int" = some "Int")
    ∧ (Ast.zapToZero "Bool" = some "Bool" ∧ Ast2.zapToZero "Bool" = some "Bool")
    ∧ (Ast.zapToZero "Error" = some "Err" ∧ Ast2.zapToZero "Error" = some "Err")
    ∧ (Ast.zapToZero "Any" = some "Any" ∧ Ast2.zapToZero "Any" = some "Interface") := by
  have hkeys : kind ∈ ["String", "Int", "Any", "Error", "Bool"] := by
    unfold Ast.zapToZero at h1
    split at h1 <;> simp_all
  simp only [List.mem_cons, List.mem_singleton, List.not_mem_nil, or_false] at hkeys
  refine ⟨?_, ?_, by decide, by decide, by decide, by decide, by decide⟩
  · rcases hkeys with h | h | h | h | h
    all_goals first
      | exact absurd h hk
      | (subst h
         have e1 : some _ = some t1 := h1
         have e2 : some _ = some t2 := h2
         exact (Option.some.inj e1).symm.trans (Option.some.inj e2))
  · rcases hkeys with h | h | h | h | h
    all_goals first
      | exact absurd h hk
      | (subst h; decide)

/-- Witness of C24 (amended): the kind `Error` maps to `Err` in both tables. -/
theorem zapToZero_tables_agree_except_any_witness :
    Ast.zapToZero "Error" = some "Err" ∧ Ast2.zapToZero "Error" = some "Err"
    ∧ ("Err" : String) = "Err" ∧ "Error" ∈ ["String", "Int", "Error", "Bool"] :=
  ⟨rfl, rfl, (zapToZero_tables_agree_except_any "Error" "Err" "Err" rfl rfl (by decide)).1,
    (zapToZero_tables_agree_except_any "Error" "Err" "Err" rfl rfl (by decide)).2.1⟩

namespace CustomValidator

/-- Counterexample to C25: the rule `number` rejects a value of the numeric kind `Int64` and
one of the numeric kind `Float64` with "must be a number", and accepts a value of the
non-numeric kind `Ptr`. -/
theorem applyRule_number_not_exactly_numbers :
    applyRule "number" (Value.mk Kind.Int64 0 false "" false) (StructField.mk "N" "number")
        = some "must be a number"
    ∧ applyRule "number" (Value.mk Kind.Float64 0 false "" false) (StructField.mk "N" "number")
        = some "must be a number"
    ∧ applyRule "number" (Value.mk Kind.Ptr 0 false "" false) (StructField.mk "N" "number")
        = none
    ∧ isNumericKind Kind.Int64 = true ∧ isNumericKind Kind.Float64 = true
    ∧ isNumericKind Kind.Ptr = false := by
  decide

/-- C25 (amended): the rule `number` returns no error for every value of kind `Int` and for
every pointer, and returns the error "must be a number" for every value of a non-numeric kind
other than `Ptr`. -/
theorem applyRule_number_int_or_ptr (v : Value) (f : StructField) :
    (v.kind = Kind.Int ∨ v.kind = Kind.Ptr → applyRule "number" v f = none)
    ∧ (isNumericKind v.kind = false → v.kind ≠ Kind.Ptr →
        applyRule "number" v f = some "must be a number") := by
  constructor
  · rintro (h | h) <;> simp [applyRule, h]
  · intro hn hp
    have hi : v.kind ≠ Kind.Int := by
      intro h
      rw [h] at hn
      cases hn
    simp [applyRule, hi, hp]

/-- Witness of C25 (amended): an `int` value passes the rule, a string value fails it. -/
theorem applyRule_number_int_or_ptr_witness :
    applyRule "number" (Value.mk Kind.Int 0 false "" false) (StructField.mk "N" "number")
        = none
    ∧ applyRule "number" (Value.ofString "abc") (StructField.mk "N" "number")
        = some "must be a number" :=
  ⟨(applyRule_number_int_or_ptr (Value.mk Kind.Int 0 false "" false)
      (StructField.mk "N" "number")).1 (Or.inl rfl),
   (applyRule_number_int_or_ptr (Value.ofString "abc") (StructField.mk "N" "number")).2
      rfl (by decide)⟩

end CustomValidator

namespace SplitAudio

/-- Values of `strconv.Atoi`: signs, the bounds of `int`, and the order of the checks in the
digit loop (a value beyond 64 bits is reported before a later byte that is no digit is
read). -/
theorem atoi_examples :
    atoi "12" = (12, none)
    ∧ atoi "-7" = (-7, none)
    ∧ atoi "" = (0, some NumError.ErrSyntax)
    ∧ atoi "+" = (0, some NumError.ErrSyntax)
    ∧ atoi "1x" = (0, some NumError.ErrSyntax)
    ∧ atoi "9223372036854775807" = (2 ^ 63 - 1, none)
    ∧ atoi "9223372036854775808" = (2 ^ 63 - 1, some NumError.ErrRange)
    ∧ atoi "-9223372036854775808" = (-(2 ^ 63), none)
    ∧ atoi "-9223372036854775809" = (-(2 ^ 63), some NumError.ErrRange)
    ∧ atoi "9223372036854775808x" = (0, some NumError.ErrSyntax)
    ∧ atoi "99999999999999999999x" = (2 ^ 63 - 1, some NumError.ErrRange) := by
  refine ⟨?_, ?_, ?_, ?_, ?_, ?_, ?_, ?_, ?_, ?_, ?_⟩ <;> decide

/-- C26: `parseTimeToSeconds` returns no error for `a:b:c`, whose components are not numbers
(`strconv.Atoi` fails on `a` and on `b`): the errors of the three conversions are discarded.
For every input containing `:` the error is nil exactly when the input has three components;
what the components are plays no role.  This holds for every model of `float64`. -/
theorem parseTimeToSeconds_ignores_conversion_errors {F : Type} (ops : Float64Ops F) :
    parseTimeToSeconds ops "a:b:c" = (ops.add (ops.ofInt 0) (ops.parseFloat "c").1, none)
    ∧ atoi "a" = (0, some NumError.ErrSyntax)
    ∧ atoi "b" = (0, some NumError.ErrSyntax)
    ∧ (parseTimeToSeconds ops "1:02").2 = some ParseError.invalidFormat
    ∧ (∀ input : String, stringsContains input ':' = true →
        ((parseTimeToSeconds ops input).2 = none
          ↔ (CustomValidator.stringsSplit input ':').length = 3)) := by
  refine ⟨rfl, by decide, by decide, rfl, ?_⟩
  intro input hc
  simp only [parseTimeToSeconds, hc, if_true]
  split
  · rename_i p0 p1 p2 hs
    simp [hs]
  · rename_i hne
    simp only [reduceCtorEq, false_iff]
    intro hlen
    match hs : CustomValidator.stringsSplit input ':', hlen with
    | [p0, p1, p2], _ => exact hne p0 p1 p2 hs

end SplitAudio
